import Mathlib

/-!
# Distributed file system: name node, storage node, sentence documents

A shallow embedding of the coordination plane of the repository
(`src/devices/...`) together with theorems about it.

Conventions of the embedding

* A C string is a `List Char` (one `Char` per byte, no embedded NUL).  A
  bounded copy `strncpy(dst, src, N - 1); dst[N - 1] = 0` is `src.take (N - 1)`.
* A C `int` is an `Int`.  Counters and error codes stay far from the 32-bit
  range; a number read from a frame or a file does not have to, so `atoi`
  returns the value reduced to the range of `int`, as the C library does.
* A singly linked list is a `List`, head first.
* A mutex-protected critical section is one atomic function on the state.
* `malloc`/`strdup` are assumed to succeed; logging and `printf` are dropped.
-/

namespace DFS

/-! ## Constants of `common.h` -/

abbrev Str := List Char

def MAX_FILENAME_LENGTH : Nat := 256
def MAX_USERNAME_LENGTH : Nat := 64
def MAX_SENTENCE_LENGTH : Nat := 2048
def LARGE_BUFFER_SIZE : Nat := 16384
def BUFFER_SIZE : Nat := 8192
def MAX_USERS : Nat := 500
def MAX_FILES_PER_SS : Nat := 1000
def MAX_STORAGE_SERVERS : Nat := 50

def ERR_SUCCESS : Int := 0
def ERR_FILE_NOT_FOUND : Int := 300
def ERR_FILE_ALREADY_EXISTS : Int := 301
def ERR_FILE_OPEN_FAILED : Int := 302
def ERR_FILE_READ_FAILED : Int := 303
def ERR_FILE_WRITE_FAILED : Int := 304
def ERR_FILE_DELETE_FAILED : Int := 305
def ERR_INVALID_FILENAME : Int := 309
def ERR_PERMISSION_DENIED : Int := 401
def ERR_USER_NOT_FOUND : Int := 403
def ERR_SENTENCE_INDEX_OUT_OF_RANGE : Int := 503
def ERR_WORD_INDEX_OUT_OF_RANGE : Int := 504
def ERR_MAX_CLIENTS_REACHED : Int := 601
def ERR_MAX_FILES_REACHED : Int := 603

def ACCESS_NONE : Int := 0
def ACCESS_READ : Int := 1
def ACCESS_WRITE : Int := 2
def ACCESS_READ_WRITE : Int := 3
def ACCESS_OWNER : Int := 4

/-- The NUL character, used by the C code as "no delimiter". -/
def NUL : Char := Char.ofNat 0

/-- The function `is_sentence_delimiter` of `common.h`. -/
def is_sentence_delimiter (c : Char) : Bool := c == '.' || c == '!' || c == '?'

/-- The separator set `" \t\n\r"` handed to `strtok` by the document code. -/
def is_space (c : Char) : Bool := c == ' ' || c == '\t' || c == '\n' || c == '\r'

/-- Worker of `strtok_all`: `cur` is the token being accumulated. -/
def strtok_aux (sep : Char → Bool) : Str → Str → List Str
  | [], cur => if cur.isEmpty then [] else [cur]
  | c :: cs, cur =>
    if sep c then (if cur.isEmpty then strtok_aux sep cs [] else cur :: strtok_aux sep cs [])
    else strtok_aux sep cs (cur ++ [c])

/-- All tokens that repeated `strtok(s, sep)` / `strtok(NULL, sep)` calls return:
the maximal runs of non-separator characters, in order. -/
def strtok_all (sep : Char → Bool) (s : Str) : List Str := strtok_aux sep s []

/-! ## Sentence lock table (`sentence_ops_multiword.c`, lines 13-127) -/

/-- The struct `SentenceLockEntry` without its mutex and `lock_time`
(the time stamp is only logged). -/
structure SentenceLockEntry where
  filename : Str
  sentence_num : Int
  is_locked : Bool
  locked_by : Str
deriving DecidableEq, Repr

/-- The list `ctx->global_locks`. -/
abbrev LockTable := List SentenceLockEntry

/-- The `while (current)` scan of `global_try_lock_sentence`; `none` when no
entry has the key, else the return value and the table after the call. -/
def try_lock_scan (filename : Str) (sentence_num : Int) (username : Str) :
    LockTable → Option (Int × LockTable)
  | [] => none
  | e :: rest =>
    if e.filename = filename ∧ e.sentence_num = sentence_num then
      if e.is_locked then
        if e.locked_by = username then some (1, e :: rest)
        else some (0, e :: rest)
      else
        some (1, { e with is_locked := true,
                          locked_by := username.take (MAX_USERNAME_LENGTH - 1) } :: rest)
    else
      match try_lock_scan filename sentence_num username rest with
      | none => none
      | some (r, rest') => some (r, e :: rest')

/-- The function `global_try_lock_sentence`: returns 1 (granted) or 0 (denied)
and the lock table after the call. -/
def global_try_lock_sentence (locks : LockTable) (filename : Str) (sentence_num : Int)
    (username : Str) : Int × LockTable :=
  match try_lock_scan filename sentence_num username locks with
  | some r => r
  | none =>
    (1, { filename := filename.take (MAX_FILENAME_LENGTH - 1),
          sentence_num := sentence_num,
          is_locked := true,
          locked_by := username.take (MAX_USERNAME_LENGTH - 1) } :: locks)

/-- The function `global_unlock_sentence`: returns 1 (released) or 0 and the
lock table after the call. -/
def global_unlock_sentence : LockTable → Str → Int → Str → Int × LockTable
  | [], _, _, _ => (0, [])
  | e :: rest, filename, sentence_num, username =>
    if e.filename = filename ∧ e.sentence_num = sentence_num then
      if !e.is_locked ∨ e.locked_by ≠ username then (0, e :: rest)
      else (1, { e with is_locked := false, locked_by := [] } :: rest)
    else
      let r := global_unlock_sentence rest filename sentence_num username
      (r.1, e :: r.2)

/-- User `u` holds the lock on `(f, n)`: some entry of the table has that key,
is locked, and names `u`. -/
def Holds (t : LockTable) (f : Str) (n : Int) (u : Str) : Prop :=
  ∃ e ∈ t, e.filename = f ∧ e.sentence_num = n ∧ e.is_locked = true ∧ e.locked_by = u

/-- Number of entries of the table with key `(f, n)`. -/
def key_entries (t : LockTable) (f : Str) (n : Int) : Nat :=
  (t.filter (fun e => decide (e.filename = f ∧ e.sentence_num = n))).length

/-- Lock tables that a storage node can reach.  `handle_client` copies the
file name and the user name of a `WRITE` frame into buffers of
`MAX_FILENAME_LENGTH` and `MAX_USERNAME_LENGTH` bytes before it calls the lock
functions (main.c, lines 287-293), so the lock call only stores names within
these limits. -/
inductive LockReachable : LockTable → Prop
  | empty : LockReachable []
  | try_lock (t : LockTable) (f : Str) (n : Int) (u : Str) :
      LockReachable t → f.length < MAX_FILENAME_LENGTH → u.length < MAX_USERNAME_LENGTH →
      LockReachable (global_try_lock_sentence t f n u).2
  | unlock (t : LockTable) (f : Str) (n : Int) (u : Str) :
      LockReachable t → LockReachable (global_unlock_sentence t f n u).2

/-- The keys of the entries of a lock table, in table order. -/
def lock_keys (t : LockTable) : List (Str × Int) := t.map (fun e => (e.filename, e.sentence_num))

/-- The table after bob locked sentence 0 of `notes.txt` (scenario S4). -/
def bob_table : LockTable := (global_try_lock_sentence [] "notes.txt".toList 0 "bob".toList).2

/-! ## Access control (`nameserver/src/access_control.c`) -/

/-- The struct `FileAccessControl`: `users` pairs `users[i]` with
`access_levels[i]` for `i < user_count`. -/
structure FileAccessControl where
  filename : Str
  owner : Str
  users : List (Str × Int)
deriving DecidableEq, Repr

/-- The array `acl_mgr->acl_list[0 .. acl_count)`. -/
abbrev AccessControlManager := List FileAccessControl

/-- The function `get_file_acl`: the first entry with the file name. -/
def get_file_acl (acl_mgr : AccessControlManager) (filename : Str) : Option FileAccessControl :=
  acl_mgr.find? (fun a => decide (a.filename = filename))

/-- The function `add_file_access`: error code and table after the call. -/
def add_file_access (acl_mgr : AccessControlManager) (filename owner : Str) :
    Int × AccessControlManager :=
  if acl_mgr.length ≥ MAX_FILES_PER_SS * MAX_STORAGE_SERVERS then (ERR_MAX_FILES_REACHED, acl_mgr)
  else if acl_mgr.any (fun a => decide (a.filename = filename)) then
    (ERR_FILE_ALREADY_EXISTS, acl_mgr)
  else
    (ERR_SUCCESS,
     acl_mgr ++ [{ filename := filename.take (MAX_FILENAME_LENGTH - 1),
                   owner := owner.take (MAX_USERNAME_LENGTH - 1),
                   users := [(owner.take (MAX_USERNAME_LENGTH - 1), ACCESS_OWNER)] }])

/-- The user loop of `grant_access`: overwrite the level of the first listing of
`username`; `none` when the user is not listed. -/
def grant_update (username : Str) (access_level : Int) : List (Str × Int) → Option (List (Str × Int))
  | [] => none
  | p :: rest =>
    if p.1 = username then some ((p.1, access_level) :: rest)
    else match grant_update username access_level rest with
      | none => none
      | some rest' => some (p :: rest')

/-- The body of `grant_access` on the entry found for the file. -/
def grant_in_acl (acl : FileAccessControl) (username : Str) (access_level : Int) :
    Int × FileAccessControl :=
  match grant_update username access_level acl.users with
  | some users' => (ERR_SUCCESS, { acl with users := users' })
  | none =>
    if acl.users.length ≥ MAX_USERS then (ERR_MAX_CLIENTS_REACHED, acl)
    else (ERR_SUCCESS,
          { acl with users := acl.users ++ [(username.take (MAX_USERNAME_LENGTH - 1), access_level)] })

/-- The function `grant_access`: error code and table after the call. -/
def grant_access : AccessControlManager → Str → Str → Int → Int × AccessControlManager
  | [], _, _, _ => (ERR_FILE_NOT_FOUND, [])
  | a :: rest, filename, username, access_level =>
    if a.filename = filename then
      let r := grant_in_acl a username access_level
      (r.1, r.2 :: rest)
    else
      let r := grant_access rest filename username access_level
      (r.1, a :: r.2)

/-- The user loop of `revoke_access` on the entry found for the file. -/
def revoke_users (username : Str) : List (Str × Int) → Int × List (Str × Int)
  | [] => (ERR_USER_NOT_FOUND, [])
  | p :: rest =>
    if p.1 = username then
      if p.2 = ACCESS_OWNER then (ERR_PERMISSION_DENIED, p :: rest)
      else (ERR_SUCCESS, rest)
    else
      let r := revoke_users username rest
      (r.1, p :: r.2)

/-- The function `revoke_access`: error code and table after the call. -/
def revoke_access : AccessControlManager → Str → Str → Int × AccessControlManager
  | [], _, _ => (ERR_FILE_NOT_FOUND, [])
  | a :: rest, filename, username =>
    if a.filename = filename then
      let r := revoke_users username a.users
      (r.1, { a with users := r.2 } :: rest)
    else
      let r := revoke_access rest filename username
      (r.1, a :: r.2)

/-- The function `check_access`: the first entry of the file, the first listing
of the user in it, and `user_level >= required_level`. -/
def check_access (acl_mgr : AccessControlManager) (filename username : Str)
    (required_level : Int) : Bool :=
  match acl_mgr.find? (fun a => decide (a.filename = filename)) with
  | none => false
  | some acl =>
    match acl.users.find? (fun p => decide (p.1 = username)) with
    | none => false
    | some p => decide (p.2 ≥ required_level)

/-- User `u` is listed on an ACL entry of file `f` with a level of at least `l`. -/
def ListedWithLevel (t : AccessControlManager) (f u : Str) (l : Int) : Prop :=
  ∃ a ∈ t, a.filename = f ∧ ∃ p ∈ a.users, p.1 = u ∧ l ≤ p.2

/-- User `u` is recorded as the owner of file `f`. -/
def IsOwner (t : AccessControlManager) (f u : Str) : Prop :=
  ∃ a ∈ t, a.filename = f ∧ a.owner = u

/-- The data-model invariant of the ACL table: one entry per file and no user
listed twice on an entry. -/
def ACLWellFormed (t : AccessControlManager) : Prop :=
  (t.map (fun a => a.filename)).Nodup ∧ ∀ a ∈ t, (a.users.map (fun p => p.1)).Nodup

/-- The owner invariant of one entry: the owner is listed exactly once, at level
owner, and nobody else holds level owner. -/
def OwnerListedOnce (a : FileAccessControl) : Prop :=
  (a.users.filter (fun p => decide (p.1 = a.owner))) = [(a.owner, ACCESS_OWNER)] ∧
  ∀ p ∈ a.users, p.2 = ACCESS_OWNER → p.1 = a.owner

/-- ACL tables reachable from the empty table by the three mutators, with
`grant_access` at the levels that `ADDACCESS` issues. -/
inductive ACLReachable : AccessControlManager → Prop
  | empty : ACLReachable []
  | add (t : AccessControlManager) (f o : Str) :
      ACLReachable t → ACLReachable (add_file_access t f o).2
  | grant (t : AccessControlManager) (f u : Str) (l : Int) :
      ACLReachable t → (l = ACCESS_READ ∨ l = ACCESS_WRITE) →
      ACLReachable (grant_access t f u l).2
  | revoke (t : AccessControlManager) (f u : Str) :
      ACLReachable t → ACLReachable (revoke_access t f u).2

/-! ## Routing table (`nameserver/src/hashtable.c`) -/

def HASH_TABLE_SIZE : Nat := 1009

/-- The struct `FileMapping`. -/
structure FileMapping where
  filename : Str
  primary_ss_id : Int
deriving DecidableEq, Repr

/-- The array `buckets[HASH_TABLE_SIZE]` of chains, indexed by bucket number. -/
abbrev FileHashTable := Nat → List FileMapping

/-- The function `init_hash_table`. -/
def init_hash_table : FileHashTable := fun _ => []

/-- The function `hash_filename` (djb2 on `unsigned int`, reduced modulo the
bucket count); bytes are taken as non-negative, which is exact for ASCII. -/
def hash_filename (filename : Str) : Nat :=
  (filename.foldl (fun hash c => ((hash * 32 + hash) + c.toNat) % 4294967296) 5381)
    % HASH_TABLE_SIZE

/-- The chain walk of `add_file_mapping`: update the first node with the name. -/
def chain_update (filename : Str) (primary_ss_id : Int) : List FileMapping →
    Option (List FileMapping)
  | [] => none
  | m :: rest =>
    if m.filename = filename then some ({ m with primary_ss_id := primary_ss_id } :: rest)
    else match chain_update filename primary_ss_id rest with
      | none => none
      | some rest' => some (m :: rest')

/-- The function `add_file_mapping`.  The new node's name is filled by `strncpy`
with no terminator written behind it, so the stored name is the given one for
names shorter than `MAX_FILENAME_LENGTH - 1`; the cut at that length stands for
the longer ones, which is what `strcmp` reads when the byte behind the copied
ones is zero (`add_file_mapping_heap` has the other case). -/
def add_file_mapping (table : FileHashTable) (filename : Str) (primary_ss_id : Int) :
    Int × FileHashTable :=
  let index := hash_filename filename
  match chain_update filename primary_ss_id (table index) with
  | some chain => (ERR_SUCCESS, fun i => if i = index then chain else table i)
  | none =>
    (ERR_SUCCESS, fun i =>
      if i = index then
        { filename := filename.take (MAX_FILENAME_LENGTH - 1),
          primary_ss_id := primary_ss_id } :: table index
      else table i)

/-- The C string that `strcmp` reads from the `filename` array of a node that
`add_file_mapping` has just filled.  `strncpy(.., MAX_FILENAME_LENGTH - 1)` pads
a shorter name with zero bytes and writes no terminator behind a name of
`MAX_FILENAME_LENGTH - 1` bytes or more, so that for such a name the string runs
on into `heap`: the bytes that the malloc'ed node holds from index
`MAX_FILENAME_LENGTH - 1` up to the first zero byte (the byte that `malloc` left
there and, when it is not zero, the bytes of `primary_ss_id` behind it). -/
def stored_filename (heap filename : Str) : Str :=
  if filename.length < MAX_FILENAME_LENGTH - 1 then filename
  else filename.take (MAX_FILENAME_LENGTH - 1) ++ heap

/-- The function `add_file_mapping` on a node whose memory holds `heap` behind
the copied name. -/
def add_file_mapping_heap (heap : Str) (table : FileHashTable) (filename : Str)
    (primary_ss_id : Int) : Int × FileHashTable :=
  let index := hash_filename filename
  match chain_update filename primary_ss_id (table index) with
  | some chain => (ERR_SUCCESS, fun i => if i = index then chain else table i)
  | none =>
    (ERR_SUCCESS, fun i =>
      if i = index then
        { filename := stored_filename heap filename,
          primary_ss_id := primary_ss_id } :: table index
      else table i)

/-- The function `get_file_primary_ss`. -/
def get_file_primary_ss (table : FileHashTable) (filename : Str) : Int :=
  match (table (hash_filename filename)).find? (fun m => decide (m.filename = filename)) with
  | some m => m.primary_ss_id
  | none => -1

/-- The chain walk of `remove_file_mapping`: unlink the first node with the name. -/
def chain_remove (filename : Str) : List FileMapping → Option (List FileMapping)
  | [] => none
  | m :: rest =>
    if m.filename = filename then some rest
    else match chain_remove filename rest with
      | none => none
      | some rest' => some (m :: rest')

/-- The function `remove_file_mapping`. -/
def remove_file_mapping (table : FileHashTable) (filename : Str) : Int × FileHashTable :=
  let index := hash_filename filename
  match chain_remove filename (table index) with
  | some chain => (ERR_SUCCESS, fun i => if i = index then chain else table i)
  | none => (ERR_FILE_NOT_FOUND, table)

/-! ## Membership and placement (`ss_sessions.c`, `storage_server_mgmt.c`) -/

/-- The struct `SSSession` without socket, thread and heartbeat time. -/
structure SSSession where
  ss_id : Int
  ip : Str
  nm_port : Int
  client_port : Int
  is_active : Bool
deriving DecidableEq, Repr

/-- The struct `ClientSession` without socket, thread and connection time. -/
structure ClientSession where
  username : Str
  ip : Str
  port : Int
  is_active : Bool
deriving DecidableEq, Repr

/-- The struct `NameServerConfig` together with the file-level static
`last_assigned_ss` of `storage_server_mgmt.c`. -/
structure NameServerConfig where
  ss_sessions : List SSSession
  ss_session_count : Int
  client_sessions : List ClientSession
  client_session_count : Int
  file_table : FileHashTable
  acl_manager : AccessControlManager
  last_assigned_ss : Int

/-- The function `find_ss_session`: the first active session with the id. -/
def find_ss_session (config : NameServerConfig) (ss_id : Int) : Option SSSession :=
  config.ss_sessions.find? (fun s => decide (s.ss_id = ss_id) && s.is_active)

/-- The array `active_ss` that `find_available_ss` fills from the session chain. -/
def active_ss (config : NameServerConfig) : List Int :=
  ((config.ss_sessions.filter (fun s => s.is_active)).map (fun s => s.ss_id)).take
    MAX_STORAGE_SERVERS

/-- The function `find_available_ss`: the selected id (or -1) and the
configuration with the advanced round-robin cursor. -/
def find_available_ss (config : NameServerConfig) : Int × NameServerConfig :=
  if config.ss_session_count = 0 then (-1, config)
  else
    let active := active_ss config
    if active.length = 0 then (-1, config)
    else
      let cursor := (config.last_assigned_ss + 1) % (active.length : Int)
      (active.getD cursor.toNat (-1), { config with last_assigned_ss := cursor })

/-! ## Name-node command dispatch (`nameserver/src/session_commands.c`) -/

/-- Decimal rendering of an `int`, as `%d` prints it. -/
def int_to_str (n : Int) : Str := (toString n).toList

/-- The function `get_error_message` of `common.h`. -/
def get_error_message (error_code : Int) : Str :=
  if error_code = 100 then "Connection failed".toList
  else if error_code = 101 then "Socket creation failed".toList
  else if error_code = 102 then "Bind failed".toList
  else if error_code = 103 then "Listen failed".toList
  else if error_code = 107 then "Connection timeout".toList
  else if error_code = 108 then "Storage server unavailable".toList
  else if error_code = 109 then "Name server unavailable".toList
  else if error_code = 200 then "Send failed".toList
  else if error_code = 201 then "Receive failed".toList
  else if error_code = 202 then "Invalid message".toList
  else if error_code = 203 then "Protocol error".toList
  else if error_code = 300 then "File not found".toList
  else if error_code = 301 then "File already exists".toList
  else if error_code = 306 then "File is locked by another user".toList
  else if error_code = 303 then "Failed to read file".toList
  else if error_code = 304 then "Failed to write file".toList
  else if error_code = 305 then "Failed to delete file".toList
  else if error_code = 309 then "Invalid filename".toList
  else if error_code = 400 then "Access denied".toList
  else if error_code = 401 then "Permission denied".toList
  else if error_code = 402 then "Only the owner can perform this operation".toList
  else if error_code = 403 then "User not found".toList
  else if error_code = 404 then "Invalid username".toList
  else if error_code = 500 then "Invalid command".toList
  else if error_code = 501 then "Invalid parameter".toList
  else if error_code = 503 then "Sentence index out of range".toList
  else if error_code = 504 then "Word index out of range".toList
  else if error_code = 507 then "Nothing to undo".toList
  else if error_code = 600 then "Out of memory".toList
  else if error_code = 601 then "Maximum clients reached".toList
  else if error_code = 604 then "Resource busy".toList
  else if error_code = 800 then "Internal error".toList
  else if error_code = 801 then "Feature not implemented".toList
  else if error_code = 804 then "System failure".toList
  else if error_code = 802 then "Initialization failed".toList
  else "Unknown error".toList

/-- What the outside world answers while one command is handled: whether
`connect` to the storage node succeeds, the bytes `recv` returns from it (empty:
nothing received), and for `EXEC` the outcome of `popen` (output lines and
exit code, `none` when `popen` fails). -/
structure CommandEnv where
  connect_ok : Bool
  ss_response : Str
  popen_result : Option (List Str × Int)

/-- What one call of `handle_session_command` leaves behind: the new
configuration, the frames sent to the client, and `session->is_active`. -/
structure CmdResult where
  config : NameServerConfig
  replies : List Str
  session_active : Bool

/-- The common body of the `READ`, `WRITE`, `STREAM` and `UNDO` branches (four
textually identical copies in the source, differing in the required level):
ACL check, routing lookup, membership lookup, redirect frame. -/
def redirect_to_ss (config : NameServerConfig) (username filename : Str)
    (required_level : Int) : List Str :=
  if !check_access config.acl_manager filename username required_level then
    ["ERROR|Access denied\n".toList]
  else
    let ss_id := get_file_primary_ss config.file_table filename
    if ss_id < 0 then ["ERROR|File not found\n".toList]
    else
      match find_ss_session config ss_id with
      | none => ["ERROR|SS not available\n".toList]
      | some ss =>
        [("REDIRECT|".toList ++ ss.ip ++ "|".toList ++ int_to_str ss.client_port
            ++ "\n".toList).take (BUFFER_SIZE - 1)]

/-- The owner test of `DELETE`, `ADDACCESS` and `REMACCESS`: the negation of
`!acl || strcmp(acl->owner, session->username) != 0` for `acl = get_file_acl(..)`. -/
def owner_check (acl_mgr : AccessControlManager) (filename username : Str) : Bool :=
  match get_file_acl acl_mgr filename with
  | none => false
  | some acl => decide (acl.owner = username)

/-- The `CREATE` branch. -/
def handle_create (username : Str) (config : NameServerConfig) (env : CommandEnv)
    (toks : List Str) : CmdResult :=
  match toks[1]? with
  | none => ⟨config, ["ERROR|Missing filename\n".toList], true⟩
  | some filename =>
    let sel := find_available_ss config
    if sel.1 < 0 then ⟨sel.2, ["ERROR|No storage server available\n".toList], true⟩
    else
      match find_ss_session sel.2 sel.1 with
      | none => ⟨sel.2, ["ERROR|SS not available\n".toList], true⟩
      | some _ =>
        if !env.connect_ok then ⟨sel.2, ["ERROR|Failed to connect to SS\n".toList], true⟩
        else
          let ss_response := env.ss_response.take (BUFFER_SIZE - 1)
          if ss_response.isEmpty then ⟨sel.2, ["ERROR|No response from SS\n".toList], true⟩
          else if ss_response.take 7 = "SUCCESS".toList then
            ⟨{ sel.2 with
                file_table := (add_file_mapping sel.2.file_table filename sel.1).2,
                acl_manager := (add_file_access sel.2.acl_manager filename username).2 },
              ["SUCCESS|File created successfully!\n".toList], true⟩
          else ⟨sel.2, [ss_response], true⟩

/-- The `VIEW` branch: every chain of the routing table in bucket order, filtered
by read access unless the flags contain the letter a. -/
def handle_view (username : Str) (config : NameServerConfig) (toks : List Str) : CmdResult :=
  let show_all : Bool := match toks[1]? with
    | none => false
    | some flags => flags.contains 'a'
  let files := (List.range HASH_TABLE_SIZE).map (fun i => config.file_table i)
  let shown := files.flatten.filter (fun m =>
    show_all || check_access config.acl_manager m.filename username ACCESS_READ)
  ⟨config,
   ["SUCCESS|\n".toList ++
      (shown.map (fun m => "--> ".toList ++ m.filename ++ "\n".toList)).flatten], true⟩

/-- The `DELETE` branch. -/
def handle_delete (username : Str) (config : NameServerConfig) (env : CommandEnv)
    (toks : List Str) : CmdResult :=
  match toks[1]? with
  | none => ⟨config, ["ERROR|Missing filename\n".toList], true⟩
  | some filename =>
    if !owner_check config.acl_manager filename username then ⟨config, ["ERROR|Only owner can delete\n".toList], true⟩
    else
      let ss_id := get_file_primary_ss config.file_table filename
      if ss_id < 0 then ⟨config, ["ERROR|File not found\n".toList], true⟩
      else
        match find_ss_session config ss_id with
        | none => ⟨config, ["ERROR|SS not available\n".toList], true⟩
        | some _ =>
          if !env.connect_ok then ⟨config, ["ERROR|Failed to connect to SS\n".toList], true⟩
          else
            let ss_response := env.ss_response.take (BUFFER_SIZE - 1)
            if ss_response.isEmpty then ⟨config, ["ERROR|No response from SS\n".toList], true⟩
            else if ss_response.take 7 = "SUCCESS".toList then
              ⟨{ config with file_table := (remove_file_mapping config.file_table filename).2 },
                ["SUCCESS|File deleted successfully!\n".toList], true⟩
            else ⟨config, [ss_response], true⟩

/-- The `ACCESS` section that `INFO` appends to the storage node's block. -/
def info_access_section (acl_mgr : AccessControlManager) (filename : Str) : Str :=
  match get_file_acl acl_mgr filename with
  | none => "ACCESS|No ACL entry for this file\n".toList
  | some acl =>
    let readers := (acl.users.filter (fun p =>
      decide (p.2 = ACCESS_READ) || decide (p.2 = ACCESS_READ_WRITE) ||
      decide (p.2 = ACCESS_WRITE))).map (fun p => p.1)
    let writers := (acl.users.filter (fun p =>
      decide (p.2 = ACCESS_WRITE) || decide (p.2 = ACCESS_READ_WRITE))).map (fun p => p.1)
    let render (l : List Str) : Str :=
      if l.isEmpty then "(none)".toList else (l.intersperse ",".toList).flatten
    "ACCESS|\n".toList ++ "  Owner(RW): ".toList ++ acl.owner ++ "\n".toList ++
      "  Readers(R): ".toList ++ render readers ++ "\n".toList ++
      "  Writers(W): ".toList ++ render writers ++ "\n".toList

/-- The `INFO` branch. -/
def handle_info (config : NameServerConfig) (env : CommandEnv) (toks : List Str) : CmdResult :=
  match toks[1]? with
  | none => ⟨config, ["ERROR|Missing filename\n".toList], true⟩
  | some filename =>
    let ss_id := get_file_primary_ss config.file_table filename
    if ss_id < 0 then ⟨config, ["ERROR|File not found\n".toList], true⟩
    else
      match find_ss_session config ss_id with
      | none => ⟨config, ["ERROR|SS not available\n".toList], true⟩
      | some _ =>
        if !env.connect_ok then ⟨config, ["ERROR|Failed to connect to SS\n".toList], true⟩
        else
          let ss_response := env.ss_response.take (LARGE_BUFFER_SIZE - 1)
          if ss_response.isEmpty then ⟨config, ["ERROR|Failed to get info\n".toList], true⟩
          else
            ⟨config,
             [(ss_response ++ "\n".toList).take (LARGE_BUFFER_SIZE - 1) ++
                info_access_section config.acl_manager filename], true⟩

/-- The `EXEC` branch: ACL check and lookups as for `READ`, then `CLEANREAD` from
the storage node and `popen` of the returned text. -/
def handle_exec (username : Str) (config : NameServerConfig) (env : CommandEnv)
    (toks : List Str) : CmdResult :=
  match toks[1]? with
  | none => ⟨config, ["ERROR|Missing filename\n".toList], true⟩
  | some filename =>
    if !check_access config.acl_manager filename username ACCESS_READ then
      ⟨config, ["ERROR|Access denied\n".toList], true⟩
    else
      let ss_id := get_file_primary_ss config.file_table filename
      if ss_id < 0 then ⟨config, ["ERROR|File not found\n".toList], true⟩
      else
        match find_ss_session config ss_id with
        | none => ⟨config, ["ERROR|SS not available\n".toList], true⟩
        | some _ =>
          if !env.connect_ok then ⟨config, ["ERROR|Failed to connect to SS\n".toList], true⟩
          else
            let ss_response := env.ss_response.take (LARGE_BUFFER_SIZE - 1)
            if ss_response.isEmpty || ss_response.take 8 ≠ "SUCCESS|".toList then
              ⟨config, ["ERROR|Failed to read file\n".toList], true⟩
            else
              match env.popen_result with
              | none => ⟨config, ["ERROR|Execution failed\n".toList], true⟩
              | some (lines, exit_code) =>
                let result := lines.foldl
                  (fun acc line => acc ++ line.take (LARGE_BUFFER_SIZE - acc.length - 1))
                  "SUCCESS|\n".toList
                if exit_code = 0 then ⟨config, [result], true⟩
                else
                  ⟨config,
                   [("ERROR|Command failed with exit code ".toList ++ int_to_str exit_code ++
                      "\n".toList ++ result.drop 8).take (BUFFER_SIZE - 1)], true⟩

/-- The `LIST` branch. -/
def handle_list (config : NameServerConfig) : CmdResult :=
  let active := config.client_sessions.filter (fun c => c.is_active)
  let body := (active.map (fun c => "--> ".toList ++ c.username ++ "\n".toList)).flatten
  ⟨config,
   ["SUCCESS|Users:\n".toList ++ body ++
      (if active.isEmpty then "(No users connected)\n".toList else [])], true⟩

/-- The `ADDACCESS` branch. -/
def handle_addaccess (username : Str) (config : NameServerConfig) (toks : List Str) :
    CmdResult :=
  match toks[1]?, toks[2]?, toks[3]? with
  | some access_type, some filename, some target_user =>
    if !owner_check config.acl_manager filename username then ⟨config, ["ERROR|Only owner can grant access\n".toList], true⟩
    else if access_type ≠ "-R".toList ∧ access_type ≠ "-W".toList then
      ⟨config, ["ERROR|Invalid access type (use -R or -W)\n".toList], true⟩
    else
      let access_level := if access_type = "-R".toList then ACCESS_READ else ACCESS_WRITE
      let r := grant_access config.acl_manager filename target_user access_level
      if r.1 = ERR_SUCCESS then
        ⟨{ config with acl_manager := r.2 },
          ["SUCCESS|Access granted successfully!\n".toList], true⟩
      else
        ⟨{ config with acl_manager := r.2 },
          [("ERROR|".toList ++ get_error_message r.1 ++ "\n".toList).take 255], true⟩
  | _, _, _ => ⟨config, ["ERROR|Missing parameters\n".toList], true⟩

/-- The `REMACCESS` branch. -/
def handle_remaccess (username : Str) (config : NameServerConfig) (toks : List Str) :
    CmdResult :=
  match toks[1]?, toks[2]? with
  | some filename, some target_user =>
    if !owner_check config.acl_manager filename username then ⟨config, ["ERROR|Only owner can revoke access\n".toList], true⟩
    else
      let r := revoke_access config.acl_manager filename target_user
      if r.1 = ERR_SUCCESS then
        ⟨{ config with acl_manager := r.2 },
          ["SUCCESS|Access removed successfully!\n".toList], true⟩
      else
        ⟨{ config with acl_manager := r.2 },
          [("ERROR|".toList ++ get_error_message r.1 ++ "\n".toList).take 255], true⟩
  | _, _ => ⟨config, ["ERROR|Missing parameters\n".toList], true⟩

/-- The function `handle_session_command` for the session of `username`.  The
command is copied into a buffer of `BUFFER_SIZE` bytes and cut into the tokens
that successive `strtok_r(.., "|", ..)` calls return. -/
def handle_session_command (username : Str) (config : NameServerConfig) (env : CommandEnv)
    (command : Str) : CmdResult :=
  let toks := strtok_all (fun c => c == '|') (command.take (BUFFER_SIZE - 1))
  match toks[0]? with
  | none => ⟨config, ["ERROR|Invalid command\n".toList], true⟩
  | some cmd =>
    if cmd = "QUIT".toList ∨ cmd = "EXIT".toList then
      ⟨config, ["SUCCESS|Goodbye!\n".toList], false⟩
    else if cmd = "CREATE".toList then handle_create username config env toks
    else if cmd = "VIEW".toList then handle_view username config toks
    else if cmd = "READ".toList then
      match toks[1]? with
      | none => ⟨config, ["ERROR|Missing filename\n".toList], true⟩
      | some filename => ⟨config, redirect_to_ss config username filename ACCESS_READ, true⟩
    else if cmd = "WRITE".toList then
      match toks[1]? with
      | none => ⟨config, ["ERROR|Missing filename\n".toList], true⟩
      | some filename => ⟨config, redirect_to_ss config username filename ACCESS_WRITE, true⟩
    else if cmd = "DELETE".toList then handle_delete username config env toks
    else if cmd = "INFO".toList then handle_info config env toks
    else if cmd = "STREAM".toList then
      match toks[1]? with
      | none => ⟨config, ["ERROR|Missing filename\n".toList], true⟩
      | some filename => ⟨config, redirect_to_ss config username filename ACCESS_READ, true⟩
    else if cmd = "UNDO".toList then
      match toks[1]? with
      | none => ⟨config, ["ERROR|Missing filename\n".toList], true⟩
      | some filename => ⟨config, redirect_to_ss config username filename ACCESS_WRITE, true⟩
    else if cmd = "EXEC".toList then handle_exec username config env toks
    else if cmd = "LIST".toList then handle_list config
    else if cmd = "ADDACCESS".toList then handle_addaccess username config toks
    else if cmd = "REMACCESS".toList then handle_remaccess username config toks
    else
      ⟨config, [("ERROR|Unknown command: ".toList ++ cmd ++ "\n".toList).take 255], true⟩

/-- A frame is an error frame: it starts with `ERROR|`. -/
def is_error_frame (r : Str) : Bool := r.take 6 = "ERROR|".toList

/-- A frame is a redirect: it starts with `REDIRECT`. -/
def is_redirect_frame (r : Str) : Bool := r.take 8 = "REDIRECT".toList

/-- A command was refused: the client got exactly one frame, an error frame that
is no redirect, and neither the routing table nor the ACL table changed. -/
def Refused (config : NameServerConfig) (res : CmdResult) : Prop :=
  (∃ r, res.replies = [r] ∧ is_error_frame r = true ∧ is_redirect_frame r = false) ∧
  res.config.file_table = config.file_table ∧ res.config.acl_manager = config.acl_manager

/-- The initial name-node configuration (`init_nameserver`) with one registered
storage node, the setting of the end-to-end scenarios. -/
def one_node_config : NameServerConfig :=
  { ss_sessions := [{ ss_id := 1, ip := "127.0.0.1".toList, nm_port := 8080,
                      client_port := 9001, is_active := true }],
    ss_session_count := 1,
    client_sessions := [],
    client_session_count := 0,
    file_table := init_hash_table,
    acl_manager := [],
    last_assigned_ss := -1 }

/-- The storage node answers the forwarded command with `SUCCESS`. -/
def ss_success_env : CommandEnv :=
  { connect_ok := true, ss_response := "SUCCESS|ok\n".toList, popen_result := none }

/-- The name node after alice sent `CREATE|notes.txt` (scenario S1). -/
def config_alice_created : NameServerConfig :=
  (handle_session_command "alice".toList one_node_config ss_success_env
    "CREATE|notes.txt".toList).config

/-- The ACL table after `add_file_access(notes.txt, alice)` and
`grant_access(notes.txt, bob, ACCESS_READ)`. -/
def acl_alice_bob : AccessControlManager :=
  (grant_access (add_file_access [] "notes.txt".toList "alice".toList).2
    "notes.txt".toList "bob".toList ACCESS_READ).2

/-- The ACL table after `add_file_access(notes.txt, alice)`. -/
def acl_alice : AccessControlManager :=
  (add_file_access [] "notes.txt".toList "alice".toList).2

/-! ## Document model (`storageserver/src/sentence_ops_multiword.c`) -/

/-- The struct `SentenceNode`: `words` is the chain from `word_head` (so
`word_tail` is its last node), `word_count` the stored counter, `delimiter` one
of `. ! ?` or NUL. -/
structure SentenceNode where
  words : List Str
  word_count : Int
  delimiter : Char
deriving DecidableEq, Repr

/-- The struct `FileContent`: the sentence chain from `head` and the stored
`sentence_count`. -/
structure FileContent where
  filename : Str
  head : List SentenceNode
  sentence_count : Int
deriving DecidableEq, Repr

/-- The function `word_list_to_string`. -/
def word_list_to_string (word_head : List Str) (delimiter : Char) : Str :=
  if word_head.isEmpty then []
  else (word_head.intersperse " ".toList).flatten ++ (if delimiter ≠ NUL then [delimiter] else [])

/-- The function `trim_whitespace` of `common.h`. -/
def trim_whitespace (s : Str) : Str :=
  ((s.dropWhile is_space).reverse.dropWhile is_space).reverse

/-- The function `parse_words_to_list`: the word chain and `*word_count`. -/
def parse_words_to_list (sentence_str : Str) : List Str × Int :=
  let temp := sentence_str.take (MAX_SENTENCE_LENGTH - 1)
  let temp1 := match temp.getLast? with
    | some c => if is_sentence_delimiter c then temp.dropLast else temp
    | none => temp
  let temp2 := trim_whitespace temp1
  if temp2.isEmpty then ([], 0)
  else
    let toks := strtok_all is_space temp2
    (toks, (toks.length : Int))

/-- The scan of `load_file_content` over the file bytes.  `cur` holds the bytes
from `start` up to `p`; `skipping` is true while `start` is being advanced over
the white space that follows a delimiter.  The source copies each sentence into
`sentence_buffer[MAX_SENTENCE_LENGTH]` without a bound, so the model is exact
for sentences shorter than that. -/
def load_sentences : Str → Str → Bool → List SentenceNode
  | [], cur, _ =>
    if cur.isEmpty then []
    else if (trim_whitespace cur).isEmpty then []
    else
      let r := parse_words_to_list (trim_whitespace cur)
      [{ words := r.1, word_count := r.2, delimiter := NUL }]
  | c :: cs, cur, skipping =>
    if skipping && (c == ' ' || c == '\n' || c == '\r' || c == '\t') then
      load_sentences cs [] true
    else if is_sentence_delimiter c then
      let r := parse_words_to_list (cur ++ [c])
      { words := r.1, word_count := r.2, delimiter := c } :: load_sentences cs [] true
    else load_sentences cs (cur ++ [c]) false

/-- The parsing half of `load_file_content`: the document built from the bytes
that `ss_read_file` returned. -/
def parse_file_content (filename content : Str) : FileContent :=
  let sentences := load_sentences content [] false
  { filename := filename.take (MAX_FILENAME_LENGTH - 1),
    head := sentences,
    sentence_count := (sentences.length : Int) }

/-- The buffer that `save_file_content` builds: every sentence whose stored
`word_count` is positive, followed by a newline when the next node of the
chain has a positive `word_count` too; each `strncat` is bounded by the room
left in `buffer[LARGE_BUFFER_SIZE]`. -/
def save_buffer : List SentenceNode → Str → Str
  | [], buffer => buffer
  | current :: rest, buffer =>
    if current.word_count > 0 then
      let sentence_str := word_list_to_string current.words current.delimiter
      let b1 := buffer ++ sentence_str.take (LARGE_BUFFER_SIZE - buffer.length - 1)
      let b2 := match rest with
        | next :: _ =>
          if next.word_count > 0 then b1 ++ "\n".toList.take (LARGE_BUFFER_SIZE - b1.length - 1)
          else b1
        | [] => b1
      save_buffer rest b2
    else save_buffer rest buffer

/-! ### `modify_sentence_multiword`

The loop state is a cursor into the two linked lists.  `before` are the
sentences in front of `active_sent`, `after` those behind it (`active_sent->next`
onwards).  The word chain of `active_sent` is cut at `last_inserted`: `pre` are
the nodes up to and including `last_inserted` (empty exactly when
`last_inserted` is NULL, where an insertion goes to the head), `post` the nodes
behind it. -/

structure ModifyState where
  before : List SentenceNode
  pre : List Str
  post : List Str
  word_count : Int
  delimiter : Char
  after : List SentenceNode
  sentence_count : Int
  current_sent : Int
deriving DecidableEq, Repr

/-- The node `active_sent` of a loop state. -/
def ModifyState.active (st : ModifyState) : SentenceNode :=
  { words := st.pre ++ st.post, word_count := st.word_count, delimiter := st.delimiter }

/-- The sentence chain of a loop state. -/
def ModifyState.sentences (st : ModifyState) : List SentenceNode :=
  st.before ++ st.active :: st.after

/-- Link `create_word_node(word)` behind `last_inserted` (at the head when it is
NULL), count it, and make it `last_inserted`. -/
def insert_word (st : ModifyState) (word : Str) : ModifyState :=
  { st with pre := st.pre ++ [word], word_count := st.word_count + 1 }

/-- The common tail of case 2 and case 3: cut the words behind `last_inserted`
off (only when `last_inserted` and `last_inserted->next` are both non-NULL),
end the active sentence with `delimiter`, link a new sentence behind it that
takes the cut-off words and the original delimiter, and, when those words
carry a delimiter and `more` input follows, one more empty sentence. -/
def end_sentence (st : ModifyState) (delimiter original_delimiter : Char) (more : Bool) :
    ModifyState :=
  if !st.pre.isEmpty && !st.post.isEmpty then
    let remaining_words := st.post
    let remaining_count : Int := (remaining_words.length : Int)
    let moved_delimiter := if original_delimiter ≠ NUL then original_delimiter else NUL
    let closed : SentenceNode :=
      { words := st.pre, word_count := st.word_count - remaining_count, delimiter := delimiter }
    let new_sent : SentenceNode :=
      { words := remaining_words, word_count := remaining_count, delimiter := moved_delimiter }
    if moved_delimiter ≠ NUL ∧ more = true then
      { before := st.before ++ [closed, new_sent], pre := [], post := [], word_count := 0,
        delimiter := NUL, after := st.after,
        sentence_count := st.sentence_count + 1 + 1, current_sent := st.current_sent + 1 + 1 }
    else
      { before := st.before ++ [closed], pre := remaining_words, post := [],
        word_count := remaining_count, delimiter := moved_delimiter, after := st.after,
        sentence_count := st.sentence_count + 1, current_sent := st.current_sent + 1 }
  else
    { before := st.before ++ [{ words := st.pre ++ st.post, word_count := st.word_count,
                                delimiter := delimiter }],
      pre := [], post := [], word_count := 0, delimiter := NUL, after := st.after,
      sentence_count := st.sentence_count + 1, current_sent := st.current_sent + 1 }

/-- One pass of the `for` loop body on `words[i]`; `more` is `i < word_count - 1`.
Returns the new state and, in case 3, the text behind the delimiter that is
stored back into `words[i]` for the next pass. -/
def process_word (st : ModifyState) (original_delimiter : Char) (word : Str) (more : Bool) :
    ModifyState × Option Str :=
  match word.dropWhile (fun c => !is_sentence_delimiter c) with
  | [] => (insert_word st word, none)
  | delimiter :: after_delim =>
    let before_delim := word.takeWhile (fun c => !is_sentence_delimiter c)
    let st1 := if before_delim.isEmpty then st else insert_word st before_delim
    if after_delim.isEmpty then (end_sentence st1 delimiter original_delimiter more, none)
    else
      (end_sentence st1 delimiter original_delimiter (more || !after_delim.isEmpty),
       some after_delim)

/-- The `for` loop of `modify_sentence_multiword` over the pending words, with a
pass counter as fuel; `none` means the fuel ran out. -/
def modify_loop : Nat → List Str → ModifyState → Char → Option ModifyState
  | _, [], st, _ => some st
  | 0, _ :: _, _, _ => none
  | fuel + 1, word :: rest, st, original_delimiter =>
    match process_word st original_delimiter word (!rest.isEmpty) with
    | (st1, none) => modify_loop fuel rest st1 original_delimiter
    | (st1, some after_delim) => modify_loop fuel (after_delim :: rest) st1 original_delimiter

/-- An upper bound of the number of passes the loop makes on the pending words:
every pass either finishes a word or replaces it by a strictly shorter one. -/
def loop_fuel (words : List Str) : Nat := (words.map (fun w => w.length + 1)).sum

/-- The words parsed from the input: `strtok` on white space over the first
`MAX_SENTENCE_LENGTH - 1` bytes, at most 100 of them. -/
def parse_input_words (new_content : Str) : List Str :=
  (strtok_all is_space (new_content.take (MAX_SENTENCE_LENGTH - 1))).take 100

/-- The loop state at loop entry.  `insert_after` is the node reached from
`word_head` by `word_index - 1` steps of `next`, or NULL when `word_index` is 0
or the chain ends earlier. -/
def start_state (file : FileContent) (sentence_num word_index : Int) (current : SentenceNode)
    (after : List SentenceNode) : ModifyState :=
  let k := word_index.toNat
  let at_node : Bool := decide (0 < k ∧ k ≤ current.words.length)
  { before := file.head.take sentence_num.toNat,
    pre := if at_node then current.words.take k else [],
    post := if at_node then current.words.drop k else current.words,
    word_count := current.word_count,
    delimiter := current.delimiter,
    after := after,
    sentence_count := file.sentence_count,
    current_sent := sentence_num }

/-- Returned in place of a result when `modify_loop` runs out of fuel; the
theorem `modify_loop_total` shows that this does not happen. -/
def FUEL_EXHAUSTED : Int := -1

/-- The function `modify_sentence_multiword`: an error code, or the document
after the call and `*new_sentence_num`. -/
def modify_sentence_multiword (file : FileContent) (sentence_num word_index : Int)
    (new_content : Str) : Except Int (FileContent × Int) :=
  if sentence_num < 0 ∨ sentence_num ≥ file.sentence_count then
    .error ERR_SENTENCE_INDEX_OUT_OF_RANGE
  else
    match file.head.drop sentence_num.toNat with
    | [] => .error ERR_SENTENCE_INDEX_OUT_OF_RANGE
    | current :: after =>
      if word_index < 0 ∨ word_index > current.word_count then
        .error ERR_WORD_INDEX_OUT_OF_RANGE
      else
        let words := parse_input_words new_content
        let st0 := start_state file sentence_num word_index current after
        match modify_loop (loop_fuel words) words st0 current.delimiter with
        | none => .error FUEL_EXHAUSTED
        | some st =>
          .ok ({ file with head := st.sentences, sentence_count := st.sentence_count },
               st.current_sent)

/-- All words of a sentence chain, read in sentence order. -/
def all_words (l : List SentenceNode) : List Str := (l.map (fun s => s.words)).flatten

/-- The non-empty pieces of a token between the delimiter characters `. ! ?`. -/
def split_pieces (token : Str) : List Str := strtok_all is_sentence_delimiter token

/-- The pieces of a token list that precede the first delimiter character. -/
def head_pieces : List Str → List Str
  | [] => []
  | w :: rest =>
    if w.any is_sentence_delimiter then
      (if (w.takeWhile (fun c => !is_sentence_delimiter c)).isEmpty then []
       else [w.takeWhile (fun c => !is_sentence_delimiter c)])
    else w :: head_pieces rest

/-- The pieces of a token list that follow the first delimiter character. -/
def tail_pieces : List Str → List Str
  | [] => []
  | w :: rest =>
    if w.any is_sentence_delimiter then
      split_pieces (w.dropWhile (fun c => !is_sentence_delimiter c)) ++
        (rest.map split_pieces).flatten
    else tail_pieces rest

/-- The document of scenario S3: the single sentence `one two three` without a
terminator. -/
def doc_one_two_three : FileContent := parse_file_content "doc.txt".toList "one two three".toList

/-- A two-sentence document, both sentences terminated. -/
def doc_hello_bye : FileContent :=
  parse_file_content "doc.txt".toList "Hello world.\nBye now!".toList

/-- The document of a successful call, the input document otherwise. -/
def modified_document (file : FileContent) (r : Except Int (FileContent × Int)) : FileContent :=
  match r with
  | .ok p => p.1
  | .error _ => file

/-! ## Storage (`storageserver/src/storage_ops.c`, `metadata_ops.c`)

The storage directory is modelled by three maps from file name to content:
the data files, the `.backup` snapshots and the `.meta` records.  File names
ending in `.meta` or `.backup` are reserved for these (as `list_files` treats
them), so the three kinds of file do not overlap. -/

/-- The counters and time stamps of the struct `FileMetadata`. -/
structure FileMetadata where
  filename : Str
  owner : Str
  size : Nat
  word_count : Int
  char_count : Int
  sentence_count : Int
  created_time : Int
  modified_time : Int
  accessed_time : Int
deriving DecidableEq, Repr

/-- The storage directory. -/
structure Disk where
  data : Str → Option Str
  backup : Str → Option Str
  metadata : Str → Option FileMetadata

/-- Outcomes of the system calls made while one command is handled: the clock,
whether `fopen(path, "w")` on a data file succeeds, how many bytes `fwrite`
manages to write (`none`: all of them), whether `cp` succeeds, whether a
metadata record can be written, and whether `unlink` of a data file succeeds. -/
structure IOEnv where
  now : Int
  fopen_write_ok : Bool
  fwrite_limit : Option Nat
  cp_ok : Bool
  meta_write_ok : Bool
  unlink_ok : Bool

/-- Overwrite one entry of a map. -/
def set_entry {β : Type} (m : Str → Option β) (k : Str) (v : β) : Str → Option β :=
  fun x => if x = k then some v else m x

/-- The function `save_metadata`; the record goes to the file named in it. -/
def save_metadata (env : IOEnv) (disk : Disk) (metadata : FileMetadata) : Int × Disk :=
  if env.meta_write_ok then
    (ERR_SUCCESS, { disk with metadata := set_entry disk.metadata metadata.filename metadata })
  else (ERR_FILE_WRITE_FAILED, disk)

/-- The function `load_metadata`. -/
def load_metadata (disk : Disk) (filename : Str) : Option FileMetadata := disk.metadata filename

/-- The function `ss_read_file`: error code, the bytes put into the buffer, and
the disk with the access time of the metadata record updated. -/
def ss_read_file (env : IOEnv) (disk : Disk) (filename : Str) (buffer_size : Nat) :
    Int × Str × Disk :=
  match disk.data filename with
  | none => (ERR_FILE_NOT_FOUND, [], disk)
  | some bytes =>
    let disk1 := match load_metadata disk filename with
      | some m => (save_metadata env disk { m with accessed_time := env.now }).2
      | none => disk
    (ERR_SUCCESS, bytes.take (buffer_size - 1), disk1)

/-- The word counter of `update_file_stats` (white space: blank, tab, newline). -/
def count_words : Str → Bool → Int
  | [], _ => 0
  | c :: cs, in_word =>
    if c == ' ' || c == '\t' || c == '\n' then count_words cs false
    else if !in_word then 1 + count_words cs true
    else count_words cs true

/-- The function `update_file_stats`. -/
def update_file_stats (env : IOEnv) (disk : Disk) (metadata : FileMetadata) :
    Int × FileMetadata × Disk :=
  let r := ss_read_file env disk metadata.filename LARGE_BUFFER_SIZE
  if r.1 ≠ ERR_SUCCESS then (ERR_FILE_READ_FAILED, metadata, r.2.2)
  else
    let content := r.2.1
    let words := count_words content false
    let delims : Int := ((content.filter is_sentence_delimiter).length : Int)
    (ERR_SUCCESS,
     { metadata with
        char_count := (content.length : Int),
        word_count := words,
        sentence_count := if delims = 0 ∧ words > 0 then 1 else delims },
     r.2.2)

/-- The function `ss_backup_file`. -/
def ss_backup_file (env : IOEnv) (disk : Disk) (filename : Str) : Int × Disk :=
  match disk.data filename with
  | none => (ERR_SUCCESS, disk)
  | some bytes =>
    if env.cp_ok then (ERR_SUCCESS, { disk with backup := set_entry disk.backup filename bytes })
    else (ERR_FILE_WRITE_FAILED, disk)

/-- The function `ss_write_file`. -/
def ss_write_file (env : IOEnv) (disk : Disk) (filename content : Str) : Int × Disk :=
  let disk1 := (ss_backup_file env disk filename).2
  if !env.fopen_write_ok then (ERR_FILE_WRITE_FAILED, disk1)
  else
    let written := match env.fwrite_limit with
      | none => content.length
      | some k => min k content.length
    let disk2 := { disk1 with data := set_entry disk1.data filename (content.take written) }
    if written ≠ content.length then (ERR_FILE_WRITE_FAILED, disk2)
    else
      match load_metadata disk2 filename with
      | none => (ERR_SUCCESS, disk2)
      | some m =>
        let stats := update_file_stats env disk2
          { m with modified_time := env.now, size := content.length }
        (ERR_SUCCESS, (save_metadata env stats.2.2 stats.2.1).2)

/-- The function `is_valid_filename` of `common.h`: non-empty, shorter than
`MAX_FILENAME_LENGTH`, none of the characters `/ \ : * ? " < > |`. -/
def is_valid_filename (filename : Str) : Bool :=
  !filename.isEmpty && decide (filename.length < MAX_FILENAME_LENGTH) &&
    !filename.any (fun c =>
      ['/', Char.ofNat 92, ':', '*', '?', Char.ofNat 34, '<', '>', '|'].contains c)

/-- Remove one entry of a map. -/
def clear_entry {β : Type} (m : Str → Option β) (k : Str) : Str → Option β :=
  fun x => if x = k then none else m x

/-- The function `ss_create_file`. -/
def ss_create_file (env : IOEnv) (disk : Disk) (filename owner : Str) : Int × Disk :=
  if !is_valid_filename filename then (ERR_INVALID_FILENAME, disk)
  else if (disk.data filename).isSome then (ERR_FILE_ALREADY_EXISTS, disk)
  else if !env.fopen_write_ok then (ERR_FILE_OPEN_FAILED, disk)
  else
    save_metadata env { disk with data := set_entry disk.data filename [] }
      { filename := filename.take (MAX_FILENAME_LENGTH - 1),
        owner := owner.take (MAX_USERNAME_LENGTH - 1),
        size := 0, word_count := 0, char_count := 0, sentence_count := 0,
        created_time := env.now, modified_time := env.now, accessed_time := env.now }

/-- The function `ss_delete_file`: the data file, its metadata record and its
snapshot go. -/
def ss_delete_file (env : IOEnv) (disk : Disk) (filename : Str) : Int × Disk :=
  if (disk.data filename).isNone then (ERR_FILE_NOT_FOUND, disk)
  else if !env.unlink_ok then (ERR_FILE_DELETE_FAILED, disk)
  else
    (ERR_SUCCESS,
     { data := clear_entry disk.data filename,
       backup := clear_entry disk.backup filename,
       metadata := clear_entry disk.metadata filename })

/-- The `CREATE|filename|owner` branch of the storage node's `handle_client`:
the disk after the command and the frame sent back. -/
def ss_handle_create (env : IOEnv) (disk : Disk) (filename owner : Str) : Disk × Str :=
  let r := ss_create_file env disk filename owner
  if r.1 = ERR_SUCCESS then
    (r.2, ("SUCCESS|File '".toList ++ filename ++ "' created\n".toList).take 255)
  else (r.2, ("ERROR|".toList ++ get_error_message r.1 ++ "\n".toList).take 255)

/-- The `DELETE|filename` branch of the storage node's `handle_client`. -/
def ss_handle_delete (env : IOEnv) (disk : Disk) (filename : Str) : Disk × Str :=
  let r := ss_delete_file env disk filename
  if r.1 = ERR_SUCCESS then
    (r.2, ("SUCCESS|File '".toList ++ filename ++ "' deleted\n".toList).take 255)
  else (r.2, ("ERROR|".toList ++ get_error_message r.1 ++ "\n".toList).take 255)

/-- The function `load_file_content`: `none` when the file cannot be read. -/
def load_file_content (env : IOEnv) (disk : Disk) (filename : Str) :
    Option FileContent × Disk :=
  let r := ss_read_file env disk filename LARGE_BUFFER_SIZE
  if r.1 ≠ ERR_SUCCESS then (none, r.2.2)
  else (some (parse_file_content filename r.2.1), r.2.2)

/-- The function `save_file_content`. -/
def save_file_content (env : IOEnv) (disk : Disk) (file_content : FileContent) : Int × Disk :=
  ss_write_file env disk file_content.filename (save_buffer file_content.head [])

/-! ## The `WRITE` session of the storage node (`storageserver/src/main.c`) -/

def INT_MIN : Int := -2147483648

def INT_MAX : Int := 2147483647

def LONG_MIN : Int := -9223372036854775808

def LONG_MAX : Int := 9223372036854775807

/-- The number that a text denotes for `strtol(.., 10)`: optional white space,
optional sign, decimal digits; what follows the digits is ignored, and a text
without digits denotes 0. -/
def decimal_value (s : Str) : Int :=
  let s1 := s.dropWhile (fun c => c == ' ' || c == '\t' || c == '\n' || c == '\r' ||
    c == Char.ofNat 11 || c == Char.ofNat 12)
  let digits (l : Str) : Int :=
    (l.takeWhile Char.isDigit).foldl (fun acc c => acc * 10 + ((c.toNat - 48 : Nat) : Int)) 0
  match s1 with
  | '-' :: r => - digits r
  | '+' :: r => digits r
  | _ => digits s1

/-- The function `strtol(s, NULL, 10)` of the C library with a `long` of 64 bits:
the denoted number, or `LONG_MAX` / `LONG_MIN` when it does not fit. -/
def strtol (s : Str) : Int := max LONG_MIN (min LONG_MAX (decimal_value s))

/-- The conversion of a `long` to `int`: the value reduced modulo `2^32` into the
range of `int`. -/
def long_to_int (x : Int) : Int := (x + 2147483648) % 4294967296 - 2147483648

/-- The function `atoi`, which the C library computes as
`(int) strtol(s, NULL, 10)`; the callers keep the result in an `int`. -/
def atoi (s : Str) : Int := long_to_int (strtol s)

/-- The state shared by the handler threads of a storage node. -/
structure SSState where
  disk : Disk
  locks : LockTable

/-- The locals of the `WRITE` branch while `write_active` is set. -/
structure WriteSession where
  filename_copy : Str
  sentence_num : Int
  username : Str
  file_buffer : FileContent
  current_sentence : Int
  word_update_count : Int

/-- How the `WRITE` branch stands after the frames received so far. -/
inductive WriteOutcome where
  /-- The request was refused before the session started. -/
  | rejected (st : SSState) (replies : List Str)
  /-- The session is open and waits for the next frame. -/
  | active (st : SSState) (sess : WriteSession) (replies : List Str)
  /-- `recv` reported the end of the connection inside the session. -/
  | disconnected (st : SSState) (replies : List Str)
  /-- `ETIRW` was processed; `rest` are the frames left for the command loop. -/
  | committed (st : SSState) (replies : List Str) (rest : List (Option Str))

/-- The shared state an outcome leaves behind. -/
def WriteOutcome.state : WriteOutcome → SSState
  | .rejected st _ => st
  | .active st _ _ => st
  | .disconnected st _ => st
  | .committed st _ _ => st

/-- The frames sent to the client. -/
def WriteOutcome.replies : WriteOutcome → List Str
  | .rejected _ r => r
  | .active _ _ r => r
  | .disconnected _ r => r
  | .committed _ r _ => r

/-- A received buffer cut at the first newline and then at the first carriage
return. -/
def frame_line (buffer : Str) : Str :=
  (buffer.takeWhile (fun c => c != '\n')).takeWhile (fun c => c != '\r')

/-- The two fields of a word update: `strtok_r(buffer_copy, "|", ..)` and then
`strtok_r(NULL, "", ..)`, which returns all that is left behind the separator
that ended the first field (or NULL when nothing is left). -/
def split_word_update (line : Str) : Option (Str × Str) :=
  let s := line.dropWhile (fun c => c == '|')
  let word_index_str := s.takeWhile (fun c => c != '|')
  if word_index_str.isEmpty then none
  else
    match s.dropWhile (fun c => c != '|') with
    | [] => none
    | _ :: content => if content.isEmpty then none else some (word_index_str, content)

/-- An empty sentence node, as the `WRITE` branch allocates it. -/
def empty_sentence : SentenceNode := { words := [], word_count := 0, delimiter := NUL }

/-- The last node of the sentence chain has a delimiter. -/
def last_has_delimiter (file : FileContent) : Bool :=
  match file.head.getLast? with
  | some last => is_sentence_delimiter last.delimiter
  | none => false

/-- The opening of a `WRITE|filename|sentence_num|username` request up to the
`SUCCESS` prompt: lock, load, validate the sentence number, materialise the
sentence to write to.  The call of `lock_sentence` only sets the `is_locked` and
`locked_by` fields of the in-memory node, which nothing reads; they are not
part of `SentenceNode` here. -/
def write_open (env : IOEnv) (st : SSState) (filename sentence_num_str username_ptr : Str) :
    WriteOutcome :=
  let username := username_ptr.take (MAX_USERNAME_LENGTH - 1)
  let filename_copy := filename.take (MAX_FILENAME_LENGTH - 1)
  let sentence_num := atoi sentence_num_str
  if sentence_num < 0 then .rejected st ["ERROR|Sentence number must be >= 0\n".toList]
  else
    let lk := global_try_lock_sentence st.locks filename_copy sentence_num username
    if lk.1 = 0 then
      .rejected { st with locks := lk.2 } ["ERROR|Sentence locked by another user\n".toList]
    else
      let ld := load_file_content env st.disk filename_copy
      match ld.1 with
      | none =>
        .rejected { disk := ld.2,
                    locks := (global_unlock_sentence lk.2 filename_copy sentence_num username).2 }
          ["ERROR|File not found\n".toList]
      | some file_buffer =>
        let allow_append : Bool :=
          decide (file_buffer.sentence_count > 0 ∧ sentence_num = file_buffer.sentence_count) &&
            last_has_delimiter file_buffer
        if (file_buffer.sentence_count = 0 ∧ sentence_num > 0) ∨
           (file_buffer.sentence_count > 0 ∧ sentence_num > file_buffer.sentence_count) ∨
           (file_buffer.sentence_count > 0 ∧ sentence_num = file_buffer.sentence_count ∧
              allow_append = false) then
          .rejected { disk := ld.2,
                      locks := (global_unlock_sentence lk.2 filename_copy sentence_num username).2 }
            [("ERROR|Sentence ".toList ++ int_to_str sentence_num ++
                " does not exist. File has ".toList ++ int_to_str file_buffer.sentence_count ++
                " sentence(s). ".toList ++
                (if file_buffer.sentence_count > 0 ∧ sentence_num = file_buffer.sentence_count
                 then "Last sentence must end with delimiter (. ! ?) to create new sentence.".toList
                 else []) ++ "\n".toList).take 127]
        else
          let file1 : FileContent :=
            if file_buffer.sentence_count = 0 ∧ sentence_num = 0 then
              { file_buffer with head := [empty_sentence], sentence_count := 1 }
            else if allow_append = true ∧ sentence_num = file_buffer.sentence_count then
              { file_buffer with
                  head := if file_buffer.head.isEmpty then file_buffer.head
                          else file_buffer.head ++ [empty_sentence],
                  sentence_count := file_buffer.sentence_count + 1 }
            else file_buffer
          .active { disk := ld.2, locks := lk.2 }
            { filename_copy := filename_copy, sentence_num := sentence_num, username := username,
              file_buffer := file1, current_sentence := sentence_num, word_update_count := 0 }
            [("SUCCESS|Sentence ".toList ++ int_to_str sentence_num ++ " locked for '".toList ++
                username ++ "'. Send word updates (word_index|content), then ETIRW\n".toList).take
                127]

/-- The `ETIRW` step: save, refresh the metadata when the save succeeded,
release the lock, answer. -/
def write_commit (env : IOEnv) (st : SSState) (sess : WriteSession) : SSState × List Str :=
  let sv := save_file_content env st.disk sess.file_buffer
  let disk1 :=
    if sv.1 = ERR_SUCCESS then
      match load_metadata sv.2 sess.filename_copy with
      | some m =>
        let stats := update_file_stats env sv.2 { m with modified_time := env.now }
        (save_metadata env stats.2.2 stats.2.1).2
      | none => sv.2
    else sv.2
  ({ disk := disk1,
     locks := (global_unlock_sentence st.locks sess.filename_copy sess.sentence_num
                 sess.username).2 },
   ["SUCCESS|Write complete\n".toList])

/-- One word-update frame inside the session. -/
def write_update (sess : WriteSession) (line : Str) : WriteSession × List Str :=
  match split_word_update (line.take (BUFFER_SIZE - 1)) with
  | none => (sess, ["ERROR|Invalid format. Use: word_index|content\n".toList])
  | some (word_index_str, content) =>
    match modify_sentence_multiword sess.file_buffer sess.current_sentence
        (atoi word_index_str) content with
    | .ok (file1, new_sentence_num) =>
      if new_sentence_num > sess.current_sentence then
        ({ sess with file_buffer := file1, current_sentence := new_sentence_num,
                     word_update_count := sess.word_update_count + 1 },
         ["SUCCESS|Word updated\n".toList,
          ("INFO|Sentence ended. Now editing sentence ".toList ++ int_to_str new_sentence_num ++
            "\n".toList).take 127])
      else
        ({ sess with file_buffer := file1, word_update_count := sess.word_update_count + 1 },
         ["SUCCESS|Word updated\n".toList])
    | .error code =>
      (sess, [("ERROR|".toList ++ get_error_message code ++ "\n".toList).take 255])

/-- The `while (write_active)` loop over the results of `recv` (`none`: the
connection ended). -/
def write_loop (env : IOEnv) (st : SSState) (sess : WriteSession) (replies : List Str) :
    List (Option Str) → WriteOutcome
  | [] => .active st sess replies
  | none :: _ =>
    .disconnected
      { st with locks := (global_unlock_sentence st.locks sess.filename_copy sess.sentence_num
                            sess.username).2 } replies
  | some buffer :: rest =>
    if frame_line buffer = "ETIRW".toList then
      let c := write_commit env st sess
      .committed c.1 (replies ++ c.2) rest
    else
      let u := write_update sess (frame_line buffer)
      write_loop env st u.1 (replies ++ u.2) rest

/-- The `WRITE` branch of `handle_client` on the frames that follow the request. -/
def handle_write (env : IOEnv) (st : SSState) (filename sentence_num_str username_ptr : Str)
    (frames : List (Option Str)) : WriteOutcome :=
  match write_open env st filename sentence_num_str username_ptr with
  | .active st1 sess replies => write_loop env st1 sess replies frames
  | other => other

/-- A storage node that holds `notes.txt` with the content `Hello world.`, no
snapshot, and an empty lock table. -/
def notes_state : SSState :=
  { disk :=
      { data := fun x => if x = "notes.txt".toList then some "Hello world.".toList else none,
        backup := fun _ => none,
        metadata := fun x =>
          if x = "notes.txt".toList then
            some { filename := "notes.txt".toList, owner := "alice".toList, size := 12,
                   word_count := 2, char_count := 12, sentence_count := 1,
                   created_time := 100, modified_time := 100, accessed_time := 100 }
          else none },
    locks := [] }

/-- An environment in which every system call succeeds, at time 200. -/
def io_ok : IOEnv :=
  { now := 200, fopen_write_ok := true, fwrite_limit := none, cp_ok := true,
    meta_write_ok := true, unlink_ok := true }

/-- The environment of a command whose forwarded request the storage node
answered with the frame `r`. -/
def env_of_reply (r : Str) : CommandEnv :=
  { connect_ok := true, ss_response := r, popen_result := none }

/-- An empty storage directory. -/
def empty_disk : Disk :=
  { data := fun _ => none, backup := fun _ => none, metadata := fun _ => none }

/-- The storage node's side of the run: alice's `CREATE`, alice's `DELETE`,
bob's `CREATE`, each on `notes.txt`, from the empty directory. -/
def recreate_ss_1 : Disk × Str :=
  ss_handle_create io_ok empty_disk "notes.txt".toList "alice".toList

def recreate_ss_2 : Disk × Str := ss_handle_delete io_ok recreate_ss_1.1 "notes.txt".toList

def recreate_ss_3 : Disk × Str :=
  ss_handle_create io_ok recreate_ss_2.1 "notes.txt".toList "bob".toList

/-- The name node's side of the same run, each command answered by the storage
node as above. -/
def recreate_nm_1 : CmdResult :=
  handle_session_command "alice".toList one_node_config (env_of_reply recreate_ss_1.2)
    "CREATE|notes.txt".toList

def recreate_nm_2 : CmdResult :=
  handle_session_command "alice".toList recreate_nm_1.config (env_of_reply recreate_ss_2.2)
    "DELETE|notes.txt".toList

def recreate_nm_3 : CmdResult :=
  handle_session_command "bob".toList recreate_nm_2.config (env_of_reply recreate_ss_3.2)
    "CREATE|notes.txt".toList

/-- A user name of 70 bytes, longer than the `MAX_USERNAME_LENGTH - 1` bytes that
an ACL slot keeps. -/
def long_name : Str := List.replicate 70 'a'

/-- The name node after alice created `notes.txt` and then sent `ADDACCESS` for
the 70-byte name twice, first with `-R`, then with `-W`. -/
def config_twice_granted : NameServerConfig :=
  (handle_session_command "alice".toList
    (handle_session_command "alice".toList config_alice_created ss_success_env
      ("ADDACCESS|-R|notes.txt|".toList ++ long_name)).config ss_success_env
    ("ADDACCESS|-W|notes.txt|".toList ++ long_name)).config

/-! ## The `UNDO` branch of the storage node (`storageserver/src/main.c`) -/

/-- The `UNDO|filename` branch of the storage node's `handle_client`: when
`<file>.backup` exists it is copied over the data file by `cp` (whose result is
only logged) and the answer is `SUCCESS`; the snapshot itself stays in place.
Frames are the text handed to `send`. -/
def ss_handle_undo (env : IOEnv) (disk : Disk) (filename : Str) : Disk × Str :=
  match disk.backup filename with
  | none => (disk, "ERROR|No backup available\n".toList)
  | some bytes =>
    let disk1 := if env.cp_ok then { disk with data := set_entry disk.data filename bytes }
                 else disk
    (disk1, "SUCCESS|Undo successful\n".toList)

/-- The run of the undo scenario on `notes.txt` (content `Hello world.`): a
write of `Hello there.`, then `UNDO` twice. -/
def undo_run_1 : Int × Disk :=
  ss_write_file io_ok notes_state.disk "notes.txt".toList "Hello there.".toList

def undo_run_2 : Disk × Str := ss_handle_undo io_ok undo_run_1.2 "notes.txt".toList

def undo_run_3 : Disk × Str := ss_handle_undo io_ok undo_run_2.1 "notes.txt".toList

/-! ## Document invariants and the serialised form -/

/-- A terminator value: one of `. ! ?` or none (NUL). -/
def valid_terminator (c : Char) : Bool := is_sentence_delimiter c || c == NUL

/-- The terminator invariant of the data model: every terminator is one of
`. ! ?` or none, and every sentence but the last carries one of `. ! ?`. -/
def terminators_ok : List SentenceNode → Bool
  | [] => true
  | [s] => valid_terminator s.delimiter
  | s :: rest => is_sentence_delimiter s.delimiter && terminators_ok rest

/-- The same invariant with one sentence index `r` exempted: every terminator
is one of `. ! ?` or none, and every sentence other than the last one and the
one at index `r` carries one of `. ! ?`. -/
def terminators_ok_except : Nat → List SentenceNode → Bool
  | _, [] => true
  | _, [s] => valid_terminator s.delimiter
  | 0, s :: rest => valid_terminator s.delimiter && terminators_ok rest
  | r + 1, s :: rest => is_sentence_delimiter s.delimiter && terminators_ok_except r rest

/-- Documents that `load_file_content` builds and that successful
`modify_sentence_multiword` calls make of them. -/
inductive DocReachable : FileContent → Prop
  | load (filename content : Str) : DocReachable (parse_file_content filename content)
  | modify (file file' : FileContent) (sentence_num word_index : Int) (new_content : Str)
      (new_sentence_num : Int) :
      DocReachable file →
      modify_sentence_multiword file sentence_num word_index new_content =
        .ok (file', new_sentence_num) →
      DocReachable file'

/-- The rendering of one sentence in the serialised form of the data model:
its words joined by single spaces, followed by its terminator if any. -/
def render_sentence (s : SentenceNode) : Str :=
  (s.words.intersperse " ".toList).flatten ++ (if s.delimiter ≠ NUL then [s.delimiter] else [])

/-- The serialised form as the data model words it: the sentences that have at
least one word, each rendered by `render_sentence`, joined by a single newline. -/
def serialised_form (l : List SentenceNode) : Str :=
  (((l.filter (fun s => !s.words.isEmpty)).map render_sentence).intersperse "\n".toList).flatten

/-- A word of a well-formed serialised document: non-empty, without white space
and without a delimiter character. -/
def plain_word (w : Str) : Bool :=
  !w.isEmpty && w.all (fun c => !is_space c && !is_sentence_delimiter c)

/-- A sentence of a well-formed serialised document: at least one word, plain
words only, the stored counter equal to the number of words, and a rendering
that fits `MAX_SENTENCE_LENGTH`. -/
def well_formed_sentence (s : SentenceNode) : Bool :=
  !s.words.isEmpty && s.words.all plain_word && decide (s.word_count = (s.words.length : Int)) &&
    decide ((render_sentence s).length < MAX_SENTENCE_LENGTH)

/-- A well-formed document: well-formed sentences, every sentence but possibly
the last one terminated. -/
def well_formed_document (l : List SentenceNode) : Bool :=
  l.all well_formed_sentence && terminators_ok l

/-- The loop invariant on terminators: the sentences in front of the active one
satisfy `P` (a property every delimiter character has), the active one has a
valid terminator, the sentences behind are untouched, and `current_sent` is the
position of the active sentence. -/
def TerminatorState (P : Char → Bool) (A : List SentenceNode) (st : ModifyState) : Prop :=
  (∀ s ∈ st.before, P s.delimiter = true) ∧ valid_terminator st.delimiter = true ∧
  st.current_sent = (st.before.length : Int) ∧ st.after = A

/-- A storage node that holds `notes.txt` with the two sentences `Hello world.`
and `Bye now!`, no snapshot, no metadata record, and an empty lock table. -/
def two_sentence_state : SSState :=
  { disk :=
      { data := fun x =>
          if x = "notes.txt".toList then some "Hello world.\nBye now!".toList else none,
        backup := fun _ => none,
        metadata := fun _ => none },
    locks := [] }

/-- The in-memory document after `x.` was inserted at word 2 of `Hello world.` in
the document `Hello world.` / `Bye now!`. -/
def doc_with_empty_sentence : FileContent :=
  modified_document doc_hello_bye (modify_sentence_multiword doc_hello_bye 0 2 "x.".toList)

/-- The append rule of the data model for a `WRITE` on sentence `s`: the
document has no sentence and `s` is 0, or `s` is the index of one of its
sentences, or `s` is the number of its sentences, there is at least one, and
the last one carries a terminator. -/
def sentence_index_admitted (doc : FileContent) (s : Int) : Bool :=
  decide (doc.head.length = 0 ∧ s = 0) || decide (s < (doc.head.length : Int)) ||
    (decide (s = (doc.head.length : Int) ∧ 0 < doc.head.length) && last_has_delimiter doc)

/-- The part of an input token behind its last delimiter character. -/
def last_piece (w : Str) : Str :=
  (w.reverse.takeWhile (fun c => !is_sentence_delimiter c)).reverse

/-! ## Membership changes (`nameserver/src/ss_sessions.c`, `ss_network.c`) -/

def ERR_SS_NOT_REGISTERED : Int := 701

/-- The size of an IPv4 address buffer, `INET_ADDRSTRLEN` of the system headers. -/
def INET_ADDRSTRLEN : Nat := 16

/-- The function `create_ss_session`. -/
def create_ss_session (ss_id : Int) (ip : Str) (nm_port client_port : Int) : SSSession :=
  { ss_id := ss_id, ip := ip.take (INET_ADDRSTRLEN - 1), nm_port := nm_port,
    client_port := client_port, is_active := true }

/-- The function `add_ss_session`: the session becomes the head of the chain. -/
def add_ss_session (config : NameServerConfig) (session : SSSession) : NameServerConfig :=
  { config with ss_sessions := session :: config.ss_sessions,
                ss_session_count := config.ss_session_count + 1 }

/-- The chain walk of `remove_ss_session`: unlink the first session with the id. -/
def session_unlink (ss_id : Int) : List SSSession → Option (List SSSession)
  | [] => none
  | s :: rest =>
    if s.ss_id = ss_id then some rest
    else match session_unlink ss_id rest with
      | none => none
      | some rest' => some (s :: rest')

/-- The function `remove_ss_session`. -/
def remove_ss_session (config : NameServerConfig) (ss_id : Int) : Int × NameServerConfig :=
  match session_unlink ss_id config.ss_sessions with
  | some chain =>
    (ERR_SUCCESS, { config with ss_sessions := chain,
                                ss_session_count := config.ss_session_count - 1 })
  | none => (ERR_SS_NOT_REGISTERED, config)

/-- The function `handle_ss_failure`: drop the session, then unlink from every
bucket the mappings whose primary is the failed node. -/
def handle_ss_failure (config : NameServerConfig) (failed_ss_id : Int) : NameServerConfig :=
  let config1 := (remove_ss_session config failed_ss_id).2
  { config1 with
      file_table := fun i =>
        if i < HASH_TABLE_SIZE then
          (config1.file_table i).filter (fun m => decide (m.primary_ss_id ≠ failed_ss_id))
        else config1.file_table i }

/-- Membership chains that the name node can hold, with the value of the counter
`next_ss_id` of `accept_ss_connections`: every registration takes the next
identifier (`ss_id = next_ss_id++`), sessions leave through `remove_ss_session`. -/
inductive MembershipReachable : List SSSession → Int → Prop
  | init : MembershipReachable [] 0
  | register (chain : List SSSession) (next_ss_id : Int) (ip : Str) (nm_port client_port : Int) :
      MembershipReachable chain next_ss_id →
      MembershipReachable (create_ss_session next_ss_id ip nm_port client_port :: chain)
        (next_ss_id + 1)
  | remove (chain chain' : List SSSession) (next_ss_id ss_id : Int) :
      MembershipReachable chain next_ss_id →
      session_unlink ss_id chain = some chain' →
      MembershipReachable chain' next_ss_id

/-- The identifiers returned by `n` consecutive calls of `find_available_ss`, in
call order, and the configuration after the last call. -/
def find_available_ss_run : Nat → NameServerConfig → List Int × NameServerConfig
  | 0, config => ([], config)
  | n + 1, config =>
    let r := find_available_ss config
    let rest := find_available_ss_run n r.2
    (r.1 :: rest.1, rest.2)

/-- A name node with three registered storage nodes 0, 1, 2 (the chain holds
the latest registration first), one mapping per node, and the cursor at its
initial value. -/
def three_node_config : NameServerConfig :=
  { ss_sessions := [create_ss_session 2 "10.0.0.3".toList 8080 9003,
                    create_ss_session 1 "10.0.0.2".toList 8080 9002,
                    create_ss_session 0 "10.0.0.1".toList 8080 9001],
    ss_session_count := 3,
    client_sessions := [],
    client_session_count := 0,
    file_table :=
      (add_file_mapping
        (add_file_mapping (add_file_mapping init_hash_table "a.txt".toList 0).2
          "b.txt".toList 1).2 "c.txt".toList 2).2,
    acl_manager := [],
    last_assigned_ss := -1 }

/-! ## Reachable routing tables -/

/-- Routing tables built from the empty table by `add_file_mapping` and
`remove_file_mapping`, with added names shorter than `MAX_FILENAME_LENGTH - 1`
(the names a node of the table stores together with their terminator). -/
inductive TableReachable : FileHashTable → Prop
  | init : TableReachable init_hash_table
  | add (table : FileHashTable) (filename : Str) (primary_ss_id : Int) :
      TableReachable table → filename.length < MAX_FILENAME_LENGTH - 1 →
      TableReachable (add_file_mapping table filename primary_ss_id).2
  | remove (table : FileHashTable) (filename : Str) :
      TableReachable table → TableReachable (remove_file_mapping table filename).2

/-- The number of entries of the table for a file name, over all buckets. -/
def entries_for (table : FileHashTable) (filename : Str) : Nat :=
  ((List.range HASH_TABLE_SIZE).map (fun i =>
    ((table i).filter (fun m => decide (m.filename = filename))).length)).sum

/-- The finite map a routing table stands for: the lookup of `get_file_primary_ss`
with -1 for absent. -/
def FileMap := Str → Int

/-- The map operations that the table refines. -/
def map_add (m : FileMap) (filename : Str) (id : Int) : FileMap :=
  fun g => if g = filename then id else m g

def map_remove (m : FileMap) (filename : Str) : FileMap :=
  fun g => if g = filename then -1 else m g

/-! ## Client registration (`nameserver/src/network.c`, `client_sessions.c`) -/

def ERR_ALREADY_HAS_ACCESS : Int := 405

/-- The function `is_valid_username` of `common.h` (`isalnum` in the C locale). -/
def is_valid_username (username : Str) : Bool :=
  !username.isEmpty && decide (username.length < MAX_USERNAME_LENGTH) &&
    username.all (fun c => c.isAlphanum || c == '_')

/-- The function `create_client_session`. -/
def create_client_session (username ip : Str) (port : Int) : ClientSession :=
  { username := username.take (MAX_USERNAME_LENGTH - 1), ip := ip.take (INET_ADDRSTRLEN - 1),
    port := port, is_active := true }

/-- The function `add_client_session`. -/
def add_client_session (config : NameServerConfig) (session : ClientSession) :
    Int × NameServerConfig :=
  if config.client_sessions.any (fun c => decide (c.username = session.username) && c.is_active)
  then (ERR_ALREADY_HAS_ACCESS, config)
  else
    (ERR_SUCCESS,
     { config with client_sessions := session :: config.client_sessions,
                   client_session_count := config.client_session_count + 1 })

/-- One pass of the loop of `accept_client_connections` on the first frame of a
new connection: the configuration after it and the frames sent on the
connection.  Thread creation is taken to succeed; the welcome frame is the
first thing the handler thread of the new session sends. -/
def accept_client (config : NameServerConfig) (buffer client_ip : Str) (client_port : Int) :
    NameServerConfig × List Str :=
  let line := (buffer.take (BUFFER_SIZE - 1)).takeWhile (fun c => c != '\n')
  let toks := strtok_all (fun c => c == '|') line
  match toks[0]? with
  | none => (config, ["ERROR|First message must be INIT|username\n".toList])
  | some cmd =>
    if cmd ≠ "INIT".toList then (config, ["ERROR|First message must be INIT|username\n".toList])
    else
      match toks[1]? with
      | none => (config, ["ERROR|Missing username\n".toList])
      | some username =>
        let session := create_client_session username client_ip client_port
        let r := add_client_session config session
        if r.1 ≠ ERR_SUCCESS then (r.2, ["ERROR|User already connected\n".toList])
        else
          (r.2,
           [("SUCCESS|Welcome ".toList ++ session.username ++
              "! Connected to LangOS Name Server.\n".toList).take 255])

/-- An environment in which `fopen(path, "w")` on a data file fails and every
other system call succeeds, at time 200. -/
def io_write_fails : IOEnv :=
  { now := 200, fopen_write_ok := false, fwrite_limit := none, cp_ok := true,
    meta_write_ok := true, unlink_ok := true }

/-- The `WRITE` session on sentence 1 of `notes.txt` (content `Hello world.`) with
the frames `0|Bye now` and `ETIRW`. -/
def append_sentence_session (env : IOEnv) : WriteOutcome :=
  handle_write env notes_state "notes.txt".toList "1".toList "alice".toList
    [some "0|Bye now\n".toList, some "ETIRW\n".toList]

/-- The stored counters of a document agree with its lists: `sentence_count` is
the length of the sentence chain and every `word_count` the length of the word
chain. -/
def counters_consistent (file : FileContent) : Bool :=
  decide (file.sentence_count = (file.head.length : Int)) &&
    file.head.all (fun s => decide (s.word_count = (s.words.length : Int)))

/-! ## ACL persistence (`nameserver/src/acl_persistence.c`) -/

/-- One line of the cache file as `save_acl_cache` prints it:
`filename|owner|user:level,user:level,...` and a newline. -/
def acl_line (acl : FileAccessControl) : Str :=
  acl.filename ++ "|".toList ++ acl.owner ++ "|".toList ++
    ((acl.users.map (fun p => p.1 ++ ":".toList ++ int_to_str p.2)).intersperse
      ",".toList).flatten ++ "\n".toList

/-- The function `save_acl_cache`: the text written to the cache file when
`fopen` succeeds. -/
def save_acl_cache (acl_mgr : AccessControlManager) : Str :=
  (acl_mgr.map acl_line).flatten

/-- The successive results of `fgets(line, BUFFER_SIZE, fp)` on a file with the
given bytes: each call takes bytes up to and including the next newline, at
most `BUFFER_SIZE - 1` of them.  `cur` holds the bytes of the call in progress. -/
def fgets_all : Str → Str → List Str
  | [], cur => if cur.isEmpty then [] else [cur]
  | c :: cs, cur =>
    if c == '\n' || decide (cur.length + 1 = BUFFER_SIZE - 1) then
      (cur ++ [c]) :: fgets_all cs []
    else fgets_all cs (cur ++ [c])

/-- The body of the `while (user_access)` loop of `load_acl_cache` on one token
of the access list: cut at the first colon and grant, or skip a token without
colon. -/
def load_user_access (filename : Str) (acl_mgr : AccessControlManager) (user_access : Str) :
    AccessControlManager :=
  match user_access.dropWhile (fun c => c != ':') with
  | [] => acl_mgr
  | _ :: level =>
    (grant_access acl_mgr filename (user_access.takeWhile (fun c => c != ':'))
      (atoi level)).2

/-- The body of the `while (fgets(..))` loop of `load_acl_cache` on one line. -/
def load_acl_line (acl_mgr : AccessControlManager) (chunk : Str) : AccessControlManager :=
  let line := chunk.takeWhile (fun c => c != '\n')
  if line.isEmpty then acl_mgr
  else
    let toks := strtok_all (fun c => c == '|') line
    match toks[0]?, toks[1]? with
    | some filename, some owner =>
      let added := (add_file_access acl_mgr filename owner).2
      match toks[2]? with
      | none => added
      | some access_list =>
        (strtok_all (fun c => c == ',') (access_list.take (BUFFER_SIZE - 1))).foldl
          (load_user_access filename) added
    | _, _ => acl_mgr

/-- The function `load_acl_cache` on a cache file with the given text: the table
after the call. -/
def load_acl_cache (acl_mgr : AccessControlManager) (text : Str) : AccessControlManager :=
  (fgets_all text []).foldl load_acl_line acl_mgr

/-- A name that the line format keeps apart from its neighbours: not empty, at
most `limit - 1` bytes, and without `|`, `,`, `:` and newline. -/
def storable_name (limit : Nat) (name : Str) : Bool :=
  !name.isEmpty && decide (name.length < limit) &&
    name.all (fun c => c != '|' && c != ',' && c != ':' && c != '\n')

/-- An ACL entry that its line of the cache file determines: storable names,
the owner listed first, every level a value of `int` (as `access_levels[]`
holds them), no user listed twice, at most `MAX_USERS` users, and a line that
one `fgets` call takes whole. -/
def storable_entry (acl : FileAccessControl) : Bool :=
  storable_name MAX_FILENAME_LENGTH acl.filename &&
    storable_name MAX_USERNAME_LENGTH acl.owner &&
    (match acl.users with
      | [] => false
      | p :: _ => decide (p.1 = acl.owner)) &&
    acl.users.all (fun p => storable_name MAX_USERNAME_LENGTH p.1) &&
    acl.users.all (fun p => decide (INT_MIN ≤ p.2 ∧ p.2 ≤ INT_MAX)) &&
    decide ((acl.users.map (fun p => p.1)).Nodup) &&
    decide (acl.users.length ≤ MAX_USERS) &&
    decide ((acl_line acl).length ≤ BUFFER_SIZE - 1)

/-- The ACL table after `add_file_access(notes.txt, alice)` and
`grant_access(notes.txt, "b,c", ACCESS_READ)`: a user name with a comma. -/
def acl_comma_name : AccessControlManager :=
  (grant_access acl_alice "notes.txt".toList "b,c".toList ACCESS_READ).2

/-! ## Runs behind the departures from the specification -/

/-- The name node after alice created `notes.txt` and sent
`ADDACCESS|-R|notes.txt|alice`, and her `REMACCESS|notes.txt|alice` behind it. -/
def owner_revoked : CmdResult :=
  handle_session_command "alice".toList
    (handle_session_command "alice".toList config_alice_created ss_success_env
      "ADDACCESS|-R|notes.txt|alice".toList).config ss_success_env
    "REMACCESS|notes.txt|alice".toList

/-- A file name of `MAX_FILENAME_LENGTH - 1 = 255` bytes, the longest that
`is_valid_filename` admits. -/
def name_255 : Str := List.replicate 255 'a'


/-! # Theorems -/

/-! ## Sentence lock table -/

theorem take_filename (f : Str) (h : f.length < MAX_FILENAME_LENGTH) :
    f.take (MAX_FILENAME_LENGTH - 1) = f :=
  List.take_of_length_le (by unfold MAX_FILENAME_LENGTH at *; omega)

theorem take_username (u : Str) (h : u.length < MAX_USERNAME_LENGTH) :
    u.take (MAX_USERNAME_LENGTH - 1) = u :=
  List.take_of_length_le (by unfold MAX_USERNAME_LENGTH at *; omega)

theorem try_lock_scan_none_iff (f : Str) (n : Int) (u : Str) (t : LockTable) :
    try_lock_scan f n u t = none ↔ ∀ e ∈ t, ¬ (e.filename = f ∧ e.sentence_num = n) := by
  induction t with
  | nil => simp [try_lock_scan]
  | cons e rest ih =>
    unfold try_lock_scan
    by_cases hk : e.filename = f ∧ e.sentence_num = n
    · simp only [hk, and_self, if_true]
      constructor
      · intro h; split_ifs at h
      · intro h; exact absurd hk (by simpa using h e (List.mem_cons_self _ _))
    · simp only [hk, if_false]
      constructor
      · intro h e' he'
        rcases List.mem_cons.1 he' with rfl | hr
        · exact hk
        · cases hs : try_lock_scan f n u rest with
          | none => exact (ih.1 hs) e' hr
          | some p => rw [hs] at h; cases h
      · intro h
        have := ih.2 (fun e' he' => h e' (List.mem_cons_of_mem _ he'))
        rw [this]

theorem try_lock_scan_keys (f : Str) (n : Int) (u : Str) (t : LockTable) (r : Int)
    (t' : LockTable) (h : try_lock_scan f n u t = some (r, t')) :
    lock_keys t' = lock_keys t := by
  induction t generalizing r t' with
  | nil => simp [try_lock_scan] at h
  | cons e rest ih =>
    unfold try_lock_scan at h
    by_cases hk : e.filename = f ∧ e.sentence_num = n
    · simp only [hk, and_self, if_true] at h
      split_ifs at h <;> cases h <;> simp [lock_keys, hk.1, hk.2]
    · simp only [hk, if_false] at h
      cases hs : try_lock_scan f n u rest with
      | none => rw [hs] at h; cases h
      | some p =>
        obtain ⟨r1, t1⟩ := p
        rw [hs] at h
        cases h
        have := ih r t1 hs
        simp only [lock_keys, List.map_cons] at this ⊢
        rw [this]

theorem unlock_keys (t : LockTable) (f : Str) (n : Int) (u : Str) :
    lock_keys (global_unlock_sentence t f n u).2 = lock_keys t := by
  induction t with
  | nil => simp [global_unlock_sentence]
  | cons e rest ih =>
    unfold global_unlock_sentence
    by_cases hk : e.filename = f ∧ e.sentence_num = n
    · simp only [hk, and_self, if_true]
      split_ifs <;> simp [lock_keys, hk.1, hk.2]
    · simp only [hk, if_false]
      simp only [lock_keys, List.map_cons] at ih ⊢
      rw [ih]

theorem lock_reachable_nodup (t : LockTable) (h : LockReachable t) : (lock_keys t).Nodup := by
  induction h with
  | empty => simp [lock_keys]
  | try_lock t f n u _ hf hu ih =>
    unfold global_try_lock_sentence
    cases hs : try_lock_scan f n u t with
    | some p =>
      obtain ⟨r, t'⟩ := p
      simp only
      rw [try_lock_scan_keys f n u t r t' hs]; exact ih
    | none =>
      simp only [lock_keys, List.map_cons]
      have hno := (try_lock_scan_none_iff f n u t).1 hs
      rw [take_filename f hf]
      refine List.nodup_cons.2 ⟨?_, ih⟩
      intro hmem
      obtain ⟨e, he, hke⟩ := List.mem_map.1 hmem
      simp only [Prod.mk.injEq] at hke
      exact hno e he hke
  | unlock t f n u _ ih =>
    rw [unlock_keys]; exact ih

theorem key_entries_le_one (t : LockTable) (h : (lock_keys t).Nodup) (f : Str) (n : Int) :
    key_entries t f n ≤ 1 := by
  induction t with
  | nil => simp [key_entries]
  | cons e rest ih =>
    simp only [lock_keys, List.map_cons, List.nodup_cons] at h
    have ih' := ih h.2
    unfold key_entries at ih' ⊢
    by_cases hk : e.filename = f ∧ e.sentence_num = n
    · have hnone : rest.filter (fun e => decide (e.filename = f ∧ e.sentence_num = n)) = [] := by
        rw [List.filter_eq_nil_iff]
        intro e' he' hke'
        apply h.1
        simp only [decide_eq_true_eq] at hke'
        refine List.mem_map.2 ⟨e', he', ?_⟩
        simp [hke'.1, hke'.2, hk.1, hk.2]
      rw [List.filter_cons, if_pos (by simpa using hk), hnone]
      simp
    · simp only [List.filter_cons, hk, decide_False, Bool.false_eq_true, if_false]
      exact ih'

/-- With distinct keys, the holder found by a scan from the head is the only one. -/
theorem holds_cons_of_key (e : SentenceLockEntry) (rest : LockTable) (f : Str) (n : Int)
    (v : Str) (hk : e.filename = f ∧ e.sentence_num = n)
    (hnd : (lock_keys (e :: rest)).Nodup) :
    Holds (e :: rest) f n v ↔ (e.is_locked = true ∧ e.locked_by = v) := by
  simp only [lock_keys, List.map_cons, List.nodup_cons] at hnd
  constructor
  · rintro ⟨e', he', h1, h2, h3, h4⟩
    rcases List.mem_cons.1 he' with rfl | hr
    · exact ⟨h3, h4⟩
    · exfalso; apply hnd.1
      refine List.mem_map.2 ⟨e', hr, ?_⟩
      simp [h1, h2, hk.1, hk.2]
  · rintro ⟨h3, h4⟩
    exact ⟨e, List.mem_cons_self _ _, hk.1, hk.2, h3, h4⟩

theorem holds_cons_of_not_key (e : SentenceLockEntry) (rest : LockTable) (f : Str) (n : Int)
    (v : Str) (hk : ¬ (e.filename = f ∧ e.sentence_num = n)) :
    Holds (e :: rest) f n v ↔ Holds rest f n v := by
  constructor
  · rintro ⟨e', he', h1, h2, h3, h4⟩
    rcases List.mem_cons.1 he' with rfl | hr
    · exact absurd ⟨h1, h2⟩ hk
    · exact ⟨e', hr, h1, h2, h3, h4⟩
  · rintro ⟨e', he', h⟩
    exact ⟨e', List.mem_cons_of_mem _ he', h⟩

/-- Behaviour of `global_try_lock_sentence` on a table with distinct keys. -/
theorem try_lock_spec (t : LockTable) (hnd : (lock_keys t).Nodup) (f : Str) (n : Int) (u : Str)
    (hf : f.length < MAX_FILENAME_LENGTH) (hu : u.length < MAX_USERNAME_LENGTH) :
    ((global_try_lock_sentence t f n u).1 = 1 ∨ (global_try_lock_sentence t f n u).1 = 0) ∧
    ((global_try_lock_sentence t f n u).1 = 1 ↔ ∀ v, Holds t f n v → v = u) ∧
    ((global_try_lock_sentence t f n u).1 = 1 → Holds (global_try_lock_sentence t f n u).2 f n u) ∧
    ((global_try_lock_sentence t f n u).1 ≠ 1 → (global_try_lock_sentence t f n u).2 = t) := by
  have hu' : u.take (MAX_USERNAME_LENGTH - 1) = u := take_username u hu
  have hf' : f.take (MAX_FILENAME_LENGTH - 1) = f := take_filename f hf
  unfold global_try_lock_sentence
  cases hs : try_lock_scan f n u t with
  | none =>
    have hno := (try_lock_scan_none_iff f n u t).1 hs
    refine ⟨Or.inl rfl, ⟨fun _ => ?_, fun _ => rfl⟩, fun _ => ?_, fun h => absurd rfl h⟩
    · rintro v ⟨e, he, h1, h2, _⟩
      exact absurd ⟨h1, h2⟩ (hno e he)
    · exact ⟨_, List.mem_cons_self _ _, hf', rfl, rfl, hu'⟩
  | some p =>
    obtain ⟨r, t'⟩ := p
    simp only
    induction t generalizing r t' with
    | nil => simp [try_lock_scan] at hs
    | cons e rest ih =>
      unfold try_lock_scan at hs
      by_cases hk : e.filename = f ∧ e.sentence_num = n
      · simp only [hk, and_self, if_true] at hs
        have hH := fun v => holds_cons_of_key e rest f n v hk hnd
        by_cases hl : e.is_locked = true
        · by_cases hb : e.locked_by = u
          · simp only [hl, hb, if_true, Option.some.injEq, Prod.mk.injEq] at hs
            obtain ⟨rfl, rfl⟩ := hs
            refine ⟨Or.inl rfl, ?_, ?_, ?_⟩
            · simp only [true_iff]
              intro v hv
              exact ((hH v).1 hv).2.symm.trans hb |>.symm ▸ rfl
            · intro _; exact (hH u).2 ⟨hl, hb⟩
            · intro h; exact absurd rfl h
          · simp only [hl, hb, if_true, if_false, Option.some.injEq, Prod.mk.injEq] at hs
            obtain ⟨rfl, rfl⟩ := hs
            refine ⟨Or.inr rfl, ?_, ?_, ?_⟩
            · simp only [zero_ne_one, false_iff, not_forall]
              exact ⟨e.locked_by, (hH _).2 ⟨hl, rfl⟩, hb⟩
            · intro h; exact absurd h (by decide)
            · intro _; rfl
        · simp only [hl, Bool.false_eq_true, if_false, Option.some.injEq, Prod.mk.injEq] at hs
          obtain ⟨rfl, rfl⟩ := hs
          refine ⟨Or.inl rfl, ?_, ?_, ?_⟩
          · simp only [true_iff]
            intro v hv
            exact absurd ((hH v).1 hv).1 hl
          · intro _
            exact ⟨_, List.mem_cons_self _ _, by simp [hk.1], by simp [hk.2], rfl, hu'⟩
          · intro h; exact absurd rfl h
      · simp only [hk, if_false] at hs
        cases hs' : try_lock_scan f n u rest with
        | none => rw [hs'] at hs; cases hs
        | some p =>
          obtain ⟨r1, t1⟩ := p
          rw [hs'] at hs
          simp only [Option.some.injEq, Prod.mk.injEq] at hs
          obtain ⟨rfl, rfl⟩ := hs
          have hnd' : (lock_keys rest).Nodup := by
            simp only [lock_keys, List.map_cons, List.nodup_cons] at hnd
            exact hnd.2
          obtain ⟨i1, i2, i3, i4⟩ := ih hnd' r1 t1 hs'
          refine ⟨i1, ?_, ?_, ?_⟩
          · rw [i2]
            constructor
            · intro h v hv; exact h v ((holds_cons_of_not_key e rest f n v hk).1 hv)
            · intro h v hv; exact h v ((holds_cons_of_not_key e rest f n v hk).2 hv)
          · intro h; exact (holds_cons_of_not_key e t1 f n u hk).2 (i3 h)
          · intro h; rw [i4 h]

/-- Behaviour of `global_unlock_sentence` on a table with distinct keys. -/
theorem unlock_spec (t : LockTable) (hnd : (lock_keys t).Nodup) (f : Str) (n : Int) (u : Str) :
    ((global_unlock_sentence t f n u).1 = 1 ↔ Holds t f n u) ∧
    ((global_unlock_sentence t f n u).1 = 1 →
      ∀ v, ¬ Holds (global_unlock_sentence t f n u).2 f n v) ∧
    (¬ Holds t f n u → global_unlock_sentence t f n u = (0, t)) := by
  induction t with
  | nil =>
    refine ⟨?_, ?_, ?_⟩
    · simp [global_unlock_sentence, Holds]
    · simp [global_unlock_sentence]
    · intro _; rfl
  | cons e rest ih =>
    have hnd' : (lock_keys rest).Nodup := by
      simp only [lock_keys, List.map_cons, List.nodup_cons] at hnd
      exact hnd.2
    obtain ⟨i1, i2, i3⟩ := ih hnd'
    unfold global_unlock_sentence
    by_cases hk : e.filename = f ∧ e.sentence_num = n
    · rw [if_pos hk]
      have hH := fun v => holds_cons_of_key e rest f n v hk hnd
      by_cases hc : (!e.is_locked) = true ∨ e.locked_by ≠ u
      · rw [if_pos hc]
        have hno : ¬ Holds (e :: rest) f n u := by
          rw [hH u]
          rintro ⟨h1, h2⟩
          rcases hc with hc | hc
          · simp [h1] at hc
          · exact hc h2
        have h01 : ¬ ((0 : Int), e :: rest).1 = 1 := by simp
        exact ⟨⟨fun h => absurd h h01, fun h => absurd h hno⟩,
          fun h => absurd h h01, fun _ => rfl⟩
      · rw [if_neg hc]
        have hl : e.is_locked = true := by
          by_contra hl'
          apply hc; left; simpa using hl'
        have hb : e.locked_by = u := by
          by_contra hb'
          exact hc (Or.inr hb')
        refine ⟨⟨fun _ => (hH u).2 ⟨hl, hb⟩, fun _ => rfl⟩, fun _ v => ?_,
          fun h => absurd ((hH u).2 ⟨hl, hb⟩) h⟩
        have hnd2 : (lock_keys ({ e with is_locked := false, locked_by := [] } :: rest)).Nodup := by
          simpa [lock_keys] using hnd
        show ¬ Holds ({ e with is_locked := false, locked_by := [] } :: rest) f n v
        rw [holds_cons_of_key { e with is_locked := false, locked_by := [] } rest f n v hk hnd2]
        simp
    · rw [if_neg hk]
      refine ⟨?_, ?_, ?_⟩
      · rw [i1]; exact (holds_cons_of_not_key e rest f n u hk).symm
      · intro h v
        rw [holds_cons_of_not_key e _ f n v hk]
        exact i2 h v
      · intro h
        rw [i3 (fun h' => h ((holds_cons_of_not_key e rest f n u hk).2 h'))]

theorem holds_unique (t : LockTable) (hnd : (lock_keys t).Nodup) (f : Str) (n : Int)
    (v w : Str) (hv : Holds t f n v) (hw : Holds t f n w) : v = w := by
  induction t with
  | nil => obtain ⟨e, he, _⟩ := hv; cases he
  | cons e rest ih =>
    by_cases hk : e.filename = f ∧ e.sentence_num = n
    · have h1 := (holds_cons_of_key e rest f n v hk hnd).1 hv
      have h2 := (holds_cons_of_key e rest f n w hk hnd).1 hw
      exact h1.2.symm.trans h2.2
    · have hnd' : (lock_keys rest).Nodup := by
        simp only [lock_keys, List.map_cons, List.nodup_cons] at hnd
        exact hnd.2
      exact ih hnd' ((holds_cons_of_not_key e rest f n v hk).1 hv)
        ((holds_cons_of_not_key e rest f n w hk).1 hw)

/-- C3. In every lock table reachable from the empty table by
`global_try_lock_sentence` and `global_unlock_sentence` calls (names within the
buffer limits of the caller), every key `(filename, sentence)` has at most one
entry and at most one holding user; a lock attempt returns 1 exactly when the
key is free or already held by the same user, a granted attempt makes that user
the holder, and a denied attempt leaves the table unchanged. -/
theorem lock_mutual_exclusion (t : LockTable) (hreach : LockReachable t) (f : Str) (n : Int)
    (u : Str) (hf : f.length < MAX_FILENAME_LENGTH) (hu : u.length < MAX_USERNAME_LENGTH) :
    (∀ g m, key_entries t g m ≤ 1) ∧
    (∀ g m v w, Holds t g m v → Holds t g m w → v = w) ∧
    ((global_try_lock_sentence t f n u).1 = 1 ∨ (global_try_lock_sentence t f n u).1 = 0) ∧
    ((global_try_lock_sentence t f n u).1 = 1 ↔ ∀ v, Holds t f n v → v = u) ∧
    ((global_try_lock_sentence t f n u).1 = 1 →
      Holds (global_try_lock_sentence t f n u).2 f n u) ∧
    ((global_try_lock_sentence t f n u).1 ≠ 1 → (global_try_lock_sentence t f n u).2 = t) := by
  have hnd := lock_reachable_nodup t hreach
  exact ⟨fun g m => key_entries_le_one t hnd g m,
    fun g m v w => holds_unique t hnd g m v w,
    try_lock_spec t hnd f n u hf hu⟩

theorem bob_table_reachable : LockReachable bob_table :=
  LockReachable.try_lock [] _ 0 _ LockReachable.empty (by decide) (by decide)

/-- Witness of C3: after bob locked `(notes.txt, 0)`, alice is denied and the table is
unchanged. -/
theorem lock_mutual_exclusion_witness :
    LockReachable bob_table ∧
    (global_try_lock_sentence bob_table "notes.txt".toList 0 "alice".toList).1 = 0 ∧
    (∀ g m, key_entries bob_table g m ≤ 1) ∧
    (global_try_lock_sentence bob_table "notes.txt".toList 0 "alice".toList).2 = bob_table :=
  ⟨bob_table_reachable, by decide,
    (lock_mutual_exclusion bob_table bob_table_reachable "notes.txt".toList 0 "alice".toList
      (by decide) (by decide)).1,
    (lock_mutual_exclusion bob_table bob_table_reachable "notes.txt".toList 0 "alice".toList
      (by decide) (by decide)).2.2.2.2.2 (by decide)⟩

/-- C4. On a reachable lock table `global_unlock_sentence` returns 1 exactly when
the key is held by the calling user; the key is then free and the next lock
attempt on it succeeds for every user; in every other case (another user, a
free key, an unknown key) it returns 0 and the table is unchanged. -/
theorem unlock_only_by_holder (t : LockTable) (hreach : LockReachable t) (f : Str) (n : Int)
    (u : Str) (hf : f.length < MAX_FILENAME_LENGTH) :
    ((global_unlock_sentence t f n u).1 = 1 ↔ Holds t f n u) ∧
    ((global_unlock_sentence t f n u).1 = 1 →
      (∀ v, ¬ Holds (global_unlock_sentence t f n u).2 f n v) ∧
      ∀ v : Str, v.length < MAX_USERNAME_LENGTH →
        (global_try_lock_sentence (global_unlock_sentence t f n u).2 f n v).1 = 1 ∧
        Holds (global_try_lock_sentence (global_unlock_sentence t f n u).2 f n v).2 f n v) ∧
    (¬ Holds t f n u → global_unlock_sentence t f n u = (0, t)) := by
  have hnd := lock_reachable_nodup t hreach
  obtain ⟨h1, h2, h3⟩ := unlock_spec t hnd f n u
  refine ⟨h1, fun h => ⟨h2 h, fun v hv => ?_⟩, h3⟩
  have hnd' : (lock_keys (global_unlock_sentence t f n u).2).Nodup := by
    rw [unlock_keys]; exact hnd
  obtain ⟨_, s2, s3, _⟩ := try_lock_spec _ hnd' f n v hf hv
  have hs : (global_try_lock_sentence (global_unlock_sentence t f n u).2 f n v).1 = 1 :=
    s2.2 (fun w hw => absurd hw (h2 h w))
  exact ⟨hs, s3 hs⟩

/-- Witness of C4 (scenario S4): bob locks `(notes.txt, 0)`, alice is denied, bob
unlocks, alice's next attempt succeeds. -/
theorem unlock_only_by_holder_witness :
    LockReachable bob_table ∧
    Holds bob_table "notes.txt".toList 0 "bob".toList ∧
    (global_try_lock_sentence bob_table "notes.txt".toList 0 "alice".toList).1 = 0 ∧
    (global_unlock_sentence bob_table "notes.txt".toList 0 "alice".toList) = (0, bob_table) ∧
    (global_unlock_sentence bob_table "notes.txt".toList 0 "bob".toList).1 = 1 ∧
    (global_try_lock_sentence
      (global_unlock_sentence bob_table "notes.txt".toList 0 "bob".toList).2
      "notes.txt".toList 0 "alice".toList).1 = 1 :=
  have hb : Holds bob_table "notes.txt".toList 0 "bob".toList :=
    ⟨_, List.mem_cons_self _ _, by decide, by decide, by decide, by decide⟩
  have hspec := unlock_only_by_holder bob_table bob_table_reachable "notes.txt".toList 0
    "bob".toList (by decide)
  ⟨bob_table_reachable, hb, by decide, by decide, hspec.1.2 hb,
    ((hspec.2.1 (hspec.1.2 hb)).2 "alice".toList (by decide)).1⟩

/-! ## Access control -/

/-- In a list whose keys are distinct, a scan from the head for the key of a
member finds that member. -/
theorem find_of_nodup_keys {α β : Type} [DecidableEq β] (key : α → β) (l : List α)
    (h : (l.map key).Nodup) (a : α) (ha : a ∈ l) :
    l.find? (fun x => decide (key x = key a)) = some a := by
  induction l with
  | nil => cases ha
  | cons x rest ih =>
    simp only [List.map_cons, List.nodup_cons] at h
    rcases List.mem_cons.1 ha with rfl | hr
    · simp
    · have hne : key x ≠ key a := by
        intro heq
        apply h.1
        rw [heq]
        exact List.mem_map.2 ⟨a, hr, rfl⟩
      rw [List.find?_cons]
      simp only [hne, decide_False]
      exact ih h.2 hr

theorem check_access_listed (t : AccessControlManager) (f u : Str) (l : Int)
    (h : check_access t f u l = true) : ListedWithLevel t f u l := by
  unfold check_access at h
  cases hf : t.find? (fun a => decide (a.filename = f)) with
  | none => rw [hf] at h; cases h
  | some acl =>
    rw [hf] at h
    simp only at h
    cases hu : acl.users.find? (fun p => decide (p.1 = u)) with
    | none => rw [hu] at h; cases h
    | some p =>
      rw [hu] at h
      simp only [decide_eq_true_eq] at h
      have h1 := List.find?_some hf
      have h2 := List.find?_some hu
      simp only [decide_eq_true_eq] at h1 h2
      exact ⟨acl, List.mem_of_find?_eq_some hf, h1, p, List.mem_of_find?_eq_some hu, h2, h⟩

/-- On every ACL table that satisfies the data-model invariant (one entry per
file, no user listed twice), `check_access(file, user, L)` is true exactly when
the file has an ACL entry that lists the user with a level of at least `L` in
the order read (1) ≤ write (2) ≤ owner (4); a file without an entry and a user
who is not listed are refused. -/
theorem check_access_iff_listed (t : AccessControlManager) (hwf : ACLWellFormed t)
    (f u : Str) (l : Int) :
    (check_access t f u l = true ↔ ListedWithLevel t f u l) ∧
    ((∀ a ∈ t, a.filename ≠ f) → check_access t f u l = false) ∧
    ((∀ a ∈ t, a.filename = f → ∀ p ∈ a.users, p.1 ≠ u) → check_access t f u l = false) := by
  have hmain : check_access t f u l = true ↔ ListedWithLevel t f u l := by
    constructor
    · exact check_access_listed t f u l
    · rintro ⟨a, ha, hfa, p, hp, hpu, hl⟩
      have h1 := find_of_nodup_keys (fun a : FileAccessControl => a.filename) t hwf.1 a ha
      have h2 := find_of_nodup_keys (fun p : Str × Int => p.1) a.users (hwf.2 a ha) p hp
      simp only [hfa] at h1
      simp only [hpu] at h2
      unfold check_access
      rw [h1]
      simp only
      rw [h2]
      simpa using hl
  refine ⟨hmain, ?_, ?_⟩
  · intro hno
    by_contra hc
    obtain ⟨a, ha, hfa, _⟩ := hmain.1 (by simpa using hc)
    exact hno a ha hfa
  · intro hno
    by_contra hc
    obtain ⟨a, ha, hfa, p, hp, hpu, _⟩ := hmain.1 (by simpa using hc)
    exact hno a ha hfa p hp hpu

theorem acl_alice_bob_well_formed : ACLWellFormed acl_alice_bob := by
  unfold ACLWellFormed
  decide

/-- The equivalence on the table where alice owns `notes.txt` and bob was granted
read: bob passes the read check, fails the write check, and carol (not listed)
is refused. -/
theorem check_access_iff_listed_witness :
    ACLWellFormed acl_alice_bob ∧
    check_access acl_alice_bob "notes.txt".toList "bob".toList ACCESS_READ = true ∧
    ¬ ListedWithLevel acl_alice_bob "notes.txt".toList "bob".toList ACCESS_WRITE ∧
    check_access acl_alice_bob "notes.txt".toList "carol".toList ACCESS_READ = false :=
  ⟨acl_alice_bob_well_formed, by decide,
    fun h => absurd ((check_access_iff_listed acl_alice_bob acl_alice_bob_well_formed
      "notes.txt".toList "bob".toList ACCESS_WRITE).1.2 h) (by decide),
    (check_access_iff_listed acl_alice_bob acl_alice_bob_well_formed
      "notes.txt".toList "carol".toList ACCESS_READ).2.2 (by decide)⟩

/-- C5 (the code departs from the claim). alice creates `notes.txt` and sends
`ADDACCESS` twice for a user name of 70 bytes, first with `-R`, then with `-W`.
`grant_access` compares the full name with the 63 bytes a slot keeps, so the
entry of `notes.txt` lists that 63-byte name twice, at read and at write.  The
user is then listed on the entry with level write, and `check_access` for write
is false: it looks at the first listing only.  On tables without a second
listing the equivalence holds (`check_access_iff_listed`). -/
theorem check_access_first_listing_decides :
    config_twice_granted.acl_manager =
      [⟨"notes.txt".toList, "alice".toList,
        [("alice".toList, ACCESS_OWNER), (List.replicate 63 'a', ACCESS_READ),
         (List.replicate 63 'a', ACCESS_WRITE)]⟩] ∧
    ListedWithLevel config_twice_granted.acl_manager "notes.txt".toList
      (List.replicate 63 'a') ACCESS_WRITE ∧
    check_access config_twice_granted.acl_manager "notes.txt".toList
      (List.replicate 63 'a') ACCESS_WRITE = false ∧
    ¬ ACLWellFormed config_twice_granted.acl_manager := by
  refine ⟨by decide, ?_, by decide, ?_⟩
  · unfold ListedWithLevel
    decide
  · unfold ACLWellFormed
    decide

/-- C7 (the code departs from the claim). `grant_access` on the owner's own entry does
not refuse: called with the owner of `notes.txt` and level read it returns
`ERR_SUCCESS` and overwrites the owner's level 4 by 1. -/
theorem grant_access_overwrites_owner :
    acl_alice = [⟨"notes.txt".toList, "alice".toList, [("alice".toList, ACCESS_OWNER)]⟩] ∧
    grant_access acl_alice "notes.txt".toList "alice".toList ACCESS_READ =
      (ERR_SUCCESS,
       [⟨"notes.txt".toList, "alice".toList, [("alice".toList, ACCESS_READ)]⟩]) ∧
    (revoke_access acl_alice "notes.txt".toList "alice".toList).1 = ERR_PERMISSION_DENIED := by
  decide

/-- C8 (the code departs from the claim). The table reached by `add_file_access(notes.txt,
alice)` followed by `grant_access(notes.txt, alice, ACCESS_READ)`, which is what
the frame `ADDACCESS|-R|notes.txt|alice` sent by alice executes, lists the owner
at level read: no user holds level owner, and alice's own `WRITE` is then
answered with `ERROR|Access denied`. -/
theorem owner_level_lost_by_self_grant :
    ACLReachable (grant_access acl_alice "notes.txt".toList "alice".toList ACCESS_READ).2 ∧
    (handle_session_command "alice".toList config_alice_created ss_success_env
      "ADDACCESS|-R|notes.txt|alice".toList).config.acl_manager =
      (grant_access acl_alice "notes.txt".toList "alice".toList ACCESS_READ).2 ∧
    (∀ a ∈ (grant_access acl_alice "notes.txt".toList "alice".toList ACCESS_READ).2,
      ¬ OwnerListedOnce a ∧ ∀ p ∈ a.users, p.2 ≠ ACCESS_OWNER) ∧
    (handle_session_command "alice".toList
      (handle_session_command "alice".toList config_alice_created ss_success_env
        "ADDACCESS|-R|notes.txt|alice".toList).config ss_success_env
      "WRITE|notes.txt".toList).replies = ["ERROR|Access denied\n".toList] := by
  refine ⟨?_, by decide, ?_, by decide⟩
  · exact ACLReachable.grant _ _ _ _
      (ACLReachable.add [] "notes.txt".toList "alice".toList ACLReachable.empty) (Or.inl rfl)
  · intro a ha
    have hval : (grant_access acl_alice "notes.txt".toList "alice".toList ACCESS_READ).2 =
        [⟨"notes.txt".toList, "alice".toList, [("alice".toList, ACCESS_READ)]⟩] := by decide
    rw [hval] at ha
    simp only [List.mem_singleton] at ha
    subst ha
    refine ⟨?_, by decide⟩
    intro h
    exact absurd h.1 (by decide)

/-! ## Name-node command dispatch -/

theorem check_access_false_of_not_listed (t : AccessControlManager) (f u : Str) (l : Int)
    (h : ¬ ListedWithLevel t f u l) : check_access t f u l = false := by
  by_contra hc
  exact h (check_access_listed t f u l (by simpa using hc))

theorem owner_test_false_of_not_owner (t : AccessControlManager) (f u : Str)
    (h : ¬ IsOwner t f u) :
    owner_check t f u = false := by
  unfold owner_check
  cases hg : get_file_acl t f with
  | none => rfl
  | some acl =>
    simp only [decide_eq_false_iff_not]
    intro ho
    unfold get_file_acl at hg
    have h1 := List.find?_some hg
    simp only [decide_eq_true_eq] at h1
    exact h ⟨acl, List.mem_of_find?_eq_some hg, h1, ho⟩

theorem refused_of_error (config : NameServerConfig) (r : Str) (b : Bool)
    (h1 : is_error_frame r = true) (h2 : is_redirect_frame r = false) :
    Refused config ⟨config, [r], b⟩ :=
  ⟨⟨r, rfl, h1, h2⟩, rfl, rfl⟩

theorem redirect_refused (config : NameServerConfig) (u f : Str) (l : Int)
    (h : ¬ ListedWithLevel config.acl_manager f u l) :
    Refused config ⟨config, redirect_to_ss config u f l, true⟩ := by
  unfold redirect_to_ss
  rw [check_access_false_of_not_listed _ _ _ _ h]
  exact refused_of_error config _ true (by decide) (by decide)

/-- C6. The dispatch enforces the ACL pre-check of every command.  Let `toks` be
the `|`-separated fields of a command frame.  `READ`, `STREAM` and `EXEC` on a
file on which the caller is not listed with at least read, `WRITE` and `UNDO`
on a file on which the caller is not listed with at least write, and `DELETE`,
`REMACCESS` and `ADDACCESS` on a file whose recorded owner is not the caller
are refused: the only reply is an error frame (never a redirect) and the
routing table and the ACL table are unchanged. -/
theorem acl_precheck_enforced (username : Str) (config : NameServerConfig) (env : CommandEnv)
    (command : Str) (toks : List Str)
    (htoks : toks = strtok_all (fun c => c == '|') (command.take (BUFFER_SIZE - 1))) :
    (∀ cmd f, toks[0]? = some cmd → toks[1]? = some f →
      (cmd = "READ".toList ∨ cmd = "STREAM".toList ∨ cmd = "EXEC".toList) →
      ¬ ListedWithLevel config.acl_manager f username ACCESS_READ →
      Refused config (handle_session_command username config env command)) ∧
    (∀ cmd f, toks[0]? = some cmd → toks[1]? = some f →
      (cmd = "WRITE".toList ∨ cmd = "UNDO".toList) →
      ¬ ListedWithLevel config.acl_manager f username ACCESS_WRITE →
      Refused config (handle_session_command username config env command)) ∧
    (∀ cmd f, toks[0]? = some cmd → toks[1]? = some f →
      (cmd = "DELETE".toList ∨ cmd = "REMACCESS".toList) →
      ¬ IsOwner config.acl_manager f username →
      Refused config (handle_session_command username config env command)) ∧
    (∀ f, toks[0]? = some "ADDACCESS".toList → toks[2]? = some f →
      ¬ IsOwner config.acl_manager f username →
      Refused config (handle_session_command username config env command)) := by
  subst htoks
  refine ⟨?_, ?_, ?_, ?_⟩
  · intro cmd f h0 h1 hc hno
    unfold handle_session_command
    simp only [h0, h1]
    rcases hc with rfl | rfl | rfl
    · simp only [(by decide : ¬ ("READ".toList = "QUIT".toList ∨ "READ".toList = "EXIT".toList)),
        (by decide : "READ".toList ≠ "CREATE".toList),
        (by decide : "READ".toList ≠ "VIEW".toList), if_false, if_true]
      exact redirect_refused config username f _ hno
    · simp only [(by decide : ¬ ("STREAM".toList = "QUIT".toList ∨ "STREAM".toList = "EXIT".toList)),
        (by decide : "STREAM".toList ≠ "CREATE".toList),
        (by decide : "STREAM".toList ≠ "VIEW".toList),
        (by decide : "STREAM".toList ≠ "READ".toList),
        (by decide : "STREAM".toList ≠ "WRITE".toList),
        (by decide : "STREAM".toList ≠ "DELETE".toList),
        (by decide : "STREAM".toList ≠ "INFO".toList), if_false, if_true]
      exact redirect_refused config username f _ hno
    · simp only [(by decide : ¬ ("EXEC".toList = "QUIT".toList ∨ "EXEC".toList = "EXIT".toList)),
        (by decide : "EXEC".toList ≠ "CREATE".toList),
        (by decide : "EXEC".toList ≠ "VIEW".toList),
        (by decide : "EXEC".toList ≠ "READ".toList),
        (by decide : "EXEC".toList ≠ "WRITE".toList),
        (by decide : "EXEC".toList ≠ "DELETE".toList),
        (by decide : "EXEC".toList ≠ "INFO".toList),
        (by decide : "EXEC".toList ≠ "STREAM".toList),
        (by decide : "EXEC".toList ≠ "UNDO".toList), if_false, if_true]
      unfold handle_exec
      simp only [h1, check_access_false_of_not_listed _ _ _ _ hno, Bool.not_false, if_true]
      exact refused_of_error config "ERROR|Access denied\n".toList true (by decide) (by decide)
  · intro cmd f h0 h1 hc hno
    unfold handle_session_command
    simp only [h0, h1]
    rcases hc with rfl | rfl
    · simp only [(by decide : ¬ ("WRITE".toList = "QUIT".toList ∨ "WRITE".toList = "EXIT".toList)),
        (by decide : "WRITE".toList ≠ "CREATE".toList),
        (by decide : "WRITE".toList ≠ "VIEW".toList),
        (by decide : "WRITE".toList ≠ "READ".toList), if_false, if_true]
      exact redirect_refused config username f _ hno
    · simp only [(by decide : ¬ ("UNDO".toList = "QUIT".toList ∨ "UNDO".toList = "EXIT".toList)),
        (by decide : "UNDO".toList ≠ "CREATE".toList),
        (by decide : "UNDO".toList ≠ "VIEW".toList),
        (by decide : "UNDO".toList ≠ "READ".toList),
        (by decide : "UNDO".toList ≠ "WRITE".toList),
        (by decide : "UNDO".toList ≠ "DELETE".toList),
        (by decide : "UNDO".toList ≠ "INFO".toList),
        (by decide : "UNDO".toList ≠ "STREAM".toList), if_false, if_true]
      exact redirect_refused config username f _ hno
  · intro cmd f h0 h1 hc hno
    unfold handle_session_command
    simp only [h0, h1]
    rcases hc with rfl | rfl
    · simp only [(by decide : ¬ ("DELETE".toList = "QUIT".toList ∨ "DELETE".toList = "EXIT".toList)),
        (by decide : "DELETE".toList ≠ "CREATE".toList),
        (by decide : "DELETE".toList ≠ "VIEW".toList),
        (by decide : "DELETE".toList ≠ "READ".toList),
        (by decide : "DELETE".toList ≠ "WRITE".toList), if_false, if_true]
      unfold handle_delete
      simp only [h1, owner_test_false_of_not_owner _ _ _ hno, Bool.not_false, if_true]
      exact refused_of_error config "ERROR|Only owner can delete\n".toList true
        (by decide) (by decide)
    · simp only [(by decide :
          ¬ ("REMACCESS".toList = "QUIT".toList ∨ "REMACCESS".toList = "EXIT".toList)),
        (by decide : "REMACCESS".toList ≠ "CREATE".toList),
        (by decide : "REMACCESS".toList ≠ "VIEW".toList),
        (by decide : "REMACCESS".toList ≠ "READ".toList),
        (by decide : "REMACCESS".toList ≠ "WRITE".toList),
        (by decide : "REMACCESS".toList ≠ "DELETE".toList),
        (by decide : "REMACCESS".toList ≠ "INFO".toList),
        (by decide : "REMACCESS".toList ≠ "STREAM".toList),
        (by decide : "REMACCESS".toList ≠ "UNDO".toList),
        (by decide : "REMACCESS".toList ≠ "EXEC".toList),
        (by decide : "REMACCESS".toList ≠ "LIST".toList),
        (by decide : "REMACCESS".toList ≠ "ADDACCESS".toList), if_false, if_true]
      unfold handle_remaccess
      simp only [h1]
      cases h2 : (strtok_all (fun c => c == '|') (command.take (BUFFER_SIZE - 1)))[2]? with
      | none => exact refused_of_error config _ true (by decide) (by decide)
      | some target =>
        simp only [owner_test_false_of_not_owner _ _ _ hno, Bool.not_false, if_true]
        exact refused_of_error config "ERROR|Only owner can revoke access\n".toList true
          (by decide) (by decide)
  · intro f h0 h2 hno
    unfold handle_session_command
    simp only [h0]
    simp only [(by decide :
          ¬ ("ADDACCESS".toList = "QUIT".toList ∨ "ADDACCESS".toList = "EXIT".toList)),
        (by decide : "ADDACCESS".toList ≠ "CREATE".toList),
        (by decide : "ADDACCESS".toList ≠ "VIEW".toList),
        (by decide : "ADDACCESS".toList ≠ "READ".toList),
        (by decide : "ADDACCESS".toList ≠ "WRITE".toList),
        (by decide : "ADDACCESS".toList ≠ "DELETE".toList),
        (by decide : "ADDACCESS".toList ≠ "INFO".toList),
        (by decide : "ADDACCESS".toList ≠ "STREAM".toList),
        (by decide : "ADDACCESS".toList ≠ "UNDO".toList),
        (by decide : "ADDACCESS".toList ≠ "EXEC".toList),
        (by decide : "ADDACCESS".toList ≠ "LIST".toList), if_false, if_true]
    unfold handle_addaccess
    simp only [h2]
    cases h1 : (strtok_all (fun c => c == '|') (command.take (BUFFER_SIZE - 1)))[1]? with
    | none => exact refused_of_error config _ true (by decide) (by decide)
    | some access_type =>
      cases h3 : (strtok_all (fun c => c == '|') (command.take (BUFFER_SIZE - 1)))[3]? with
      | none => exact refused_of_error config _ true (by decide) (by decide)
      | some target =>
        simp only [owner_test_false_of_not_owner _ _ _ hno, Bool.not_false, if_true]
        exact refused_of_error config _ true (by decide) (by decide)

/-- Witness of C6 (scenario S5): after alice created `notes.txt`, carol's
`DELETE|notes.txt` is answered with `ERROR|Only owner can delete` and changes
neither table. -/
theorem acl_precheck_enforced_witness :
    ¬ IsOwner config_alice_created.acl_manager "notes.txt".toList "carol".toList ∧
    Refused config_alice_created
      (handle_session_command "carol".toList config_alice_created ss_success_env
        "DELETE|notes.txt".toList) ∧
    (handle_session_command "carol".toList config_alice_created ss_success_env
        "DELETE|notes.txt".toList).replies = ["ERROR|Only owner can delete\n".toList] :=
  have hno : ¬ IsOwner config_alice_created.acl_manager "notes.txt".toList "carol".toList := by
    unfold IsOwner
    decide
  ⟨hno,
    (acl_precheck_enforced "carol".toList config_alice_created ss_success_env
      "DELETE|notes.txt".toList _ rfl).2.2.1 "DELETE".toList "notes.txt".toList
      (by decide) (by decide) (Or.inl rfl) hno,
    by decide⟩

/-- C9 (the code departs from the claim). alice creates `notes.txt` and deletes it; bob then
creates `notes.txt`; the storage node answers each forwarded command with
`SUCCESS`.  The name node answers bob with `SUCCESS` and the file is routed
again, but the ACL entry of the first creation is still there:
`add_file_access` returns `ERR_FILE_ALREADY_EXISTS`, the owner stays alice and
bob is not listed at all. -/
theorem create_after_delete_keeps_old_owner :
    recreate_ss_1.2 = "SUCCESS|File 'notes.txt' created\n".toList ∧
    recreate_ss_2.2 = "SUCCESS|File 'notes.txt' deleted\n".toList ∧
    recreate_ss_3.2 = "SUCCESS|File 'notes.txt' created\n".toList ∧
    recreate_nm_1.replies = ["SUCCESS|File created successfully!\n".toList] ∧
    recreate_nm_2.replies = ["SUCCESS|File deleted successfully!\n".toList] ∧
    recreate_nm_3.replies = ["SUCCESS|File created successfully!\n".toList] ∧
    get_file_primary_ss recreate_nm_3.config.file_table "notes.txt".toList = 1 ∧
    get_file_acl recreate_nm_3.config.acl_manager "notes.txt".toList =
      some ⟨"notes.txt".toList, "alice".toList, [("alice".toList, ACCESS_OWNER)]⟩ ∧
    check_access recreate_nm_3.config.acl_manager "notes.txt".toList "bob".toList
      ACCESS_READ = false ∧
    owner_check recreate_nm_3.config.acl_manager "notes.txt".toList "bob".toList = false ∧
    (add_file_access recreate_nm_2.config.acl_manager "notes.txt".toList "bob".toList).1 =
      ERR_FILE_ALREADY_EXISTS := by
  decide

/-! ## Document model: `modify_sentence_multiword` -/

theorem strtok_aux_append (sep : Char → Bool) (b rest cur : Str)
    (hb : ∀ c ∈ b, sep c = false) :
    strtok_aux sep (b ++ rest) cur = strtok_aux sep rest (cur ++ b) := by
  induction b generalizing cur with
  | nil => simp
  | cons c cs ih =>
    have hc : sep c = false := hb c (List.mem_cons_self _ _)
    have step : strtok_aux sep (c :: (cs ++ rest)) cur = strtok_aux sep (cs ++ rest) (cur ++ [c]) := by
      simp only [strtok_aux, hc, Bool.false_eq_true, if_false]
    rw [List.cons_append, step, ih (cur ++ [c]) (fun x hx => hb x (List.mem_cons_of_mem _ hx))]
    simp

theorem strtok_aux_sep (sep : Char → Bool) (d : Char) (rest cur : Str) (hd : sep d = true) :
    strtok_aux sep (d :: rest) cur =
      (if cur.isEmpty then [] else [cur]) ++ strtok_aux sep rest [] := by
  simp only [strtok_aux, hd, if_true]
  split_ifs <;> simp

theorem dropWhile_head_false (p : Char → Bool) (w : Str) (d : Char) (a : Str)
    (h : w.dropWhile p = d :: a) : p d = false := by
  induction w with
  | nil => simp at h
  | cons c cs ih =>
    rw [List.dropWhile_cons] at h
    by_cases hc : p c = true
    · simp only [hc, if_true] at h; exact ih h
    · simp only [hc, Bool.false_eq_true, if_false, List.cons.injEq] at h
      rw [← h.1]; simpa using hc

theorem takeWhile_no_delimiter (w : Str) :
    ∀ c ∈ w.takeWhile (fun c => !is_sentence_delimiter c), is_sentence_delimiter c = false := by
  intro c hc
  have := List.mem_takeWhile_imp hc
  simpa using this

theorem split_pieces_plain (w : Str) (hne : w ≠ [])
    (h : w.dropWhile (fun c => !is_sentence_delimiter c) = []) : split_pieces w = [w] := by
  have hw : w = w.takeWhile (fun c => !is_sentence_delimiter c) := by
    have := List.takeWhile_append_dropWhile (fun c => !is_sentence_delimiter c) w
    rw [h, List.append_nil] at this
    exact this.symm
  unfold split_pieces strtok_all
  have h2 := strtok_aux_append is_sentence_delimiter w [] []
    (by rw [hw]; exact takeWhile_no_delimiter w)
  rw [List.append_nil] at h2
  rw [h2]
  simp [strtok_aux, hne]

theorem split_pieces_cut (w : Str) (d : Char) (a : Str)
    (h : w.dropWhile (fun c => !is_sentence_delimiter c) = d :: a) :
    split_pieces w =
      (if (w.takeWhile (fun c => !is_sentence_delimiter c)).isEmpty then []
       else [w.takeWhile (fun c => !is_sentence_delimiter c)]) ++ split_pieces a := by
  have hd : is_sentence_delimiter d = true := by
    have := dropWhile_head_false _ w d a h
    simpa using this
  have hw := List.takeWhile_append_dropWhile (fun c => !is_sentence_delimiter c) w
  rw [h] at hw
  unfold split_pieces strtok_all
  conv_lhs => rw [← hw]
  rw [strtok_aux_append is_sentence_delimiter _ _ [] (takeWhile_no_delimiter w)]
  rw [strtok_aux_sep is_sentence_delimiter d a _ hd]
  simp

theorem split_pieces_leading (d : Char) (a : Str) (hd : is_sentence_delimiter d = true) :
    split_pieces (d :: a) = split_pieces a := by
  unfold split_pieces strtok_all
  rw [strtok_aux_sep is_sentence_delimiter d a [] hd]
  simp

theorem any_delimiter_iff (w : Str) :
    w.any is_sentence_delimiter = true ↔
      w.dropWhile (fun c => !is_sentence_delimiter c) ≠ [] := by
  induction w with
  | nil => simp
  | cons c cs ih =>
    rw [List.any_cons, List.dropWhile_cons]
    by_cases hc : is_sentence_delimiter c = true
    · simp [hc]
    · simp only [Bool.not_eq_true] at hc
      simp only [hc, Bool.false_or, Bool.not_false, if_true]
      exact ih

theorem all_words_append (a b : List SentenceNode) :
    all_words (a ++ b) = all_words a ++ all_words b := by
  simp [all_words]

theorem all_words_cons (x : SentenceNode) (b : List SentenceNode) :
    all_words (x :: b) = x.words ++ all_words b := by
  simp [all_words]

theorem all_words_nil : all_words [] = [] := rfl

/-- All words of the document held by a loop state. -/
theorem all_words_sentences (st : ModifyState) :
    all_words st.sentences = all_words st.before ++ (st.pre ++ st.post) ++ all_words st.after := by
  simp [ModifyState.sentences, ModifyState.active, all_words_append, all_words_cons]

/-- Ending a sentence keeps every word in place: the new cursor is at the end of
all words of the old active sentence, and nothing lies behind it. -/
theorem end_sentence_words (st : ModifyState) (d od : Char) (more : Bool) :
    (end_sentence st d od more).post = [] ∧
    (end_sentence st d od more).after = st.after ∧
    all_words (end_sentence st d od more).before ++ (end_sentence st d od more).pre =
      all_words st.before ++ (st.pre ++ st.post) := by
  unfold end_sentence
  by_cases hx : (!st.pre.isEmpty && !st.post.isEmpty) = true
  · rw [if_pos hx]
    simp only
    split_ifs <;> simp [all_words_append, all_words_cons, all_words_nil]
  · rw [if_neg hx]
    simp [all_words_append, all_words_cons, all_words_nil]

theorem insert_word_fields (st : ModifyState) (w : Str) :
    (insert_word st w).pre = st.pre ++ [w] ∧ (insert_word st w).post = st.post ∧
    (insert_word st w).before = st.before ∧ (insert_word st w).after = st.after := by
  simp [insert_word]

theorem process_word_plain (st : ModifyState) (od : Char) (w : Str) (more : Bool)
    (h : w.dropWhile (fun c => !is_sentence_delimiter c) = []) :
    process_word st od w more = (insert_word st w, none) := by
  simp only [process_word, h]

theorem process_word_cut (st : ModifyState) (od : Char) (w : Str) (more : Bool) (d : Char)
    (a : Str) (h : w.dropWhile (fun c => !is_sentence_delimiter c) = d :: a) :
    process_word st od w more =
      if a.isEmpty then
        (end_sentence (if (w.takeWhile (fun c => !is_sentence_delimiter c)).isEmpty then st
          else insert_word st (w.takeWhile (fun c => !is_sentence_delimiter c))) d od more, none)
      else
        (end_sentence (if (w.takeWhile (fun c => !is_sentence_delimiter c)).isEmpty then st
          else insert_word st (w.takeWhile (fun c => !is_sentence_delimiter c))) d od
            (more || !a.isEmpty), some a) := by
  simp only [process_word, h]

/-- The state after the optional insertion of the text in front of a delimiter. -/
theorem insert_before_delim_words (st : ModifyState) (b : Str) :
    (if b.isEmpty then st else insert_word st b).post = st.post ∧
    (if b.isEmpty then st else insert_word st b).after = st.after ∧
    (if b.isEmpty then st else insert_word st b).before = st.before ∧
    (if b.isEmpty then st else insert_word st b).pre =
      st.pre ++ (if b.isEmpty then [] else [b]) := by
  by_cases hb : b.isEmpty = true
  · simp [hb]
  · simp [hb, insert_word]

/-- Once nothing lies behind the cursor, every further piece is appended at the
cursor: the loop extends the word sequence read up to the cursor by the pieces
of the pending words, in order. -/
theorem modify_loop_words_at_end (fuel : Nat) (words : List Str) (st : ModifyState) (od : Char)
    (st' : ModifyState) (hpost : st.post = []) (hne : ∀ w ∈ words, w ≠ [])
    (h : modify_loop fuel words st od = some st') :
    all_words st'.before ++ (st'.pre ++ st'.post) =
      all_words st.before ++ st.pre ++ (words.map split_pieces).flatten ∧
    st'.after = st.after := by
  induction fuel generalizing words st with
  | zero =>
    cases words with
    | nil =>
      simp only [modify_loop, Option.some.injEq] at h
      subst h
      simp [hpost]
    | cons w rest => simp [modify_loop] at h
  | succ fuel ih =>
    cases words with
    | nil =>
      simp only [modify_loop, Option.some.injEq] at h
      subst h
      simp [hpost]
    | cons w rest =>
      have hw : w ≠ [] := hne w (List.mem_cons_self _ _)
      have hrest : ∀ x ∈ rest, x ≠ [] := fun x hx => hne x (List.mem_cons_of_mem _ hx)
      cases hdw : w.dropWhile (fun c => !is_sentence_delimiter c) with
      | nil =>
        simp only [modify_loop, process_word_plain st od w _ hdw] at h
        obtain ⟨i1, i2⟩ := ih rest (insert_word st w) (by simp [insert_word, hpost]) hrest h
        refine ⟨?_, by rw [i2]; simp [insert_word]⟩
        rw [i1, List.map_cons, List.flatten_cons, split_pieces_plain w hw hdw]
        simp [insert_word]
      | cons d a =>
        obtain ⟨b1, b2, b3, b4⟩ := insert_before_delim_words st
          (w.takeWhile (fun c => !is_sentence_delimiter c))
        simp only [modify_loop, process_word_cut st od w _ d a hdw] at h
        by_cases ha : a.isEmpty = true
        · simp only [ha, if_true] at h
          obtain ⟨e1, e2, e3⟩ := end_sentence_words
            (if (w.takeWhile (fun c => !is_sentence_delimiter c)).isEmpty then st
              else insert_word st (w.takeWhile (fun c => !is_sentence_delimiter c)))
            d od (!rest.isEmpty)
          obtain ⟨i1, i2⟩ := ih rest _ e1 hrest h
          refine ⟨?_, by rw [i2, e2, b2]⟩
          have ha' : a = [] := by simpa using ha
          rw [i1, e3, b1, b3, b4, hpost, List.map_cons, List.flatten_cons,
            split_pieces_cut w d a hdw, ha']
          simp [split_pieces, strtok_all, strtok_aux]
        · rw [if_neg ha] at h
          simp only at h
          obtain ⟨e1, e2, e3⟩ := end_sentence_words
            (if (w.takeWhile (fun c => !is_sentence_delimiter c)).isEmpty then st
              else insert_word st (w.takeWhile (fun c => !is_sentence_delimiter c)))
            d od (!rest.isEmpty || !a.isEmpty)
          have hne' : ∀ x ∈ a :: rest, x ≠ [] := by
            intro x hx
            rcases List.mem_cons.1 hx with rfl | hr
            · intro hnil; apply ha; simp [hnil]
            · exact hrest x hr
          obtain ⟨i1, i2⟩ := ih (a :: rest) _ e1 hne' h
          refine ⟨?_, by rw [i2, e2, b2]⟩
          rw [i1, e3, b1, b3, b4, hpost, List.map_cons, List.flatten_cons, List.map_cons,
            List.flatten_cons, split_pieces_cut w d a hdw]
          simp

theorem strtok_aux_nonempty (sep : Char → Bool) (s cur : Str) :
    ∀ t ∈ strtok_aux sep s cur, t ≠ [] := by
  induction s generalizing cur with
  | nil =>
    intro t ht
    simp only [strtok_aux] at ht
    by_cases hc : cur.isEmpty = true
    · simp [hc] at ht
    · simp only [hc, Bool.false_eq_true, if_false, List.mem_singleton] at ht
      subst ht
      intro hnil; apply hc; simp [hnil]
  | cons c cs ih =>
    intro t ht
    simp only [strtok_aux] at ht
    by_cases hs : sep c = true
    · simp only [hs, if_true] at ht
      by_cases hc : cur.isEmpty = true
      · simp only [hc, if_true] at ht
        exact ih [] t ht
      · simp only [hc, Bool.false_eq_true, if_false, List.mem_cons] at ht
        rcases ht with rfl | ht
        · intro hnil; apply hc; simp [hnil]
        · exact ih [] t ht
    · simp only [hs, Bool.false_eq_true, if_false] at ht
      exact ih (cur ++ [c]) t ht

theorem strtok_all_nonempty (sep : Char → Bool) (s : Str) : ∀ t ∈ strtok_all sep s, t ≠ [] :=
  strtok_aux_nonempty sep s []

theorem head_tail_pieces (words : List Str) (hne : ∀ w ∈ words, w ≠ []) :
    head_pieces words ++ tail_pieces words = (words.map split_pieces).flatten := by
  induction words with
  | nil => rfl
  | cons w rest ih =>
    have hw : w ≠ [] := hne w (List.mem_cons_self _ _)
    have ih' := ih (fun x hx => hne x (List.mem_cons_of_mem _ hx))
    cases hdw : w.dropWhile (fun c => !is_sentence_delimiter c) with
    | nil =>
      have hany : w.any is_sentence_delimiter = false := by
        by_contra hc
        exact ((any_delimiter_iff w).1 (by simpa using hc)) hdw
      simp only [head_pieces, tail_pieces, hany, Bool.false_eq_true, if_false, List.map_cons,
        List.flatten_cons, split_pieces_plain w hw hdw]
      simp [ih']
    | cons d a =>
      have hany : w.any is_sentence_delimiter = true :=
        (any_delimiter_iff w).2 (by rw [hdw]; simp)
      have hd : is_sentence_delimiter d = true := by
        have := dropWhile_head_false _ w d a hdw
        simpa using this
      simp only [head_pieces, tail_pieces, hany, if_true, List.map_cons, List.flatten_cons,
        split_pieces_cut w d a hdw, hdw, split_pieces_leading d a hd]
      simp

/-- The word sequence after the loop: the pieces in front of the first delimiter
go to the cursor, the other pieces behind the words that followed the cursor. -/
theorem modify_loop_words (fuel : Nat) (words : List Str) (st : ModifyState) (od : Char)
    (st' : ModifyState) (hne : ∀ w ∈ words, w ≠ [])
    (h : modify_loop fuel words st od = some st') :
    all_words st'.sentences =
      all_words st.before ++ st.pre ++ head_pieces words ++ st.post ++ tail_pieces words ++
        all_words st.after := by
  induction fuel generalizing words st with
  | zero =>
    cases words with
    | nil =>
      simp only [modify_loop, Option.some.injEq] at h
      subst h
      simp [all_words_sentences, head_pieces, tail_pieces]
    | cons w rest => simp [modify_loop] at h
  | succ fuel ih =>
    cases words with
    | nil =>
      simp only [modify_loop, Option.some.injEq] at h
      subst h
      simp [all_words_sentences, head_pieces, tail_pieces]
    | cons w rest =>
      have hw : w ≠ [] := hne w (List.mem_cons_self _ _)
      have hrest : ∀ x ∈ rest, x ≠ [] := fun x hx => hne x (List.mem_cons_of_mem _ hx)
      cases hdw : w.dropWhile (fun c => !is_sentence_delimiter c) with
      | nil =>
        have hany : w.any is_sentence_delimiter = false := by
          by_contra hc
          exact ((any_delimiter_iff w).1 (by simpa using hc)) hdw
        simp only [modify_loop, process_word_plain st od w _ hdw] at h
        rw [ih rest (insert_word st w) hrest h]
        simp [insert_word, head_pieces, tail_pieces, hany]
      | cons d a =>
        have hany : w.any is_sentence_delimiter = true :=
          (any_delimiter_iff w).2 (by rw [hdw]; simp)
        have hd : is_sentence_delimiter d = true := by
          have := dropWhile_head_false _ w d a hdw
          simpa using this
        obtain ⟨b1, b2, b3, b4⟩ := insert_before_delim_words st
          (w.takeWhile (fun c => !is_sentence_delimiter c))
        simp only [modify_loop, process_word_cut st od w _ d a hdw] at h
        rw [all_words_sentences]
        by_cases ha : a.isEmpty = true
        · simp only [ha, if_true] at h
          obtain ⟨e1, e2, e3⟩ := end_sentence_words
            (if (w.takeWhile (fun c => !is_sentence_delimiter c)).isEmpty then st
              else insert_word st (w.takeWhile (fun c => !is_sentence_delimiter c)))
            d od (!rest.isEmpty)
          obtain ⟨i1, i2⟩ := modify_loop_words_at_end fuel rest _ od st' e1 hrest h
          have ha' : a = [] := by simpa using ha
          rw [i1, i2, e2, e3, b1, b2, b3, b4]
          simp only [head_pieces, tail_pieces, hany, if_true, hdw, split_pieces_leading d a hd,
            ha']
          simp [split_pieces, strtok_all, strtok_aux, hd]
        · rw [if_neg ha] at h
          simp only at h
          obtain ⟨e1, e2, e3⟩ := end_sentence_words
            (if (w.takeWhile (fun c => !is_sentence_delimiter c)).isEmpty then st
              else insert_word st (w.takeWhile (fun c => !is_sentence_delimiter c)))
            d od (!rest.isEmpty || !a.isEmpty)
          have hne' : ∀ x ∈ a :: rest, x ≠ [] := by
            intro x hx
            rcases List.mem_cons.1 hx with rfl | hr
            · intro hnil; apply ha; simp [hnil]
            · exact hrest x hr
          obtain ⟨i1, i2⟩ := modify_loop_words_at_end fuel (a :: rest) _ od st' e1 hne' h
          rw [i1, i2, e2, e3, b1, b2, b3, b4]
          simp only [head_pieces, tail_pieces, hany, if_true, hdw, split_pieces_leading d a hd,
            List.map_cons, List.flatten_cons]
          simp

theorem length_dropWhile_le_length (p : Char → Bool) (w : Str) :
    (w.dropWhile p).length ≤ w.length := by
  induction w with
  | nil => simp
  | cons c cs ih =>
    rw [List.dropWhile_cons]
    split_ifs
    · simp only [List.length_cons]; omega
    · exact le_refl _

theorem loop_fuel_cons (w : Str) (rest : List Str) :
    loop_fuel (w :: rest) = w.length + 1 + loop_fuel rest := by
  simp [loop_fuel]

/-- The loop never runs out of fuel when it starts with `loop_fuel words`. -/
theorem modify_loop_total (fuel : Nat) (words : List Str) (st : ModifyState) (od : Char)
    (hf : loop_fuel words ≤ fuel) : ∃ st', modify_loop fuel words st od = some st' := by
  induction fuel generalizing words st with
  | zero =>
    cases words with
    | nil => exact ⟨st, rfl⟩
    | cons w rest => rw [loop_fuel_cons] at hf; omega
  | succ fuel ih =>
    cases words with
    | nil => exact ⟨st, rfl⟩
    | cons w rest =>
      rw [loop_fuel_cons] at hf
      cases hdw : w.dropWhile (fun c => !is_sentence_delimiter c) with
      | nil =>
        simp only [modify_loop, process_word_plain st od w _ hdw]
        exact ih rest _ (by omega)
      | cons d a =>
        simp only [modify_loop, process_word_cut st od w _ d a hdw]
        by_cases ha : a.isEmpty = true
        · simp only [ha, if_true]
          exact ih rest _ (by omega)
        · rw [if_neg ha]
          simp only
          apply ih (a :: rest)
          rw [loop_fuel_cons]
          have hlen : (w.dropWhile (fun c => !is_sentence_delimiter c)).length ≤ w.length :=
            length_dropWhile_le_length _ _
          rw [hdw, List.length_cons] at hlen
          omega

/-- The model of `modify_sentence_multiword` never reports exhausted fuel: every
call ends with one of the two range errors of the source or with a result. -/
theorem modify_never_out_of_fuel (file : FileContent) (s w : Int) (text : Str) :
    modify_sentence_multiword file s w text ≠ .error FUEL_EXHAUSTED := by
  unfold modify_sentence_multiword
  split_ifs
  · intro h; cases h
  · cases hd : file.head.drop s.toNat with
    | nil => intro h; cases h
    | cons cur after =>
      simp only
      split_ifs
      · intro h; cases h
      · obtain ⟨st', hst'⟩ := modify_loop_total (loop_fuel (parse_input_words text))
          (parse_input_words text) (start_state file s w cur after) cur.delimiter (le_refl _)
        rw [hst']
        intro h; cases h

/-- What a successful call of `modify_sentence_multiword` went through. -/
theorem modify_ok_unfold (file file' : FileContent) (s w : Int) (text : Str) (n : Int)
    (h : modify_sentence_multiword file s w text = .ok (file', n)) :
    ∃ cur after st, 0 ≤ s ∧ s < file.sentence_count ∧
      file.head.drop s.toNat = cur :: after ∧ 0 ≤ w ∧ w ≤ cur.word_count ∧
      modify_loop (loop_fuel (parse_input_words text)) (parse_input_words text)
        (start_state file s w cur after) cur.delimiter = some st ∧
      file' = { file with head := st.sentences, sentence_count := st.sentence_count } ∧
      n = st.current_sent := by
  unfold modify_sentence_multiword at h
  by_cases hs : s < 0 ∨ s ≥ file.sentence_count
  · rw [if_pos hs] at h; cases h
  · rw [if_neg hs] at h
    cases hd : file.head.drop s.toNat with
    | nil => rw [hd] at h; cases h
    | cons cur after =>
      rw [hd] at h
      simp only at h
      by_cases hw : w < 0 ∨ w > cur.word_count
      · rw [if_pos hw] at h; cases h
      · rw [if_neg hw] at h
        cases hl : modify_loop (loop_fuel (parse_input_words text)) (parse_input_words text)
            (start_state file s w cur after) cur.delimiter with
        | none => rw [hl] at h; cases h
        | some st =>
          rw [hl] at h
          simp only [Except.ok.injEq, Prod.mk.injEq] at h
          refine ⟨cur, after, st, ?_, ?_, rfl, ?_, ?_, hl, h.1.symm, h.2.symm⟩ <;> omega

theorem parse_input_words_eq (text : Str) (hlen : text.length < MAX_SENTENCE_LENGTH)
    (htok : (strtok_all is_space text).length ≤ 100) :
    parse_input_words text = strtok_all is_space text := by
  unfold parse_input_words
  have h1 : text.take (MAX_SENTENCE_LENGTH - 1) = text :=
    List.take_of_length_le (by unfold MAX_SENTENCE_LENGTH at *; omega)
  rw [h1, List.take_of_length_le htok]

theorem tail_pieces_plain (words : List Str)
    (h : ∀ t ∈ words, t.any is_sentence_delimiter = false) : tail_pieces words = [] := by
  induction words with
  | nil => rfl
  | cons w rest ih =>
    simp only [tail_pieces, h w (List.mem_cons_self _ _), Bool.false_eq_true, if_false]
    exact ih (fun t ht => h t (List.mem_cons_of_mem _ ht))

/-- C1 (as amended). After a successful `modify_sentence_multiword(s, w, text)`, with
`w` at most the number of words of sentence `s` and the text within the input
limits (under 2048 bytes, at most 100 tokens), the words of the document read
in sentence order are the previous words with the pieces of the text inserted
in order, where the pieces in front of the first delimiter character go to
position `(s, w)` and the remaining pieces go directly behind the last old word
of sentence `s`.  No piece is lost, and the insertion is contiguous at `(s, w)`
when the text has no delimiter character or `w` is the word count of the
sentence. -/
theorem insert_words_sequence (file file' : FileContent) (before after : List SentenceNode)
    (cur : SentenceNode) (w : Int) (text : Str) (n : Int)
    (hdoc : file.head = before ++ cur :: after)
    (hw : w ≤ cur.words.length)
    (hlen : text.length < MAX_SENTENCE_LENGTH)
    (htok : (strtok_all is_space text).length ≤ 100)
    (h : modify_sentence_multiword file before.length w text = .ok (file', n)) :
    all_words file'.head =
      all_words before ++ cur.words.take w.toNat ++ head_pieces (strtok_all is_space text) ++
        cur.words.drop w.toNat ++ tail_pieces (strtok_all is_space text) ++ all_words after ∧
    head_pieces (strtok_all is_space text) ++ tail_pieces (strtok_all is_space text) =
      ((strtok_all is_space text).map split_pieces).flatten ∧
    ((∀ t ∈ strtok_all is_space text, t.any is_sentence_delimiter = false) ∨
        w = cur.words.length →
      all_words file'.head =
        all_words before ++ cur.words.take w.toNat ++
          ((strtok_all is_space text).map split_pieces).flatten ++
          cur.words.drop w.toNat ++ all_words after) := by
  obtain ⟨cur', after', st, hs0, _, hdrop, hw0, _, hloop, hfile, _⟩ :=
    modify_ok_unfold file file' _ w text n h
  have hnat : ((before.length : Int)).toNat = before.length := Int.toNat_natCast _
  rw [hnat, hdoc, List.drop_left] at hdrop
  simp only [List.cons.injEq] at hdrop
  obtain ⟨rfl, rfl⟩ := hdrop
  rw [parse_input_words_eq text hlen htok] at hloop
  have hne := strtok_all_nonempty is_space text
  have hwords := modify_loop_words _ _ _ _ st hne hloop
  have hpieces := head_tail_pieces (strtok_all is_space text) hne
  have hk : w.toNat ≤ cur.words.length := by omega
  have hpre : (start_state file before.length w cur after).pre = cur.words.take w.toNat := by
    simp only [start_state]
    by_cases h0 : 0 < w.toNat
    · simp [h0, hk]
    · have : w.toNat = 0 := by omega
      simp [this]
  have hpost : (start_state file before.length w cur after).post = cur.words.drop w.toNat := by
    simp only [start_state]
    by_cases h0 : 0 < w.toNat
    · simp [h0, hk]
    · have : w.toNat = 0 := by omega
      simp [this]
  have hbefore : (start_state file before.length w cur after).before = before := by
    simp only [start_state, hnat, hdoc, List.take_left]
  have hafter : (start_state file before.length w cur after).after = after := rfl
  rw [hpre, hpost, hbefore, hafter] at hwords
  have hhead : file'.head = st.sentences := by rw [hfile]
  rw [hhead]
  refine ⟨hwords, hpieces, ?_⟩
  rintro (hplain | hend)
  · rw [hwords, ← hpieces, tail_pieces_plain _ hplain]
    simp
  · have hd : cur.words.drop w.toNat = [] := by
      apply List.drop_of_length_le
      omega
    rw [hwords, ← hpieces, hd]
    simp

/-- Witness of C1: `big. shiny` inserted at word 1 of `Hello world.` in the
document `Hello world.` / `Bye now!`. -/
theorem insert_words_sequence_witness :
    modify_sentence_multiword doc_hello_bye 0 1 "big. shiny".toList =
      .ok (modified_document doc_hello_bye
        (modify_sentence_multiword doc_hello_bye 0 1 "big. shiny".toList), 2) ∧
    all_words (modified_document doc_hello_bye
        (modify_sentence_multiword doc_hello_bye 0 1 "big. shiny".toList)).head =
      ["Hello".toList, "big".toList, "world".toList, "shiny".toList, "Bye".toList,
       "now".toList] :=
  ⟨rfl,
   (insert_words_sequence doc_hello_bye _ []
      [⟨["Bye".toList, "now".toList], 2, '!'⟩] ⟨["Hello".toList, "world".toList], 2, '.'⟩
      1 "big. shiny".toList 2 rfl (by decide) (by decide) (by decide) rfl).1.trans (by decide)⟩

/-- Counterexample to C1 as stated: inserting `big. shiny` at word 1 of
`Hello world.` gives the word sequence Hello big world shiny Bye now; the two
pieces are not contiguous at position (0, 1), where the claim puts
Hello big shiny world Bye now. -/
theorem insert_words_not_contiguous :
    modify_sentence_multiword doc_hello_bye 0 1 "big. shiny".toList =
      .ok (modified_document doc_hello_bye
        (modify_sentence_multiword doc_hello_bye 0 1 "big. shiny".toList), 2) ∧
    all_words doc_hello_bye.head =
      ["Hello".toList, "world".toList, "Bye".toList, "now".toList] ∧
    all_words (modified_document doc_hello_bye
        (modify_sentence_multiword doc_hello_bye 0 1 "big. shiny".toList)).head =
      ["Hello".toList, "big".toList, "world".toList, "shiny".toList, "Bye".toList,
       "now".toList] ∧
    all_words (modified_document doc_hello_bye
        (modify_sentence_multiword doc_hello_bye 0 1 "big. shiny".toList)).head ≠
      ["Hello".toList] ++ ["big".toList, "shiny".toList] ++
        ["world".toList, "Bye".toList, "now".toList] :=
  ⟨rfl, by decide, by decide, by decide⟩

theorem dropWhile_plain_append (b : Str) (d : Char) (a : Str)
    (hb : ∀ c ∈ b, is_sentence_delimiter c = false) (hd : is_sentence_delimiter d = true) :
    (b ++ d :: a).dropWhile (fun c => !is_sentence_delimiter c) = d :: a ∧
    (b ++ d :: a).takeWhile (fun c => !is_sentence_delimiter c) = b := by
  induction b with
  | nil => simp [List.dropWhile_cons, List.takeWhile_cons, hd]
  | cons c cs ih =>
    have hc := hb c (List.mem_cons_self _ _)
    obtain ⟨i1, i2⟩ := ih (fun x hx => hb x (List.mem_cons_of_mem _ hx))
    simp only [List.cons_append, List.dropWhile_cons, List.takeWhile_cons, hc, Bool.not_false,
      if_true]
    exact ⟨i1, by rw [i2]⟩

theorem dropWhile_plain (w : Str) (h : w.any is_sentence_delimiter = false) :
    w.dropWhile (fun c => !is_sentence_delimiter c) = [] := by
  by_contra hc
  have := (any_delimiter_iff w).2 hc
  rw [h] at this
  cases this

/-- Words without a delimiter character are linked one after the other behind
the cursor. -/
theorem modify_loop_plain (fuel : Nat) (ts : List Str) (st : ModifyState) (od : Char)
    (hts : ∀ t ∈ ts, t.any is_sentence_delimiter = false) (hf : ts.length ≤ fuel) :
    modify_loop fuel ts st od =
      some { st with pre := st.pre ++ ts, word_count := st.word_count + ts.length } := by
  induction ts generalizing fuel st with
  | nil =>
    cases fuel <;> simp [modify_loop]
  | cons t rest ih =>
    cases fuel with
    | zero => simp at hf
    | succ fuel =>
      have ht := dropWhile_plain t (hts t (List.mem_cons_self _ _))
      simp only [modify_loop, process_word_plain st od t _ ht]
      rw [ih fuel (insert_word st t) (fun x hx => hts x (List.mem_cons_of_mem _ hx))
        (by simpa using hf)]
      simp only [insert_word, List.append_assoc, List.singleton_append, List.length_cons,
        Nat.cast_add, Nat.cast_one, Option.some.injEq]
      congr 1
      omega

theorem length_le_loop_fuel (ts : List Str) : ts.length ≤ loop_fuel ts := by
  induction ts with
  | nil => simp
  | cons t rest ih => rw [loop_fuel_cons, List.length_cons]; omega

/-- C2 (as amended). A token `b d` that ends in a delimiter `d`, inserted at word
`w` in front of a non-empty tail of a sentence without terminator (with `w > 0`
or `b` non-empty, so that the cursor stands on a word), ends the sentence
behind the inserted word with `d`; the tail migrates to a new sentence directly
behind it, and the following delimiter-free tokens of the same text are
appended at the end of that new sentence, behind the displaced words.  The
call returns the index of the new sentence. -/
theorem tail_migrates_tokens_appended (file : FileContent) (before after : List SentenceNode)
    (cur : SentenceNode) (w : Int) (text b : Str) (d : Char) (ts : List Str)
    (hdoc : file.head = before ++ cur :: after)
    (hsc : (before.length : Int) < file.sentence_count)
    (hterm : cur.delimiter = NUL)
    (hcount : cur.word_count = cur.words.length)
    (hw0 : 0 ≤ w) (hw : w < cur.words.length)
    (htoks : strtok_all is_space text = (b ++ [d]) :: ts)
    (hb : ∀ c ∈ b, is_sentence_delimiter c = false) (hd : is_sentence_delimiter d = true)
    (hcursor : 0 < w ∨ b ≠ [])
    (hts : ∀ t ∈ ts, t.any is_sentence_delimiter = false)
    (hlen : text.length < MAX_SENTENCE_LENGTH) (htok : ts.length < 100) :
    modify_sentence_multiword file before.length w text =
      .ok ({ file with
              head := before ++
                [⟨cur.words.take w.toNat ++ (if b.isEmpty then [] else [b]),
                  w + (if b.isEmpty then 0 else 1), d⟩,
                 ⟨cur.words.drop w.toNat ++ ts,
                  ((cur.words.drop w.toNat).length : Int) + ts.length, NUL⟩] ++ after,
              sentence_count := file.sentence_count + 1 },
           before.length + 1) := by
  have hnat : ((before.length : Int)).toNat = before.length := Int.toNat_natCast _
  have hwords : parse_input_words text = (b ++ [d]) :: ts := by
    rw [parse_input_words_eq text hlen (by rw [htoks, List.length_cons]; omega), htoks]
  have hk : w.toNat < cur.words.length := by omega
  have hwk : (w.toNat : Int) = w := Int.toNat_of_nonneg hw0
  have hpost_ne : cur.words.drop w.toNat ≠ [] := by
    intro hnil
    have := congrArg List.length hnil
    simp only [List.length_drop, List.length_nil] at this
    omega
  -- the loop state at entry
  have hst0 : start_state file before.length w cur after =
      { before := before,
        pre := if 0 < w.toNat then cur.words.take w.toNat else [],
        post := if 0 < w.toNat then cur.words.drop w.toNat else cur.words,
        word_count := cur.word_count, delimiter := cur.delimiter, after := after,
        sentence_count := file.sentence_count, current_sent := before.length } := by
    simp only [start_state, hnat, hdoc, List.take_left]
    by_cases h0 : 0 < w.toNat
    · simp [h0, le_of_lt hk]
    · simp [h0]
  have hpre_take : (if 0 < w.toNat then cur.words.take w.toNat else []) =
      cur.words.take w.toNat := by
    by_cases h0 : 0 < w.toNat
    · simp [h0]
    · have : w.toNat = 0 := by omega
      simp [this]
  have hpost_drop : (if 0 < w.toNat then cur.words.drop w.toNat else cur.words) =
      cur.words.drop w.toNat := by
    by_cases h0 : 0 < w.toNat
    · simp [h0]
    · have : w.toNat = 0 := by omega
      simp [this]
  rw [hpre_take, hpost_drop] at hst0
  obtain ⟨hdw, htw⟩ := dropWhile_plain_append b d [] hb hd
  -- the pass on the first word
  have hstep : process_word (start_state file before.length w cur after) cur.delimiter
      (b ++ [d]) (!ts.isEmpty) =
      ({ before := before ++ [⟨cur.words.take w.toNat ++ (if b.isEmpty then [] else [b]),
                              w + (if b.isEmpty then 0 else 1), d⟩],
         pre := cur.words.drop w.toNat, post := [],
         word_count := ((cur.words.drop w.toNat).length : Int), delimiter := NUL,
         after := after, sentence_count := file.sentence_count + 1,
         current_sent := before.length + 1 }, none) := by
    rw [process_word_cut _ _ _ _ d [] hdw, htw, hst0, hterm]
    simp only [List.isEmpty_nil, if_true, Prod.mk.injEq, and_true]
    have hpre_ne : ¬ ((cur.words.take w.toNat ++ (if b.isEmpty then [] else [b])).isEmpty
        = true) := by
      rcases hcursor with h0 | hbne
      · have : 0 < w.toNat := by omega
        cases hcw : cur.words with
        | nil => rw [hcw] at hk; simp at hk
        | cons x xs =>
          obtain ⟨k, hk'⟩ : ∃ k, w.toNat = k + 1 := ⟨w.toNat - 1, by omega⟩
          simp [hk']
      · have : b.isEmpty = false := by
          cases b with
          | nil => exact absurd rfl hbne
          | cons _ _ => rfl
        simp [this]
    by_cases hbe : b.isEmpty = true
    · simp only [hbe, if_true, List.append_nil] at hpre_ne ⊢
      unfold end_sentence
      have hc : (!(cur.words.take w.toNat).isEmpty && !(cur.words.drop w.toNat).isEmpty)
          = true := by
        have h2 : (cur.words.drop w.toNat).isEmpty = false := by
          cases hdr : cur.words.drop w.toNat with
          | nil => exact absurd hdr hpost_ne
          | cons _ _ => rfl
        simp only [Bool.not_eq_true] at hpre_ne
        simp [hpre_ne, h2]
      simp only [hc, if_true, ne_eq, not_true_eq_false, if_false, false_and, add_zero]
      simp only [hcount, List.length_drop]
      have key : ((cur.words.length : Int) - ((cur.words.length - w.toNat : Nat) : Int)) = w := by
        omega
      rw [key]
    · simp only [hbe, Bool.false_eq_true, if_false] at hpre_ne ⊢
      unfold end_sentence
      have hc : (!((insert_word
            { before := before, pre := cur.words.take w.toNat, post := cur.words.drop w.toNat,
              word_count := cur.word_count, delimiter := NUL, after := after,
              sentence_count := file.sentence_count, current_sent := before.length } b).pre).isEmpty
          && !((insert_word
            { before := before, pre := cur.words.take w.toNat, post := cur.words.drop w.toNat,
              word_count := cur.word_count, delimiter := NUL, after := after,
              sentence_count := file.sentence_count, current_sent := before.length } b).post).isEmpty)
          = true := by
        have h2 : (cur.words.drop w.toNat).isEmpty = false := by
          cases hdr : cur.words.drop w.toNat with
          | nil => exact absurd hdr hpost_ne
          | cons _ _ => rfl
        simp [insert_word, h2]
      simp only [hc, if_true, ne_eq, not_true_eq_false, if_false, false_and]
      simp only [insert_word, hcount, List.length_drop]
      have key : ((cur.words.length : Int) + 1 - ((cur.words.length - w.toNat : Nat) : Int))
          = w + 1 := by
        omega
      rw [key]
  -- the remaining words
  have hfuel : loop_fuel ((b ++ [d]) :: ts) = (b.length + 1 + loop_fuel ts) + 1 := by
    rw [loop_fuel_cons]; simp; omega
  have hrest := modify_loop_plain (b.length + 1 + loop_fuel ts) ts
    { before := before ++ [⟨cur.words.take w.toNat ++ (if b.isEmpty then [] else [b]),
                            w + (if b.isEmpty then 0 else 1), d⟩],
      pre := cur.words.drop w.toNat, post := [],
      word_count := ((cur.words.drop w.toNat).length : Int), delimiter := NUL,
      after := after, sentence_count := file.sentence_count + 1,
      current_sent := before.length + 1 } cur.delimiter hts
    (by have := length_le_loop_fuel ts; omega)
  have hdrop : file.head.drop before.length = cur :: after := by
    rw [hdoc, List.drop_left]
  unfold modify_sentence_multiword
  rw [if_neg (by omega), hnat, hdrop]
  simp only
  rw [if_neg (by omega), hwords, hfuel]
  simp only [modify_loop]
  rw [hstep]
  simp only
  rw [hrest]
  simp [ModifyState.sentences, ModifyState.active]

/-- Witness of C2 (scenario S3 as the code runs it): on the one-sentence
document `one two three`, `big. shiny` at word 1 gives the sentences `one big.`
and `two three shiny`, and that is what `save_file_content` writes. -/
theorem tail_migrates_tokens_appended_witness :
    strtok_all is_space "big. shiny".toList = ("big".toList ++ ['.']) :: ["shiny".toList] ∧
    modify_sentence_multiword doc_one_two_three 0 1 "big. shiny".toList =
      .ok (⟨"doc.txt".toList,
            [⟨["one".toList, "big".toList], 2, '.'⟩,
             ⟨["two".toList, "three".toList, "shiny".toList], 3, NUL⟩], 2⟩, 1) ∧
    save_buffer [⟨["one".toList, "big".toList], 2, '.'⟩,
                 ⟨["two".toList, "three".toList, "shiny".toList], 3, NUL⟩] [] =
      "one big.\ntwo three shiny".toList :=
  ⟨by decide,
   (tail_migrates_tokens_appended doc_one_two_three [] []
      ⟨["one".toList, "two".toList, "three".toList], 3, NUL⟩ 1 "big. shiny".toList
      "big".toList '.' ["shiny".toList] rfl (by decide) rfl rfl (by decide) (by decide)
      (by decide) (by decide) (by decide) (Or.inl (by decide)) (by decide) (by decide)
      (by decide)).trans rfl,
   by decide⟩

/-- Counterexample to C2 as stated (scenario S3): the document saved after
`big. shiny` was inserted at word 1 of `one two three` is `one big.` /
`two three shiny`, not `one big.` / `shiny two three`. -/
theorem s3_saved_document :
    save_buffer (modified_document doc_one_two_three
        (modify_sentence_multiword doc_one_two_three 0 1 "big. shiny".toList)).head [] =
      "one big.\ntwo three shiny".toList ∧
    (save_file_content io_ok notes_state.disk (modified_document doc_one_two_three
        (modify_sentence_multiword doc_one_two_three 0 1 "big. shiny".toList))).2.data
        "doc.txt".toList = some "one big.\ntwo three shiny".toList ∧
    save_buffer (modified_document doc_one_two_three
        (modify_sentence_multiword doc_one_two_three 0 1 "big. shiny".toList)).head [] ≠
      "one big.\nshiny two three".toList := by
  decide

/-! ## The `WRITE` session of the storage node -/

theorem save_metadata_files (env : IOEnv) (disk : Disk) (m : FileMetadata) :
    (save_metadata env disk m).2.data = disk.data ∧
    (save_metadata env disk m).2.backup = disk.backup := by
  unfold save_metadata
  split_ifs <;> exact ⟨rfl, rfl⟩

theorem ss_read_file_files (env : IOEnv) (disk : Disk) (filename : Str) (n : Nat) :
    (ss_read_file env disk filename n).2.2.data = disk.data ∧
    (ss_read_file env disk filename n).2.2.backup = disk.backup := by
  unfold ss_read_file
  cases disk.data filename with
  | none => exact ⟨rfl, rfl⟩
  | some bytes =>
    simp only
    cases load_metadata disk filename with
    | none => exact ⟨rfl, rfl⟩
    | some m => exact save_metadata_files env disk _

/-- Loading a document leaves every data file and every snapshot as it is. -/
theorem load_file_content_files (env : IOEnv) (disk : Disk) (filename : Str) :
    (load_file_content env disk filename).2.data = disk.data ∧
    (load_file_content env disk filename).2.backup = disk.backup := by
  unfold load_file_content
  simp only
  split_ifs <;> exact ss_read_file_files env disk filename _

theorem write_update_fields (sess : WriteSession) (line : Str) :
    (write_update sess line).1.filename_copy = sess.filename_copy ∧
    (write_update sess line).1.sentence_num = sess.sentence_num ∧
    (write_update sess line).1.username = sess.username := by
  unfold write_update
  cases split_word_update (line.take (BUFFER_SIZE - 1)) with
  | none => exact ⟨rfl, rfl, rfl⟩
  | some p =>
    obtain ⟨a, b⟩ := p
    simp only
    cases modify_sentence_multiword sess.file_buffer sess.current_sentence (atoi a) b with
    | error c => exact ⟨rfl, rfl, rfl⟩
    | ok r =>
      obtain ⟨f1, n1⟩ := r
      simp only
      split_ifs <;> exact ⟨rfl, rfl, rfl⟩

/-- Word-update frames only touch the in-memory document of the session. -/
theorem write_loop_updates (env : IOEnv) (st : SSState) (sess : WriteSession)
    (replies : List Str) (frames : List Str)
    (hupd : ∀ b ∈ frames, frame_line b ≠ "ETIRW".toList) :
    ∃ sess' replies',
      sess'.filename_copy = sess.filename_copy ∧ sess'.sentence_num = sess.sentence_num ∧
      sess'.username = sess.username ∧
      write_loop env st sess replies (frames.map some) = .active st sess' replies' ∧
      write_loop env st sess replies (frames.map some ++ [none]) =
        .disconnected
          { st with locks := (global_unlock_sentence st.locks sess.filename_copy
                                sess.sentence_num sess.username).2 } replies' := by
  induction frames generalizing sess replies with
  | nil => exact ⟨sess, replies, rfl, rfl, rfl, rfl, rfl⟩
  | cons b rest ih =>
    have hb := hupd b (List.mem_cons_self _ _)
    obtain ⟨u1, u2, u3⟩ := write_update_fields sess (frame_line b)
    obtain ⟨sess', replies', h1, h2, h3, h4, h5⟩ :=
      ih (write_update sess (frame_line b)).1 (replies ++ (write_update sess (frame_line b)).2)
        (fun x hx => hupd x (List.mem_cons_of_mem _ hx))
    refine ⟨sess', replies', h1.trans u1, h2.trans u2, h3.trans u3, ?_, ?_⟩
    · simp only [List.map_cons, write_loop, hb, if_false]
      exact h4
    · simp only [List.map_cons, List.cons_append, write_loop, hb, if_false]
      rw [u1, u2, u3] at h5
      exact h5

/-- The outcomes of `write_open`: a refusal that leaves the files alone, or a
session whose user holds the lock on a table with distinct keys. -/
theorem write_open_cases (env : IOEnv) (st : SSState) (f n u : Str)
    (hreach : LockReachable st.locks) :
    (∃ st1 r, write_open env st f n u = .rejected st1 r ∧
      st1.disk.data = st.disk.data ∧ st1.disk.backup = st.disk.backup) ∨
    (∃ st1 sess r, write_open env st f n u = .active st1 sess r ∧
      st1.disk.data = st.disk.data ∧ st1.disk.backup = st.disk.backup ∧
      sess.filename_copy = f.take (MAX_FILENAME_LENGTH - 1) ∧
      sess.sentence_num = atoi n ∧
      sess.username = u.take (MAX_USERNAME_LENGTH - 1) ∧
      (lock_keys st1.locks).Nodup ∧
      Holds st1.locks sess.filename_copy sess.sentence_num sess.username) := by
  have hf : (f.take (MAX_FILENAME_LENGTH - 1)).length < MAX_FILENAME_LENGTH := by
    simp only [List.length_take, MAX_FILENAME_LENGTH]; omega
  have hu : (u.take (MAX_USERNAME_LENGTH - 1)).length < MAX_USERNAME_LENGTH := by
    simp only [List.length_take, MAX_USERNAME_LENGTH]; omega
  have hnd := lock_reachable_nodup _ hreach
  obtain ⟨t1, _, t3, _⟩ := try_lock_spec st.locks hnd (f.take (MAX_FILENAME_LENGTH - 1))
    (atoi n) (u.take (MAX_USERNAME_LENGTH - 1)) hf hu
  have hnd' := lock_reachable_nodup _ (LockReachable.try_lock st.locks
    (f.take (MAX_FILENAME_LENGTH - 1)) (atoi n) (u.take (MAX_USERNAME_LENGTH - 1)) hreach hf hu)
  obtain ⟨l1, l2⟩ := load_file_content_files env st.disk (f.take (MAX_FILENAME_LENGTH - 1))
  unfold write_open
  simp only
  by_cases hneg : atoi n < 0
  · rw [if_pos hneg]
    exact Or.inl ⟨_, _, rfl, rfl, rfl⟩
  · rw [if_neg hneg]
    by_cases hl : (global_try_lock_sentence st.locks (f.take (MAX_FILENAME_LENGTH - 1)) (atoi n)
        (u.take (MAX_USERNAME_LENGTH - 1))).1 = 0
    · rw [if_pos hl]
      exact Or.inl ⟨_, _, rfl, rfl, rfl⟩
    · rw [if_neg hl]
      have hone := t1.resolve_right hl
      cases hld : (load_file_content env st.disk (f.take (MAX_FILENAME_LENGTH - 1))).1 with
      | none =>
        simp only
        exact Or.inl ⟨_, _, rfl, l1, l2⟩
      | some fb =>
        simp only
        split
        · exact Or.inl ⟨_, _, rfl, l1, l2⟩
        · exact Or.inr ⟨_, _, _, rfl, l1, l2, rfl, rfl, rfl, hnd', t3 hone⟩

/-- C10. A `WRITE` session is atomic.  For every sequence of word-update frames
(anything but `ETIRW`, accepted or rejected), the data files and the snapshots
are, after these frames, what they were before the request; the same holds
when the connection ends behind these frames, and then the sentence lock taken
at the opening is free again.  While the session is open its user holds the
lock. -/
theorem write_session_atomic (env : IOEnv) (st : SSState) (f n u : Str) (frames : List Str)
    (hreach : LockReachable st.locks)
    (hupd : ∀ b ∈ frames, frame_line b ≠ "ETIRW".toList) :
    (handle_write env st f n u (frames.map some)).state.disk.data = st.disk.data ∧
    (handle_write env st f n u (frames.map some)).state.disk.backup = st.disk.backup ∧
    (handle_write env st f n u (frames.map some ++ [none])).state.disk.data = st.disk.data ∧
    (handle_write env st f n u (frames.map some ++ [none])).state.disk.backup = st.disk.backup ∧
    (∀ st' r, handle_write env st f n u (frames.map some ++ [none]) = .disconnected st' r →
      ∀ v, ¬ Holds st'.locks (f.take (MAX_FILENAME_LENGTH - 1)) (atoi n) v) ∧
    (∀ st' sess r, handle_write env st f n u (frames.map some) = .active st' sess r →
      Holds st'.locks (f.take (MAX_FILENAME_LENGTH - 1)) (atoi n)
        (u.take (MAX_USERNAME_LENGTH - 1))) := by
  rcases write_open_cases env st f n u hreach with
    ⟨st1, r, ho, hd, hb⟩ | ⟨st1, sess, r, ho, hd, hb, hf, hn, hu, hnd, hh⟩
  · have h1 : ∀ fr, handle_write env st f n u fr = .rejected st1 r := by
      intro fr; unfold handle_write; rw [ho]
    rw [h1, h1]
    refine ⟨hd, hb, hd, hb, ?_, ?_⟩
    · intro st' r' h; cases h
    · intro st' sess r' h; cases h
  · have h1 : ∀ fr, handle_write env st f n u fr = write_loop env st1 sess r fr := by
      intro fr; unfold handle_write; rw [ho]
    obtain ⟨sess', replies', _, _, _, ha, hdis⟩ := write_loop_updates env st1 sess r frames hupd
    rw [h1, h1, ha, hdis]
    refine ⟨hd, hb, hd, hb, ?_, ?_⟩
    · intro st' r' h
      simp only [WriteOutcome.disconnected.injEq] at h
      obtain ⟨hst, _⟩ := h
      subst hst
      obtain ⟨u1, u2, _⟩ := unlock_spec st1.locks hnd sess.filename_copy sess.sentence_num
        sess.username
      have := u2 (u1.2 hh)
      simp only [hf, hn] at this ⊢
      exact this
    · intro st' sess2 r' h
      simp only [WriteOutcome.active.injEq] at h
      obtain ⟨hst, _, _⟩ := h
      subst hst
      rw [hf, hn, hu] at hh
      exact hh

/-- Witness of C10: alice opens `WRITE|notes.txt|0|alice` on `Hello world.`, sends
`1|big` and the connection ends: the file still reads `Hello world.`, no
snapshot was made and nobody holds the lock.  With `ETIRW` in place of the
disconnect the file reads `Hello big world.`. -/
theorem write_session_atomic_witness :
    LockReachable notes_state.locks ∧
    (∀ b ∈ ["1|big\n".toList], frame_line b ≠ "ETIRW".toList) ∧
    (handle_write io_ok notes_state "notes.txt".toList "0".toList "alice".toList
      (["1|big\n".toList].map some ++ [none])).state.disk.data = notes_state.disk.data ∧
    (handle_write io_ok notes_state "notes.txt".toList "0".toList "alice".toList
      (["1|big\n".toList].map some ++ [none])).replies =
      ["SUCCESS|Sentence 0 locked for 'alice'. Send word updates (word_index|content), then ETIRW\n".toList,
       "SUCCESS|Word updated\n".toList] ∧
    (handle_write io_ok notes_state "notes.txt".toList "0".toList "alice".toList
      (["1|big\n".toList].map some ++ [none])).state.locks =
      [⟨"notes.txt".toList, 0, false, []⟩] ∧
    (handle_write io_ok notes_state "notes.txt".toList "0".toList "alice".toList
      [some "1|big\n".toList, some "ETIRW\n".toList]).state.disk.data "notes.txt".toList =
      some "Hello big world.".toList :=
  ⟨LockReachable.empty, by decide,
    (write_session_atomic io_ok notes_state "notes.txt".toList "0".toList "alice".toList
      ["1|big\n".toList] LockReachable.empty (by decide)).2.2.1,
    by decide, by decide, by decide⟩

/-! ## The undo snapshot -/

theorem ss_backup_file_data (env : IOEnv) (disk : Disk) (f : Str) :
    (ss_backup_file env disk f).2.data = disk.data := by
  unfold ss_backup_file
  split
  · rfl
  · split <;> rfl

theorem update_file_stats_files (env : IOEnv) (disk : Disk) (m : FileMetadata) :
    (update_file_stats env disk m).2.2.data = disk.data ∧
    (update_file_stats env disk m).2.2.backup = disk.backup := by
  unfold update_file_stats
  have h := ss_read_file_files env disk m.filename LARGE_BUFFER_SIZE
  simp only
  split <;> exact h

/-- A successful `ss_write_file` leaves the new content in the data file and the
snapshot that `ss_backup_file` took. -/
theorem ss_write_file_ok (env : IOEnv) (disk : Disk) (f c1 : Str)
    (hok : (ss_write_file env disk f c1).1 = ERR_SUCCESS) :
    (ss_write_file env disk f c1).2.data f = some c1 ∧
    (ss_write_file env disk f c1).2.backup = (ss_backup_file env disk f).2.backup := by
  have hne : ERR_FILE_WRITE_FAILED ≠ ERR_SUCCESS := by decide
  unfold ss_write_file at hok ⊢
  cases hfl : env.fwrite_limit with
  | none =>
    simp only [hfl] at hok ⊢
    split_ifs at hok ⊢ with h1 h2
    · exact absurd hok hne
    · exact absurd rfl h2
    · split
      · simp [set_entry]
      · rw [(save_metadata_files _ _ _).1, (save_metadata_files _ _ _).2,
          (update_file_stats_files _ _ _).1, (update_file_stats_files _ _ _).2]
        simp [set_entry]
  | some k =>
    simp only [hfl] at hok ⊢
    split_ifs at hok ⊢ with h1 h2
    · exact absurd hok hne
    · exact absurd hok hne
    · have h3 : min k c1.length = c1.length := by
        by_contra h
        exact h2 h
      split
      · simp [set_entry, h3]
      · rw [(save_metadata_files _ _ _).1, (save_metadata_files _ _ _).2,
          (update_file_stats_files _ _ _).1, (update_file_stats_files _ _ _).2]
        simp [set_entry, h3]

/-- The `ETIRW` step keeps what `save_file_content` left in the data files and
the snapshots: the metadata refresh behind it only rewrites metadata records. -/
theorem write_commit_files (env : IOEnv) (st : SSState) (sess : WriteSession) :
    (write_commit env st sess).1.disk.data =
      (save_file_content env st.disk sess.file_buffer).2.data ∧
    (write_commit env st sess).1.disk.backup =
      (save_file_content env st.disk sess.file_buffer).2.backup := by
  unfold write_commit
  simp only
  split_ifs
  · split
    · rw [(save_metadata_files _ _ _).1, (save_metadata_files _ _ _).2,
        (update_file_stats_files _ _ _).1, (update_file_stats_files _ _ _).2]
      exact ⟨rfl, rfl⟩
    · exact ⟨rfl, rfl⟩
  · exact ⟨rfl, rfl⟩

/-- C12 (as amended). The snapshot is kept by `UNDO`: after an `UNDO` that was
answered `SUCCESS` and whose `cp` restored the snapshot, a second `UNDO` with no
write in between is answered `SUCCESS` again, and it leaves the data files and
the snapshots as the first one left them.  `ERROR|No backup available` is the
answer of an `UNDO` exactly when the file has no snapshot. -/
theorem second_undo_succeeds_again (env1 env2 : IOEnv) (disk : Disk) (f : Str)
    (h1 : (ss_handle_undo env1 disk f).2 = "SUCCESS|Undo successful\n".toList)
    (hcp : env1.cp_ok = true) :
    (ss_handle_undo env2 (ss_handle_undo env1 disk f).1 f).2 =
      "SUCCESS|Undo successful\n".toList ∧
    (ss_handle_undo env2 (ss_handle_undo env1 disk f).1 f).1.data =
      (ss_handle_undo env1 disk f).1.data ∧
    (ss_handle_undo env2 (ss_handle_undo env1 disk f).1 f).1.backup =
      (ss_handle_undo env1 disk f).1.backup ∧
    (∀ (env : IOEnv) (d : Disk) (g : Str),
      (ss_handle_undo env d g).2 = "ERROR|No backup available\n".toList ↔
        d.backup g = none) := by
  have hiff : ∀ (env : IOEnv) (d : Disk) (g : Str),
      (ss_handle_undo env d g).2 = "ERROR|No backup available\n".toList ↔
        d.backup g = none := by
    intro env d g
    unfold ss_handle_undo
    cases hg : d.backup g with
    | none => simp
    | some b =>
      simp only [false_iff, reduceCtorEq]
      decide
  cases hb : disk.backup f with
  | none =>
    unfold ss_handle_undo at h1
    rw [hb] at h1
    simp only at h1
    exact absurd h1 (by decide)
  | some b =>
    have e1 : ss_handle_undo env1 disk f =
        ({ disk with data := set_entry disk.data f b }, "SUCCESS|Undo successful\n".toList) := by
      unfold ss_handle_undo
      rw [hb]
      simp [hcp]
    rw [e1]
    unfold ss_handle_undo
    simp only [hb]
    refine ⟨trivial, ?_, ?_, hiff⟩
    · split_ifs
      · funext x
        simp only [set_entry]
        split_ifs <;> rfl
      · rfl
    · split_ifs <;> rfl

/-- Witness of C12 (as amended): the two `UNDO`s behind the write of
`Hello there.` over `Hello world.`. -/
theorem second_undo_succeeds_again_witness :
    undo_run_2.2 = "SUCCESS|Undo successful\n".toList ∧ io_ok.cp_ok = true ∧
    undo_run_3.2 = "SUCCESS|Undo successful\n".toList ∧
    undo_run_3.1.data = undo_run_2.1.data ∧ undo_run_3.1.backup = undo_run_2.1.backup :=
  ⟨by decide, by decide,
    (second_undo_succeeds_again io_ok io_ok undo_run_1.2 "notes.txt".toList (by decide)
      (by decide)).1,
    (second_undo_succeeds_again io_ok io_ok undo_run_1.2 "notes.txt".toList (by decide)
      (by decide)).2.1,
    (second_undo_succeeds_again io_ok io_ok undo_run_1.2 "notes.txt".toList (by decide)
      (by decide)).2.2.1⟩

/-- C12 as stated fails: on `notes.txt` (content `Hello world.`), after a write
of `Hello there.`, the first `UNDO` is answered `SUCCESS` and so is the second
one, with no write in between; it is not answered `ERROR|No backup available`. -/
theorem second_undo_not_refused :
    undo_run_2.2 = "SUCCESS|Undo successful\n".toList ∧
    undo_run_3.2 = "SUCCESS|Undo successful\n".toList ∧
    undo_run_3.2 ≠ "ERROR|No backup available\n".toList ∧
    undo_run_3.1.data "notes.txt".toList = some "Hello world.".toList := by
  decide

/-! ## Terminators of a document -/

/-- An invariant of the loop state that insertion of a word and the end of a
sentence at a delimiter character keep is kept by the whole loop. -/
theorem modify_loop_invariant (I : ModifyState → Prop) (od : Char)
    (hins : ∀ st w, I st → I (insert_word st w))
    (hend : ∀ st d more, is_sentence_delimiter d = true → I st → I (end_sentence st d od more))
    (fuel : Nat) (words : List Str) (st st' : ModifyState) (hI : I st)
    (h : modify_loop fuel words st od = some st') : I st' := by
  induction fuel generalizing words st with
  | zero =>
    cases words with
    | nil =>
      simp only [modify_loop, Option.some.injEq] at h
      exact h ▸ hI
    | cons w rest => simp [modify_loop] at h
  | succ fuel ih =>
    cases words with
    | nil =>
      simp only [modify_loop, Option.some.injEq] at h
      exact h ▸ hI
    | cons w rest =>
      cases hdw : w.dropWhile (fun c => !is_sentence_delimiter c) with
      | nil =>
        simp only [modify_loop, process_word_plain st od w _ hdw] at h
        exact ih rest _ (hins st w hI) h
      | cons d a =>
        have hd : is_sentence_delimiter d = true := by
          have := dropWhile_head_false _ w d a hdw
          simpa using this
        have hI1 : I (if (w.takeWhile (fun c => !is_sentence_delimiter c)).isEmpty then st
            else insert_word st (w.takeWhile (fun c => !is_sentence_delimiter c))) := by
          split_ifs
          · exact hI
          · exact hins st _ hI
        simp only [modify_loop, process_word_cut st od w _ d a hdw] at h
        by_cases ha : a.isEmpty = true
        · simp only [ha, if_true] at h
          exact ih rest _ (hend _ d _ hd hI1) h
        · rw [if_neg ha] at h
          simp only at h
          exact ih (a :: rest) _ (hend _ d _ hd hI1) h

theorem valid_of_delimiter (c : Char) (h : is_sentence_delimiter c = true) :
    valid_terminator c = true := by
  simp [valid_terminator, h]

theorem delimiter_of_valid (c : Char) (h : valid_terminator c = true) (hn : c ≠ NUL) :
    is_sentence_delimiter c = true := by
  simp only [valid_terminator, Bool.or_eq_true, beq_iff_eq] at h
  rcases h with h | h
  · exact h
  · exact absurd h hn

theorem valid_NUL : valid_terminator NUL = true := by decide

theorem terminator_state_insert (P : Char → Bool) (A : List SentenceNode) (st : ModifyState)
    (w : Str) (h : TerminatorState P A st) : TerminatorState P A (insert_word st w) := by
  simpa [TerminatorState, insert_word] using h

theorem terminator_state_end (P : Char → Bool)
    (hP : ∀ c, is_sentence_delimiter c = true → P c = true) (A : List SentenceNode)
    (od : Char) (hod : valid_terminator od = true) (st : ModifyState) (d : Char) (more : Bool)
    (hd : is_sentence_delimiter d = true) (h : TerminatorState P A st) :
    TerminatorState P A (end_sentence st d od more) := by
  obtain ⟨h1, h2, h3, h4⟩ := h
  unfold end_sentence
  by_cases hx : (!st.pre.isEmpty && !st.post.isEmpty) = true
  · rw [if_pos hx]
    simp only
    by_cases hod0 : od = NUL
    · have hc : ¬ ((if od ≠ NUL then od else NUL) ≠ NUL ∧ more = true) := by simp [hod0]
      rw [if_neg hc]
      refine ⟨?_, ?_, ?_, h4⟩
      · intro s hs
        rcases List.mem_append.1 hs with hs | hs
        · exact h1 s hs
        · simp only [List.mem_singleton] at hs
          subst hs
          exact hP d hd
      · simp [hod0, valid_NUL]
      · simp [h3]
    · have hmd : (if od ≠ NUL then od else NUL) = od := by simp [hod0]
      rw [hmd]
      by_cases hm : more = true
      · rw [if_pos ⟨hod0, hm⟩]
        refine ⟨?_, valid_NUL, ?_, h4⟩
        · intro s hs
          rcases List.mem_append.1 hs with hs | hs
          · exact h1 s hs
          · simp only [List.mem_cons, List.mem_singleton, List.not_mem_nil, or_false] at hs
            rcases hs with hs | hs
            · subst hs; exact hP d hd
            · subst hs; exact hP od (delimiter_of_valid od hod hod0)
        · simp only [h3, List.length_append, List.length_cons, List.length_nil]
          push_cast
          ring
      · rw [if_neg (fun hc => hm hc.2)]
        refine ⟨?_, hod, ?_, h4⟩
        · intro s hs
          rcases List.mem_append.1 hs with hs | hs
          · exact h1 s hs
          · simp only [List.mem_singleton] at hs
            subst hs
            exact hP d hd
        · simp [h3]
  · rw [if_neg hx]
    refine ⟨?_, valid_NUL, ?_, h4⟩
    · intro s hs
      rcases List.mem_append.1 hs with hs | hs
      · exact h1 s hs
      · simp only [List.mem_singleton] at hs
        subst hs
        exact hP d hd
    · simp [h3]

theorem terminators_ok_cons (s : SentenceNode) (rest : List SentenceNode)
    (hs : is_sentence_delimiter s.delimiter = true) (hr : terminators_ok rest = true) :
    terminators_ok (s :: rest) = true := by
  cases rest with
  | nil => simp [terminators_ok, valid_of_delimiter _ hs]
  | cons x xs => simp [terminators_ok, hs] at hr ⊢; exact hr

theorem terminators_ok_valid (l : List SentenceNode) (h : terminators_ok l = true) :
    ∀ s ∈ l, valid_terminator s.delimiter = true := by
  induction l with
  | nil => intro s hs; cases hs
  | cons x xs ih =>
    cases xs with
    | nil =>
      intro s hs
      simp only [List.mem_singleton] at hs
      subst hs
      simpa [terminators_ok] using h
    | cons y ys =>
      simp only [terminators_ok, Bool.and_eq_true] at h
      intro s hs
      rcases List.mem_cons.1 hs with rfl | hs
      · exact valid_of_delimiter _ h.1
      · exact ih (by simpa [terminators_ok] using h.2) s hs

/-- What the invariant says of a document cut at one sentence. -/
theorem terminators_ok_split (b : List SentenceNode) (c : SentenceNode) (a : List SentenceNode)
    (h : terminators_ok (b ++ c :: a) = true) :
    (∀ s ∈ b, is_sentence_delimiter s.delimiter = true) ∧ valid_terminator c.delimiter = true ∧
    terminators_ok a = true := by
  induction b with
  | nil =>
    cases a with
    | nil => exact ⟨by simp, by simpa [terminators_ok] using h, rfl⟩
    | cons y ys =>
      simp only [List.nil_append, terminators_ok, Bool.and_eq_true] at h
      exact ⟨by simp, valid_of_delimiter _ h.1, by simpa [terminators_ok] using h.2⟩
  | cons x xs ih =>
    have hne : xs ++ c :: a ≠ [] := by simp
    cases hl : xs ++ c :: a with
    | nil => exact absurd hl hne
    | cons y ys =>
      rw [List.cons_append, hl] at h
      simp only [terminators_ok, Bool.and_eq_true] at h
      rw [hl] at ih
      obtain ⟨i1, i2, i3⟩ := ih (by simpa [terminators_ok] using h.2)
      refine ⟨?_, i2, i3⟩
      intro s hs
      rcases List.mem_cons.1 hs with rfl | hs
      · exact h.1
      · exact i1 s hs

/-- A document whose sentences in front of position `b.length` are terminated,
whose sentence at that position has a valid terminator and whose sentences
behind satisfy the invariant, satisfies the invariant but for that position. -/
theorem terminators_ok_except_of_parts (b : List SentenceNode) (c : SentenceNode)
    (a : List SentenceNode) (hb : ∀ s ∈ b, is_sentence_delimiter s.delimiter = true)
    (hc : valid_terminator c.delimiter = true) (ha : terminators_ok a = true) :
    terminators_ok_except b.length (b ++ c :: a) = true := by
  induction b with
  | nil =>
    cases a with
    | nil => simpa [terminators_ok_except] using hc
    | cons y ys => simp [terminators_ok_except, hc, ha]
  | cons x xs ih =>
    have hne : xs ++ c :: a ≠ [] := by simp
    have ih' := ih (fun s hs => hb s (List.mem_cons_of_mem _ hs))
    cases hl : xs ++ c :: a with
    | nil => exact absurd hl hne
    | cons y ys =>
      rw [List.cons_append, hl, List.length_cons]
      rw [hl] at ih'
      simp [terminators_ok_except, hb x (List.mem_cons_self _ _), ih']

theorem load_sentences_terminators (content cur : Str) (skipping : Bool) :
    terminators_ok (load_sentences content cur skipping) = true := by
  induction content generalizing cur skipping with
  | nil =>
    simp only [load_sentences]
    split_ifs <;> simp [terminators_ok, valid_NUL]
  | cons c cs ih =>
    simp only [load_sentences]
    split_ifs with h1 h2
    · exact ih _ _
    · exact terminators_ok_cons _ _ h2 (ih _ _)
    · exact ih _ _

/-- The shape of the document after a successful call: the sentences in front
of the returned index satisfy `P` when those in front of the addressed sentence
did, the sentence at the returned index has a valid terminator, and the
sentences behind the addressed one are unchanged. -/
theorem modify_terminator_state (P : Char → Bool)
    (hP : ∀ c, is_sentence_delimiter c = true → P c = true)
    (file file' : FileContent) (s w : Int) (text : Str) (r : Int)
    (h : modify_sentence_multiword file s w text = .ok (file', r))
    (hb : ∀ x ∈ file.head.take s.toNat, P x.delimiter = true)
    (hv : ∀ x ∈ file.head, valid_terminator x.delimiter = true) :
    ∃ (b : List SentenceNode) (c cur : SentenceNode) (after : List SentenceNode),
      file.head = file.head.take s.toNat ++ cur :: after ∧
      file'.head = b ++ c :: after ∧ (∀ x ∈ b, P x.delimiter = true) ∧
      valid_terminator c.delimiter = true ∧ r = (b.length : Int) := by
  obtain ⟨cur, after, st, hs0, _, hdrop, _, _, hloop, hfile, hr⟩ :=
    modify_ok_unfold file file' s w text r h
  have hsplit : file.head = file.head.take s.toNat ++ cur :: after := by
    rw [← hdrop, List.take_append_drop]
  have hcur : cur ∈ file.head := by
    rw [hsplit]; simp
  have hlen : (file.head.take s.toNat).length = s.toNat := by
    rw [List.length_take]
    have : s.toNat < file.head.length := by
      by_contra hge
      rw [List.drop_eq_nil_of_le (by omega)] at hdrop
      cases hdrop
    omega
  have h0 : TerminatorState P after (start_state file s w cur after) := by
    refine ⟨hb, hv cur hcur, ?_, rfl⟩
    show s = ((file.head.take s.toNat).length : Int)
    rw [hlen]
    omega
  have hfin := modify_loop_invariant (TerminatorState P after) cur.delimiter
    (fun st w => terminator_state_insert P after st w)
    (fun st d more hd => terminator_state_end P hP after cur.delimiter (hv cur hcur) st d more hd)
    _ _ _ st h0 hloop
  obtain ⟨f1, f2, f3, f4⟩ := hfin
  refine ⟨st.before, st.active, cur, after, hsplit, ?_, f1, f2, ?_⟩
  · rw [hfile]
    show st.sentences = _
    rw [ModifyState.sentences, f4]
  · rw [hr, f3]

/-- C13 (as amended). The document built by `load_file_content` has every
terminator among `. ! ?` and none, with none only on its last sentence.  Every
document obtained from it by successful `modify_sentence_multiword` calls has
every terminator among `. ! ?` and none.  One successful call on a document
that satisfies the invariant leaves none only on the last sentence or on the
sentence whose index the call returns (the sentence opened for the
continuation). -/
theorem terminators_after_load_and_modify :
    (∀ filename content : Str,
      terminators_ok (parse_file_content filename content).head = true) ∧
    (∀ file : FileContent, DocReachable file →
      ∀ x ∈ file.head, valid_terminator x.delimiter = true) ∧
    (∀ (file file' : FileContent) (s w : Int) (text : Str) (r : Int),
      terminators_ok file.head = true →
      modify_sentence_multiword file s w text = .ok (file', r) →
      terminators_ok_except r.toNat file'.head = true) := by
  refine ⟨fun filename content => load_sentences_terminators content [] false, ?_, ?_⟩
  · intro file hreach
    induction hreach with
    | load filename content =>
      exact terminators_ok_valid _ (load_sentences_terminators content [] false)
    | modify file file' s w text r _ hmod ih =>
      obtain ⟨b, c, cur, after, hsplit, hhead, hb, hc, _⟩ :=
        modify_terminator_state valid_terminator valid_of_delimiter file file' s w text r hmod
          (fun x hx => ih x (List.mem_of_mem_take hx)) ih
      intro x hx
      rw [hhead] at hx
      rcases List.mem_append.1 hx with hx | hx
      · exact hb x hx
      · rcases List.mem_cons.1 hx with rfl | hx
        · exact hc
        · exact ih x (by rw [hsplit]; simp [hx])
  · intro file file' s w text r hok hmod
    have hv := terminators_ok_valid _ hok
    obtain ⟨cur0, after0, _, _, _, hdrop, _⟩ := modify_ok_unfold file file' s w text r hmod
    have hsplit0 : file.head = file.head.take s.toNat ++ cur0 :: after0 := by
      rw [← hdrop, List.take_append_drop]
    have hparts := terminators_ok_split (file.head.take s.toNat) cur0 after0
      (by rw [← hsplit0]; exact hok)
    obtain ⟨b, c, cur, after, hsplit, hhead, hb, hc, hr⟩ :=
      modify_terminator_state is_sentence_delimiter (fun _ h => h) file file' s w text r hmod
        hparts.1 hv
    have hafter : after = after0 := by
      have := hsplit0.symm.trans hsplit
      have := List.append_cancel_left this
      simp only [List.cons.injEq] at this
      exact this.2.symm
    rw [hhead, hr, Int.toNat_ofNat]
    exact terminators_ok_except_of_parts b c after hb hc (hafter ▸ hparts.2.2)

/-- Witness of C13 (as amended): `big. shiny` inserted at word 1 of `Hello world.`
in the loaded document `Hello world.` / `Bye now!` returns index 2; none is the
terminator of sentence 2 only. -/
theorem terminators_after_load_and_modify_witness :
    terminators_ok doc_hello_bye.head = true ∧
    modify_sentence_multiword doc_hello_bye 0 1 "big. shiny".toList =
      .ok (modified_document doc_hello_bye
        (modify_sentence_multiword doc_hello_bye 0 1 "big. shiny".toList), 2) ∧
    terminators_ok_except 2 (modified_document doc_hello_bye
        (modify_sentence_multiword doc_hello_bye 0 1 "big. shiny".toList)).head = true :=
  ⟨by decide, rfl,
    terminators_after_load_and_modify.2.2 doc_hello_bye _ 0 1 "big. shiny".toList 2
      (by decide) rfl⟩

/-- C13 as stated fails: `big. shiny` inserted at word 1 of `Hello world.` in the
loaded document `Hello world.` / `Bye now!` succeeds and gives the sentences
`Hello big.`, `world.`, `shiny` and `Bye now!`; the third one has no terminator
and is not the last. -/
theorem unterminated_sentence_inside_document :
    doc_hello_bye = parse_file_content "doc.txt".toList "Hello world.\nBye now!".toList ∧
    modify_sentence_multiword doc_hello_bye 0 1 "big. shiny".toList =
      .ok (modified_document doc_hello_bye
        (modify_sentence_multiword doc_hello_bye 0 1 "big. shiny".toList), 2) ∧
    (modified_document doc_hello_bye
        (modify_sentence_multiword doc_hello_bye 0 1 "big. shiny".toList)).head =
      [⟨["Hello".toList, "big".toList], 2, '.'⟩, ⟨["world".toList], 1, '.'⟩,
       ⟨["shiny".toList], 1, NUL⟩, ⟨["Bye".toList, "now".toList], 2, '!'⟩] ∧
    terminators_ok (modified_document doc_hello_bye
        (modify_sentence_multiword doc_hello_bye 0 1 "big. shiny".toList)).head = false :=
  ⟨rfl, rfl, by decide, by decide⟩

/-! ## The serialised form -/

/-- C14 (the code departs from the claim). An empty sentence between two written
ones costs the newline.  The document is the one that `x.` inserted at word 2
of `Hello world.` makes of `Hello world.` / `Bye now!`: its sentences are
`Hello world x.`, an empty one and `Bye now!`.  `save_file_content` writes `Hello world x.Bye now!`, with no
newline between the two written sentences, where the serialised form has
`Hello world x.` and `Bye now!` on two lines.  The same bytes reach the file
when the frames `2|x.` and `ETIRW` are sent in a `WRITE` session on sentence 0. -/
theorem save_omits_newline_after_empty_sentence :
    doc_with_empty_sentence.head =
      [⟨["Hello".toList, "world".toList, "x".toList], 3, '.'⟩, ⟨[], 0, NUL⟩,
       ⟨["Bye".toList, "now".toList], 2, '!'⟩] ∧
    save_buffer doc_with_empty_sentence.head [] = "Hello world x.Bye now!".toList ∧
    serialised_form doc_with_empty_sentence.head = "Hello world x.\nBye now!".toList ∧
    (save_file_content io_ok two_sentence_state.disk doc_with_empty_sentence).2.data
      "doc.txt".toList = some "Hello world x.Bye now!".toList ∧
    (handle_write io_ok two_sentence_state "notes.txt".toList "0".toList "alice".toList
      [some "2|x.\n".toList, some "ETIRW\n".toList]).state.disk.data "notes.txt".toList =
      some "Hello world x.Bye now!".toList := by
  decide

/-! ### Round trip of the serialisation -/

theorem plain_word_iff (w : Str) :
    plain_word w = true ↔
      w ≠ [] ∧ ∀ c ∈ w, is_space c = false ∧ is_sentence_delimiter c = false := by
  simp [plain_word, List.all_eq_true]

theorem space_not_delimiter : is_sentence_delimiter ' ' = false := by decide

theorem newline_not_delimiter : is_sentence_delimiter '\n' = false := by decide

theorem join_cons_cons (w w2 : Str) (ws : List Str) :
    ((w :: w2 :: ws).intersperse " ".toList).flatten =
      w ++ ' ' :: ((w2 :: ws).intersperse " ".toList).flatten := by
  simp [List.intersperse]

theorem join_single (w : Str) : (([w]).intersperse " ".toList).flatten = w := by
  simp [List.intersperse]

/-- The words of a sentence joined by single spaces contain no delimiter. -/
theorem join_no_delimiter (ws : List Str) (h : ∀ w ∈ ws, plain_word w = true) :
    ∀ c ∈ (ws.intersperse " ".toList).flatten, is_sentence_delimiter c = false := by
  induction ws with
  | nil => simp
  | cons w rest ih =>
    have hw := (plain_word_iff w).1 (h w (List.mem_cons_self _ _))
    cases rest with
    | nil =>
      rw [join_single]
      exact fun c hc => (hw.2 c hc).2
    | cons w2 ws =>
      rw [join_cons_cons]
      intro c hc
      rcases List.mem_append.1 hc with hc | hc
      · exact (hw.2 c hc).2
      · rcases List.mem_cons.1 hc with rfl | hc
        · exact space_not_delimiter
        · exact ih (fun x hx => h x (List.mem_cons_of_mem _ hx)) c hc

/-- The joined words start with a character that is no white space. -/
theorem join_head (ws : List Str) (hne : ws ≠ []) (h : ∀ w ∈ ws, plain_word w = true) :
    ∃ c j, (ws.intersperse " ".toList).flatten = c :: j ∧ is_space c = false := by
  cases ws with
  | nil => exact absurd rfl hne
  | cons w rest =>
    have hw := (plain_word_iff w).1 (h w (List.mem_cons_self _ _))
    cases w with
    | nil => exact absurd rfl hw.1
    | cons c cs =>
      have hc := (hw.2 c (List.mem_cons_self _ _)).1
      cases rest with
      | nil => exact ⟨c, cs, by rw [join_single], hc⟩
      | cons w2 ws => exact ⟨c, _, by rw [join_cons_cons, List.cons_append], hc⟩

/-- The joined words end with a character that is neither white space nor a
delimiter. -/
theorem join_last (ws : List Str) (hne : ws ≠ []) (h : ∀ w ∈ ws, plain_word w = true) :
    ∃ j c, (ws.intersperse " ".toList).flatten = j ++ [c] ∧ is_space c = false ∧
      is_sentence_delimiter c = false := by
  induction ws with
  | nil => exact absurd rfl hne
  | cons w rest ih =>
    have hw := (plain_word_iff w).1 (h w (List.mem_cons_self _ _))
    cases rest with
    | nil =>
      rw [join_single]
      rcases List.eq_nil_or_concat w with h0 | ⟨j, c, hj⟩
      · exact absurd h0 hw.1
      · rw [List.concat_eq_append] at hj
        exact ⟨j, c, hj, hw.2 c (by rw [hj]; simp)⟩
    | cons w2 ws =>
      obtain ⟨j, c, hj, hc⟩ := ih (by simp) (fun x hx => h x (List.mem_cons_of_mem _ hx))
      exact ⟨w ++ ' ' :: j, c, by rw [join_cons_cons, hj]; simp, hc⟩

/-- `strtok` on white space gives the words back. -/
theorem strtok_join (ws : List Str) (h : ∀ w ∈ ws, plain_word w = true) :
    strtok_all is_space ((ws.intersperse " ".toList).flatten) = ws := by
  unfold strtok_all
  induction ws with
  | nil => simp [strtok_aux]
  | cons w rest ih =>
    have hw := (plain_word_iff w).1 (h w (List.mem_cons_self _ _))
    have hsp : ∀ c ∈ w, is_space c = false := fun c hc => (hw.2 c hc).1
    cases rest with
    | nil =>
      rw [join_single]
      have := strtok_aux_append is_space w [] [] hsp
      rw [List.append_nil] at this
      rw [this]
      simp [strtok_aux, hw.1]
    | cons w2 ws =>
      rw [join_cons_cons, strtok_aux_append is_space w _ [] hsp,
        strtok_aux_sep is_space ' ' _ _ (by decide),
        ih (fun x hx => h x (List.mem_cons_of_mem _ hx))]
      simp [hw.1]

theorem trim_whitespace_id (s : Str) (c : Char) (j : Str) (j' : Str) (e : Char)
    (h1 : s = c :: j) (hc : is_space c = false) (h2 : s = j' ++ [e]) (he : is_space e = false) :
    trim_whitespace s = s := by
  unfold trim_whitespace
  have d1 : s.dropWhile is_space = s := by
    rw [h1]
    exact List.dropWhile_cons_of_neg (by simp [hc])
  rw [d1]
  have d2 : s.reverse.dropWhile is_space = s.reverse := by
    rw [h2, List.reverse_append, List.reverse_singleton, List.singleton_append]
    exact List.dropWhile_cons_of_neg (by simp [he])
  rw [d2, List.reverse_reverse]

theorem parse_words_terminated (ws : List Str) (d : Char) (hne : ws ≠ [])
    (h : ∀ w ∈ ws, plain_word w = true) (hd : is_sentence_delimiter d = true)
    (hlen : ((ws.intersperse " ".toList).flatten ++ [d]).length < MAX_SENTENCE_LENGTH) :
    parse_words_to_list ((ws.intersperse " ".toList).flatten ++ [d]) =
      (ws, (ws.length : Int)) := by
  obtain ⟨c, j, hj, hc⟩ := join_head ws hne h
  obtain ⟨j', e, hj', he, _⟩ := join_last ws hne h
  unfold parse_words_to_list
  have ht : ((ws.intersperse " ".toList).flatten ++ [d]).take (MAX_SENTENCE_LENGTH - 1) =
      (ws.intersperse " ".toList).flatten ++ [d] :=
    List.take_of_length_le (by omega)
  have hemp : ((ws.intersperse " ".toList).flatten).isEmpty = false := by rw [hj]; rfl
  simp only [ht, List.getLast?_concat, hd, if_true, List.dropLast_concat]
  rw [trim_whitespace_id _ c j j' e hj hc hj' he, strtok_join ws h, hemp]
  rfl

theorem parse_words_open (ws : List Str) (hne : ws ≠ [])
    (h : ∀ w ∈ ws, plain_word w = true)
    (hlen : ((ws.intersperse " ".toList).flatten).length < MAX_SENTENCE_LENGTH) :
    parse_words_to_list ((ws.intersperse " ".toList).flatten) = (ws, (ws.length : Int)) := by
  obtain ⟨c, j, hj, hc⟩ := join_head ws hne h
  obtain ⟨j', e, hj', he, hde⟩ := join_last ws hne h
  unfold parse_words_to_list
  have ht : ((ws.intersperse " ".toList).flatten).take (MAX_SENTENCE_LENGTH - 1) =
      (ws.intersperse " ".toList).flatten :=
    List.take_of_length_le (by omega)
  have hl : ((ws.intersperse " ".toList).flatten).getLast? = some e := by
    rw [hj', List.getLast?_concat]
  have hemp : ((ws.intersperse " ".toList).flatten).isEmpty = false := by rw [hj]; rfl
  simp only [ht, hl, hde, Bool.false_eq_true, if_false]
  rw [trim_whitespace_id _ c j j' e hj hc hj' he, strtok_join ws h, hemp]
  rfl

/-- The scan of `load_file_content` over bytes that hold no delimiter, once it
has left the white space behind a delimiter. -/
theorem load_sentences_scan (body rest cur : Str)
    (hb : ∀ c ∈ body, is_sentence_delimiter c = false) :
    load_sentences (body ++ rest) cur false = load_sentences rest (cur ++ body) false := by
  induction body generalizing cur with
  | nil => simp
  | cons c cs ih =>
    have hc : is_sentence_delimiter c = false := hb c (List.mem_cons_self _ _)
    rw [List.cons_append]
    have step : load_sentences (c :: (cs ++ rest)) cur false =
        load_sentences (cs ++ rest) (cur ++ [c]) false := by
      simp [load_sentences, hc]
    rw [step, ih (cur ++ [c]) (fun x hx => hb x (List.mem_cons_of_mem _ hx))]
    simp

/-- The same scan started in either mode on bytes whose first one is no white
space. -/
theorem load_sentences_scan_head (c : Char) (body rest : Str) (skipping : Bool)
    (hc : is_space c = false) (hb : ∀ x ∈ c :: body, is_sentence_delimiter x = false) :
    load_sentences (c :: body ++ rest) [] skipping = load_sentences rest (c :: body) false := by
  have hcd : is_sentence_delimiter c = false := hb c (List.mem_cons_self _ _)
  have hws : (c == ' ' || c == '\n' || c == '\r' || c == '\t') = false := by
    simp only [is_space, Bool.or_eq_false_iff] at hc
    simp [hc.1.1.1, hc.1.1.2, hc.1.2, hc.2]
  have step : load_sentences (c :: (body ++ rest)) [] skipping =
      load_sentences (body ++ rest) [c] false := by
    simp [load_sentences, hcd, hws]
  rw [List.cons_append, step,
    load_sentences_scan body rest [c] (fun x hx => hb x (List.mem_cons_of_mem _ hx))]
  simp

theorem well_formed_sentence_iff (s : SentenceNode) :
    well_formed_sentence s = true ↔
      s.words ≠ [] ∧ (∀ w ∈ s.words, plain_word w = true) ∧
      s.word_count = (s.words.length : Int) ∧
      (render_sentence s).length < MAX_SENTENCE_LENGTH := by
  simp [well_formed_sentence, List.all_eq_true, and_assoc]

theorem delimiter_ne_NUL (d : Char) (hd : is_sentence_delimiter d = true) : d ≠ NUL := by
  intro h
  rw [h] at hd
  exact absurd hd (by decide)

theorem render_terminated (s : SentenceNode) (hd : is_sentence_delimiter s.delimiter = true) :
    render_sentence s = (s.words.intersperse " ".toList).flatten ++ [s.delimiter] := by
  unfold render_sentence
  rw [if_pos (delimiter_ne_NUL _ hd)]

theorem render_open (s : SentenceNode) (hd : s.delimiter = NUL) :
    render_sentence s = (s.words.intersperse " ".toList).flatten := by
  unfold render_sentence
  simp [hd]

/-- Loading the rendering of a terminated sentence gives the sentence back and
goes on behind it, skipping white space. -/
theorem load_terminated_sentence (s : SentenceNode) (rest : Str) (skipping : Bool)
    (hwf : well_formed_sentence s = true) (hd : is_sentence_delimiter s.delimiter = true) :
    load_sentences (render_sentence s ++ rest) [] skipping =
      s :: load_sentences rest [] true := by
  obtain ⟨hne, hpl, hcount, hlen⟩ := (well_formed_sentence_iff s).1 hwf
  rw [render_terminated s hd] at hlen ⊢
  obtain ⟨c, j, hj, hc⟩ := join_head s.words hne hpl
  have hnd := join_no_delimiter s.words hpl
  have hpar := parse_words_terminated s.words s.delimiter hne hpl hd hlen
  rw [hj] at hnd hpar ⊢
  rw [List.append_assoc, load_sentences_scan_head c j _ skipping hc hnd]
  have step : load_sentences ([s.delimiter] ++ rest) (c :: j) false =
      { words := (parse_words_to_list (c :: j ++ [s.delimiter])).1,
        word_count := (parse_words_to_list (c :: j ++ [s.delimiter])).2,
        delimiter := s.delimiter } :: load_sentences rest [] true := by
    simp [load_sentences, hd]
  rw [step, hpar, ← hcount]

/-- Loading the rendering of a last sentence without terminator gives the
sentence back. -/
theorem load_open_sentence (s : SentenceNode) (skipping : Bool)
    (hwf : well_formed_sentence s = true) (hd : s.delimiter = NUL) :
    load_sentences (render_sentence s) [] skipping = [s] := by
  obtain ⟨hne, hpl, hcount, hlen⟩ := (well_formed_sentence_iff s).1 hwf
  rw [render_open s hd] at hlen ⊢
  obtain ⟨c, j, hj, hc⟩ := join_head s.words hne hpl
  obtain ⟨j', e, hj', he, _⟩ := join_last s.words hne hpl
  have hnd := join_no_delimiter s.words hpl
  have hpar := parse_words_open s.words hne hpl hlen
  have htrim := trim_whitespace_id _ c j j' e hj hc hj' he
  rw [hj] at hnd hpar htrim
  have h0 := load_sentences_scan_head c j [] skipping hc hnd
  rw [List.append_nil] at h0
  rw [hj, h0]
  have step : load_sentences [] (c :: j) false =
      [{ words := (parse_words_to_list (trim_whitespace (c :: j))).1,
         word_count := (parse_words_to_list (trim_whitespace (c :: j))).2,
         delimiter := NUL }] := by
    simp [load_sentences, htrim]
  rw [step, htrim, hpar, ← hcount, ← hd]

theorem load_skips_newline (rest : Str) :
    load_sentences ('\n' :: rest) [] true = load_sentences rest [] true := by
  simp [load_sentences]

theorem serialised_form_single (s : SentenceNode) (hwf : well_formed_sentence s = true) :
    serialised_form [s] = render_sentence s := by
  have hne := ((well_formed_sentence_iff s).1 hwf).1
  have : (!s.words.isEmpty) = true := by simpa using hne
  simp [serialised_form, List.filter, this, List.intersperse]

theorem serialised_form_cons (s t : SentenceNode) (rest : List SentenceNode)
    (hs : well_formed_sentence s = true) (ht : well_formed_sentence t = true) :
    serialised_form (s :: t :: rest) =
      render_sentence s ++ '\n' :: serialised_form (t :: rest) := by
  have h1 : (!s.words.isEmpty) = true := by
    simpa using ((well_formed_sentence_iff s).1 hs).1
  have h2 : (!t.words.isEmpty) = true := by
    simpa using ((well_formed_sentence_iff t).1 ht).1
  simp [serialised_form, List.filter, h1, h2, List.intersperse]

/-- Parsing the serialised form of a well-formed document gives the document. -/
theorem load_serialised_form (l : List SentenceNode) (hwf : well_formed_document l = true)
    (skipping : Bool) : load_sentences (serialised_form l) [] skipping = l := by
  induction l generalizing skipping with
  | nil => simp [serialised_form, load_sentences]
  | cons s rest ih =>
    simp only [well_formed_document, List.all_cons, Bool.and_eq_true] at hwf
    obtain ⟨⟨hs, hrest⟩, hterm⟩ := hwf
    cases rest with
    | nil =>
      rw [serialised_form_single s hs]
      have hv : valid_terminator s.delimiter = true := by simpa [terminators_ok] using hterm
      by_cases hd : s.delimiter = NUL
      · exact load_open_sentence s skipping hs hd
      · have := load_terminated_sentence s [] skipping hs (delimiter_of_valid _ hv hd)
        rw [List.append_nil] at this
        rw [this]
        simp [load_sentences]
    | cons t ts =>
      simp only [terminators_ok, Bool.and_eq_true] at hterm
      have ht : well_formed_sentence t = true := by
        simp only [List.all_cons, Bool.and_eq_true] at hrest
        exact hrest.1
      rw [serialised_form_cons s t ts hs ht, load_terminated_sentence s _ skipping hs hterm.1,
        load_skips_newline]
      rw [ih (by simp only [well_formed_document, Bool.and_eq_true]; exact ⟨hrest, hterm.2⟩) true]

theorem word_list_to_string_render (s : SentenceNode) (hne : s.words ≠ []) :
    word_list_to_string s.words s.delimiter = render_sentence s := by
  unfold word_list_to_string render_sentence
  have : s.words.isEmpty = false := by simpa using hne
  simp [this]

/-- On a document of well-formed sentences that fits the buffer,
`save_file_content` builds the serialised form. -/
theorem save_buffer_serialised_form (l : List SentenceNode)
    (hwf : ∀ s ∈ l, well_formed_sentence s = true) (buffer : Str)
    (hsize : (buffer ++ serialised_form l).length < LARGE_BUFFER_SIZE) :
    save_buffer l buffer = buffer ++ serialised_form l := by
  induction l generalizing buffer with
  | nil => simp [save_buffer, serialised_form]
  | cons s rest ih =>
    have hs := hwf s (List.mem_cons_self _ _)
    obtain ⟨hne, _, hcount, _⟩ := (well_formed_sentence_iff s).1 hs
    have hpos : s.word_count > 0 := by
      rw [hcount]
      have : 0 < s.words.length := List.length_pos.2 hne
      omega
    cases rest with
    | nil =>
      rw [serialised_form_single s hs] at hsize ⊢
      simp only [save_buffer, hpos, if_true, word_list_to_string_render s hne]
      rw [List.take_of_length_le (by simp only [List.length_append] at hsize; omega)]
    | cons t ts =>
      have ht := hwf t (List.mem_cons_of_mem _ (List.mem_cons_self _ _))
      obtain ⟨htne, _, htcount, _⟩ := (well_formed_sentence_iff t).1 ht
      have htpos : t.word_count > 0 := by
        rw [htcount]
        have : 0 < t.words.length := List.length_pos.2 htne
        omega
      rw [serialised_form_cons s t ts hs ht] at hsize ⊢
      simp only [List.length_append, List.length_cons] at hsize
      rw [save_buffer]
      simp only [hpos, htpos, if_true, word_list_to_string_render s hne]
      rw [List.take_of_length_le (by omega)]
      have hnl : ("\n".toList).take
          (LARGE_BUFFER_SIZE - (buffer ++ render_sentence s).length - 1) = ['\n'] := by
        have : 1 ≤ LARGE_BUFFER_SIZE - (buffer ++ render_sentence s).length - 1 := by
          simp only [List.length_append]; omega
        exact List.take_of_length_le (by simpa using this)
      rw [hnl, ih (fun x hx => hwf x (List.mem_cons_of_mem _ hx))]
      · simp
      · simp only [List.length_append, List.length_cons, List.length_nil]
        omega

/-- C15. Round trip of the document serialisation.  Let `x` be the serialised
form of a well-formed document (non-empty sentences of plain words, every
sentence but possibly the last one terminated, every rendered sentence shorter
than `MAX_SENTENCE_LENGTH`) and let `x` fit the buffer of `LARGE_BUFFER_SIZE`
bytes.  When a file holds `x`, `load_file_content` returns that document, the
buffer `save_file_content` builds from it is exactly `x`, and a successful
`save_file_content` leaves `x` in the file. -/
theorem save_load_round_trip (env env2 : IOEnv) (disk : Disk) (filename : Str)
    (l : List SentenceNode) (hwf : well_formed_document l = true)
    (hsize : (serialised_form l).length < LARGE_BUFFER_SIZE)
    (hfile : disk.data filename = some (serialised_form l)) :
    ∃ fc, (load_file_content env disk filename).1 = some fc ∧ fc.head = l ∧
      save_buffer fc.head [] = serialised_form l ∧
      ((save_file_content env2 (load_file_content env disk filename).2 fc).1 = ERR_SUCCESS →
        (save_file_content env2 (load_file_content env disk filename).2 fc).2.data
          fc.filename = some (serialised_form l)) := by
  have hread : (ss_read_file env disk filename LARGE_BUFFER_SIZE).1 = ERR_SUCCESS ∧
      (ss_read_file env disk filename LARGE_BUFFER_SIZE).2.1 = serialised_form l := by
    unfold ss_read_file
    rw [hfile]
    exact ⟨rfl, List.take_of_length_le (by omega)⟩
  have hload : (load_file_content env disk filename).1 =
      some (parse_file_content filename (serialised_form l)) := by
    unfold load_file_content
    simp only [hread.1, hread.2, ne_eq, not_true_eq_false, if_false]
  have hhead : (parse_file_content filename (serialised_form l)).head = l :=
    load_serialised_form l hwf false
  have hall : ∀ s ∈ l, well_formed_sentence s = true := by
    simp only [well_formed_document, Bool.and_eq_true, List.all_eq_true] at hwf
    exact hwf.1
  have hsave : save_buffer l [] = serialised_form l := by
    have := save_buffer_serialised_form l hall [] (by simpa using hsize)
    simpa using this
  refine ⟨_, hload, hhead, by rw [hhead]; exact hsave, ?_⟩
  intro hok
  unfold save_file_content at hok ⊢
  rw [hhead, hsave] at hok ⊢
  exact (ss_write_file_ok env2 _ _ _ hok).1

/-- Witness of C15: the file `notes.txt` with the two lines `Hello world.` and
`Bye now!`. -/
theorem save_load_round_trip_witness :
    well_formed_document doc_hello_bye.head = true ∧
    serialised_form doc_hello_bye.head = "Hello world.\nBye now!".toList ∧
    ∃ fc, (load_file_content io_ok two_sentence_state.disk "notes.txt".toList).1 = some fc ∧
      fc.head = doc_hello_bye.head ∧
      save_buffer fc.head [] = serialised_form doc_hello_bye.head ∧
      ((save_file_content io_ok
          (load_file_content io_ok two_sentence_state.disk "notes.txt".toList).2 fc).1 =
          ERR_SUCCESS →
        (save_file_content io_ok
          (load_file_content io_ok two_sentence_state.disk "notes.txt".toList).2 fc).2.data
          fc.filename = some (serialised_form doc_hello_bye.head)) :=
  ⟨by decide, by decide,
    save_load_round_trip io_ok io_ok two_sentence_state.disk "notes.txt".toList
      doc_hello_bye.head (by decide) (by decide) (by decide)⟩

/-! ## The index returned by `modify_sentence_multiword` -/

theorem takeWhile_append_stop {α : Type} (p : α → Bool) (x : List α) (d : α) (y : List α)
    (hd : p d = false) : (x ++ d :: y).takeWhile p = x.takeWhile p := by
  induction x with
  | nil => simp [List.takeWhile, hd]
  | cons c cs ih =>
    rw [List.cons_append, List.takeWhile_cons, List.takeWhile_cons, ih]

theorem last_piece_cut (b : Str) (d : Char) (a : Str) (hd : is_sentence_delimiter d = true) :
    last_piece (b ++ d :: a) = last_piece a := by
  unfold last_piece
  rw [List.reverse_append, List.reverse_cons, List.append_assoc, List.singleton_append,
    takeWhile_append_stop _ _ d _ (by simp [hd])]

theorem last_piece_plain (w : Str) (h : ∀ c ∈ w, is_sentence_delimiter c = false) :
    last_piece w = w := by
  unfold last_piece
  have : w.reverse.takeWhile (fun c => !is_sentence_delimiter c) = w.reverse := by
    rw [List.takeWhile_eq_self_iff]
    intro c hc
    simp [h c (List.mem_reverse.1 hc)]
  rw [this, List.reverse_reverse]

theorem last_piece_delimiter_end (u : Str) (d : Char) (hd : is_sentence_delimiter d = true) :
    last_piece (u ++ [d]) = [] := by
  unfold last_piece
  simp [hd]

/-- The sentence that a delimiter closes behind an inserted word, when no input
follows: it is the last one in front of the new active sentence, the word is
its last word and the delimiter its terminator. -/
theorem end_sentence_closed (st : ModifyState) (d od : Char) (b : Str)
    (hpre : st.pre.getLast? = some b) :
    ∃ closed, (end_sentence st d od false).before.getLast? = some closed ∧
      closed.words.getLast? = some b ∧ closed.delimiter = d := by
  have hne : st.pre ≠ [] := by
    intro h; rw [h] at hpre; cases hpre
  unfold end_sentence
  by_cases hx : (!st.pre.isEmpty && !st.post.isEmpty) = true
  · rw [if_pos hx]
    simp only [Bool.false_eq_true, and_false, if_false]
    exact ⟨_, List.getLast?_concat _, hpre, rfl⟩
  · rw [if_neg hx]
    have hpost : st.post = [] := by
      simp only [Bool.and_eq_true, Bool.not_eq_true', List.isEmpty_eq_false, not_and,
        ne_eq, Decidable.not_not] at hx
      simpa using hx (by simpa using hne)
    refine ⟨_, List.getLast?_concat _, ?_, rfl⟩
    simp [hpost, hpre]

theorem plain_of_dropWhile_nil (w : Str)
    (h : w.dropWhile (fun c => !is_sentence_delimiter c) = []) :
    ∀ c ∈ w, is_sentence_delimiter c = false := by
  have hw := List.takeWhile_append_dropWhile (fun c => !is_sentence_delimiter c) w
  rw [h, List.append_nil] at hw
  rw [← hw]
  exact takeWhile_no_delimiter w

theorem modify_loop_nil (fuel : Nat) (st : ModifyState) (od : Char) :
    modify_loop fuel [] st od = some st := by
  cases fuel <;> rfl

/-- Where the loop leaves the last input token.  When the token does not end in
a delimiter, its last piece is the word at the cursor of the final state.  When
it is a word followed by one delimiter, that word is the last word of the
sentence in front of the final active sentence, which the delimiter closed. -/
theorem modify_loop_last_token (fuel : Nat) (words : List Str) (st : ModifyState) (od : Char)
    (st' : ModifyState) (tok : Str) (h : modify_loop fuel words st od = some st')
    (hlast : words.getLast? = some tok) :
    (last_piece tok ≠ [] → st'.pre.getLast? = some (last_piece tok)) ∧
    (∀ u d, tok = u ++ [d] → is_sentence_delimiter d = true → last_piece u ≠ [] →
      ∃ closed, st'.before.getLast? = some closed ∧
        closed.words.getLast? = some (last_piece u) ∧ closed.delimiter = d) := by
  induction fuel generalizing words st tok with
  | zero =>
    cases words with
    | nil => cases hlast
    | cons w rest => simp [modify_loop] at h
  | succ fuel ih =>
    cases words with
    | nil => cases hlast
    | cons w rest =>
      have hw := List.takeWhile_append_dropWhile (fun c => !is_sentence_delimiter c) w
      cases hdw : w.dropWhile (fun c => !is_sentence_delimiter c) with
      | nil =>
        simp only [modify_loop, process_word_plain st od w _ hdw] at h
        cases rest with
        | nil =>
          rw [modify_loop_nil, Option.some.injEq] at h
          simp only [List.getLast?_singleton, Option.some.injEq] at hlast
          subst hlast h
          have hpl := plain_of_dropWhile_nil w hdw
          constructor
          · intro _
            rw [last_piece_plain w hpl]
            simp [insert_word]
          · intro u d hu hd _
            have : is_sentence_delimiter d = false := hpl d (by rw [hu]; simp)
            rw [hd] at this
            cases this
        | cons w2 rest' =>
          rw [List.getLast?_cons_cons] at hlast
          exact ih _ _ _ h hlast
      | cons d0 a =>
        have hd0 : is_sentence_delimiter d0 = true := by
          have := dropWhile_head_false _ w d0 a hdw
          simpa using this
        rw [hdw] at hw
        simp only [modify_loop, process_word_cut st od w _ d0 a hdw] at h
        by_cases ha : a.isEmpty = true
        · simp only [ha, if_true] at h
          have ha' : a = [] := by simpa using ha
          cases rest with
          | nil =>
            rw [modify_loop_nil, Option.some.injEq] at h
            simp only [List.getLast?_singleton, Option.some.injEq] at hlast
            subst hlast
            rw [ha'] at hw
            constructor
            · intro hne
              rw [← hw, last_piece_delimiter_end _ d0 hd0] at hne
              exact absurd rfl hne
            · intro u d hu hd hne
              rw [← hw] at hu
              have hlen : ([d0] : Str).length = [d].length := rfl
              obtain ⟨hu1, hu2⟩ := List.append_inj' hu hlen
              simp only [List.cons.injEq, and_true] at hu2
              subst hu1 hu2
              rw [last_piece_plain _ (takeWhile_no_delimiter w)] at hne ⊢
              have hemp : (w.takeWhile (fun c => !is_sentence_delimiter c)).isEmpty = false := by
                simpa using hne
              rw [hemp] at h
              simp only [Bool.false_eq_true, if_false, List.isEmpty_nil, Bool.not_true] at h
              rw [← h]
              exact end_sentence_closed _ d0 od _ (by simp [insert_word])
          | cons w2 rest' =>
            rw [List.getLast?_cons_cons] at hlast
            exact ih _ _ _ h hlast
        · rw [if_neg ha] at h
          simp only at h
          cases rest with
          | nil =>
            simp only [List.getLast?_singleton, Option.some.injEq] at hlast
            subst hlast
            obtain ⟨i1, i2⟩ := ih [a] _ a h (by simp)
            constructor
            · intro hne
              rw [← hw, last_piece_cut _ d0 a hd0] at hne ⊢
              exact i1 hne
            · intro u d hu hd hne
              rcases List.eq_nil_or_concat a with h0 | ⟨a', e, hae⟩
              · rw [h0] at ha; exact absurd rfl ha
              · rw [List.concat_eq_append] at hae
                rw [← hw, hae] at hu
                have hu' : (w.takeWhile (fun c => !is_sentence_delimiter c) ++ d0 :: a') ++ [e] =
                    u ++ [d] := by
                  rw [← hu]; simp
                have hlen : ([e] : Str).length = [d].length := rfl
                obtain ⟨hu1, hu2⟩ := List.append_inj' hu' hlen
                simp only [List.cons.injEq, and_true] at hu2
                subst hu1 hu2
                rw [last_piece_cut _ d0 a' hd0] at hne ⊢
                exact i2 a' e hae hd hne
          | cons w2 rest' =>
            rw [List.getLast?_cons_cons] at hlast
            have hl2 : (a :: w2 :: rest').getLast? = some tok := by
              rw [List.getLast?_cons_cons]; exact hlast
            exact ih _ _ _ h hl2

theorem getElem?_append_cons_length {α : Type} (b : List α) (x : α) (a : List α) :
    (b ++ x :: a)[b.length]? = some x := by
  induction b with
  | nil => simp
  | cons y ys ih => simpa using ih

theorem end_sentence_index (st : ModifyState) (d od : Char) (more : Bool)
    (h : st.current_sent = (st.before.length : Int)) :
    (end_sentence st d od more).current_sent =
      ((end_sentence st d od more).before.length : Int) := by
  unfold end_sentence
  by_cases hx : (!st.pre.isEmpty && !st.post.isEmpty) = true
  · rw [if_pos hx]
    simp only
    by_cases hc : (if od ≠ NUL then od else NUL) ≠ NUL ∧ more = true
    · rw [if_pos hc]
      simp only [h, List.length_append, List.length_cons, List.length_nil]
      push_cast
      ring
    · rw [if_neg hc]
      simp only [h, List.length_append, List.length_cons, List.length_nil]
      push_cast
      ring
  · rw [if_neg hx]
    simp only [h, List.length_append, List.length_cons, List.length_nil]
    push_cast
    ring

/-- The index invariant of the loop: `current_sent` is the position of the
active sentence, and the sentences behind it are untouched. -/
theorem modify_final_state (file file' : FileContent) (s w : Int) (text : Str) (r : Int)
    (h : modify_sentence_multiword file s w text = .ok (file', r)) :
    ∃ (st : ModifyState) (cur : SentenceNode) (after : List SentenceNode),
      modify_loop (loop_fuel (parse_input_words text)) (parse_input_words text)
        (start_state file s w cur after) cur.delimiter = some st ∧
      file'.head = st.before ++ st.active :: st.after ∧ r = (st.before.length : Int) := by
  obtain ⟨cur, after, st, hs0, _, hdrop, _, _, hloop, hfile, hr⟩ :=
    modify_ok_unfold file file' s w text r h
  have hlen : (file.head.take s.toNat).length = s.toNat := by
    rw [List.length_take]
    have : s.toNat < file.head.length := by
      by_contra hge
      rw [List.drop_eq_nil_of_le (by omega)] at hdrop
      cases hdrop
    omega
  have h0 : (start_state file s w cur after).current_sent =
      ((start_state file s w cur after).before.length : Int) := by
    show s = ((file.head.take s.toNat).length : Int)
    rw [hlen]
    omega
  have hfin := modify_loop_invariant
    (fun st => st.current_sent = (st.before.length : Int)) cur.delimiter
    (fun st w hst => by simpa [insert_word] using hst)
    (fun st d more _ hst => end_sentence_index st d cur.delimiter more hst)
    _ _ _ st h0 hloop
  refine ⟨st, cur, after, hloop, ?_, ?_⟩
  · rw [hfile]; rfl
  · rw [hr]; exact hfin

/-- C16 (as amended). The index that a successful call returns is the index of
the sentence that the call leaves active.  When the last input token does not
end in a delimiter, this is the sentence that contains the last inserted token
(the piece of that token behind its last delimiter).  When the last input token
is a word followed by one delimiter, the last inserted token is the last word
of the sentence in front of the one returned: the delimiter closed that
sentence, and the index returned is one more than its index. -/
theorem returned_index_is_active_sentence (file file' : FileContent) (s w : Int) (text : Str)
    (r : Int) (tok : Str)
    (hmod : modify_sentence_multiword file s w text = .ok (file', r))
    (hlast : (parse_input_words text).getLast? = some tok) :
    0 ≤ r ∧
    (last_piece tok ≠ [] →
      ∃ sent pre post, file'.head[r.toNat]? = some sent ∧
        sent.words = pre ++ last_piece tok :: post) ∧
    (∀ u d, tok = u ++ [d] → is_sentence_delimiter d = true → last_piece u ≠ [] →
      1 ≤ r ∧ ∃ sent, file'.head[r.toNat - 1]? = some sent ∧
        sent.words.getLast? = some (last_piece u) ∧ sent.delimiter = d) := by
  obtain ⟨st, cur, after, hloop, hhead, hr⟩ := modify_final_state file file' s w text r hmod
  obtain ⟨hA, hB⟩ := modify_loop_last_token _ _ _ _ st tok hloop hlast
  refine ⟨by omega, ?_, ?_⟩
  · intro hne
    obtain ⟨pre, hpre⟩ := List.getLast?_eq_some_iff.1 (hA hne)
    refine ⟨st.active, pre, st.post, ?_, ?_⟩
    · rw [hhead, hr, Int.toNat_ofNat]
      exact getElem?_append_cons_length _ _ _
    · show st.pre ++ st.post = _
      rw [hpre]
      simp
  · intro u d hu hd hne
    obtain ⟨closed, hc1, hc2, hc3⟩ := hB u d hu hd hne
    obtain ⟨b, hb⟩ := List.getLast?_eq_some_iff.1 hc1
    have hlen : st.before.length = b.length + 1 := by rw [hb]; simp
    refine ⟨by omega, closed, ?_, hc2, hc3⟩
    rw [hhead, hr, Int.toNat_ofNat, hlen, hb, Nat.add_sub_cancel, List.append_assoc,
      List.singleton_append]
    exact getElem?_append_cons_length _ _ _

/-- Witness of C16 (as amended): `big. shiny` inserted at word 1 of
`one two three` returns index 1, and sentence 1 contains `shiny`. -/
theorem returned_index_is_active_sentence_witness :
    modify_sentence_multiword doc_one_two_three 0 1 "big. shiny".toList =
      .ok (modified_document doc_one_two_three
        (modify_sentence_multiword doc_one_two_three 0 1 "big. shiny".toList), 1) ∧
    (parse_input_words "big. shiny".toList).getLast? = some "shiny".toList ∧
    last_piece "shiny".toList ≠ [] ∧
    ∃ sent pre post,
      (modified_document doc_one_two_three
        (modify_sentence_multiword doc_one_two_three 0 1 "big. shiny".toList)).head[
          (1 : Int).toNat]? = some sent ∧
      sent.words = pre ++ last_piece "shiny".toList :: post :=
  ⟨rfl, by decide, by decide,
    (returned_index_is_active_sentence doc_one_two_three _ 0 1 "big. shiny".toList 1
      "shiny".toList rfl (by decide)).2.1 (by decide)⟩

/-- C16 as stated fails: `big.` inserted at word 1 of `one two three` succeeds and
returns index 1; the document is then `one big.` / `two three`, so the one
inserted token `big` is in sentence 0, and sentence 1 does not contain it. -/
theorem returned_index_behind_last_token :
    modify_sentence_multiword doc_one_two_three 0 1 "big.".toList =
      .ok (modified_document doc_one_two_three
        (modify_sentence_multiword doc_one_two_three 0 1 "big.".toList), 1) ∧
    (modified_document doc_one_two_three
        (modify_sentence_multiword doc_one_two_three 0 1 "big.".toList)).head =
      [⟨["one".toList, "big".toList], 2, '.'⟩, ⟨["two".toList, "three".toList], 2, NUL⟩] ∧
    "big".toList ∉ ["two".toList, "three".toList] :=
  ⟨rfl, by decide, by decide⟩

/-! ## The sentence index of a `WRITE` request -/

theorem error_sentence_frame (x : Str) :
    is_error_frame (("ERROR|Sentence ".toList ++ x).take 127) = true := by
  rfl

/-- The sentence validation of the `WRITE` open step, case by case. -/
theorem write_open_validation (env : IOEnv) (st : SSState) (filename n_str user content : Str)
    (hs : 0 ≤ atoi n_str)
    (hlock : (global_try_lock_sentence st.locks (filename.take (MAX_FILENAME_LENGTH - 1))
      (atoi n_str) (user.take (MAX_USERNAME_LENGTH - 1))).1 ≠ 0)
    (hfile : st.disk.data (filename.take (MAX_FILENAME_LENGTH - 1)) = some content) :
    (((parse_file_content (filename.take (MAX_FILENAME_LENGTH - 1))
          (content.take (LARGE_BUFFER_SIZE - 1))).head.length = 0 ∧ atoi n_str = 0) ∨
      atoi n_str < ((parse_file_content (filename.take (MAX_FILENAME_LENGTH - 1))
          (content.take (LARGE_BUFFER_SIZE - 1))).head.length : Int) ∨
      (atoi n_str = ((parse_file_content (filename.take (MAX_FILENAME_LENGTH - 1))
          (content.take (LARGE_BUFFER_SIZE - 1))).head.length : Int) ∧
        0 < (parse_file_content (filename.take (MAX_FILENAME_LENGTH - 1))
          (content.take (LARGE_BUFFER_SIZE - 1))).head.length ∧
        last_has_delimiter (parse_file_content (filename.take (MAX_FILENAME_LENGTH - 1))
          (content.take (LARGE_BUFFER_SIZE - 1))) = true) →
      ∃ st' sess replies,
        write_open env st filename n_str user = .active st' sess replies ∧
        sess.current_sentence = atoi n_str ∧
        sess.file_buffer.head =
          (if atoi n_str = ((parse_file_content (filename.take (MAX_FILENAME_LENGTH - 1))
              (content.take (LARGE_BUFFER_SIZE - 1))).head.length : Int)
           then (parse_file_content (filename.take (MAX_FILENAME_LENGTH - 1))
              (content.take (LARGE_BUFFER_SIZE - 1))).head ++ [empty_sentence]
           else (parse_file_content (filename.take (MAX_FILENAME_LENGTH - 1))
              (content.take (LARGE_BUFFER_SIZE - 1))).head) ∧
        sess.file_buffer.sentence_count = (sess.file_buffer.head.length : Int)) ∧
    (¬ (((parse_file_content (filename.take (MAX_FILENAME_LENGTH - 1))
          (content.take (LARGE_BUFFER_SIZE - 1))).head.length = 0 ∧ atoi n_str = 0) ∨
      atoi n_str < ((parse_file_content (filename.take (MAX_FILENAME_LENGTH - 1))
          (content.take (LARGE_BUFFER_SIZE - 1))).head.length : Int) ∨
      (atoi n_str = ((parse_file_content (filename.take (MAX_FILENAME_LENGTH - 1))
          (content.take (LARGE_BUFFER_SIZE - 1))).head.length : Int) ∧
        0 < (parse_file_content (filename.take (MAX_FILENAME_LENGTH - 1))
          (content.take (LARGE_BUFFER_SIZE - 1))).head.length ∧
        last_has_delimiter (parse_file_content (filename.take (MAX_FILENAME_LENGTH - 1))
          (content.take (LARGE_BUFFER_SIZE - 1))) = true)) →
      ∃ st' r, write_open env st filename n_str user = .rejected st' [r] ∧
        is_error_frame r = true) := by
  generalize hdoc : parse_file_content (filename.take (MAX_FILENAME_LENGTH - 1))
    (content.take (LARGE_BUFFER_SIZE - 1)) = doc
  have hcount : doc.sentence_count = (doc.head.length : Int) := by
    rw [← hdoc]; rfl
  have hld : (load_file_content env st.disk (filename.take (MAX_FILENAME_LENGTH - 1))).1 =
      some doc := by
    unfold load_file_content ss_read_file
    rw [hfile, ← hdoc]
    simp
  unfold write_open
  simp only
  rw [if_neg (not_lt.2 hs), if_neg hlock, hld]
  simp only [hcount]
  generalize atoi n_str = s at hs ⊢
  generalize hn : doc.head.length = n
  constructor
  · intro hacc
    have hnr : ¬ (((n : Int) = 0 ∧ s > 0) ∨ ((n : Int) > 0 ∧ s > n) ∨
        ((n : Int) > 0 ∧ s = n ∧
          (decide ((n : Int) > 0 ∧ s = n) && last_has_delimiter doc) = false)) := by
      rintro (h | h | h)
      · rcases hacc with h' | h' | h' <;> omega
      · rcases hacc with h' | h' | h' <;> omega
      · rcases hacc with h' | h' | h'
        · omega
        · omega
        · simp [h'.2.2, h.1, h.2.1] at h
    rw [if_neg hnr]
    refine ⟨_, _, _, rfl, rfl, ?_, ?_⟩
    · simp only
      rcases hacc with h' | h' | h'
      · have hnil : doc.head = [] := List.length_eq_zero.1 (hn.trans h'.1)
        simp [h'.1, h'.2, hnil]
      · have h1 : ¬ (n = 0 ∧ s = 0) := by omega
        have h2 : ¬ s = (n : Int) := by omega
        simp [h1, h2]
      · have h1 : ¬ ((n : Int) = 0 ∧ s = 0) := by omega
        have hne : doc.head.isEmpty = false := by
          cases hh : doc.head with
          | nil => rw [hh] at hn; simp at hn; omega
          | cons x xs => rfl
        have hpos : (0 : Int) < n := by omega
        have hn0 : ¬ n = 0 := by omega
        simp [h1, h'.1, h'.2.2, hne, hpos, hn0]
    · simp only
      rcases hacc with h' | h' | h'
      · simp [h'.1, h'.2]
      · have h1 : ¬ (n = 0 ∧ s = 0) := by omega
        have h2 : ¬ s = (n : Int) := by omega
        simp [h1, h2, hn, hcount]
      · have h1 : ¬ ((n : Int) = 0 ∧ s = 0) := by omega
        have hne : doc.head.isEmpty = false := by
          cases hh : doc.head with
          | nil => rw [hh] at hn; simp at hn; omega
          | cons x xs => rfl
        have hpos : (0 : Int) < n := by omega
        have hn0 : ¬ n = 0 := by omega
        simp [h1, h'.1, h'.2.2, hne, hpos, hn, hn0]
  · intro hrej
    have hr : (((n : Int) = 0 ∧ s > 0) ∨ ((n : Int) > 0 ∧ s > n) ∨
        ((n : Int) > 0 ∧ s = n ∧
          (decide ((n : Int) > 0 ∧ s = n) && last_has_delimiter doc) = false)) := by
      by_contra hc
      apply hrej
      simp only [not_or, not_and] at hc
      by_cases h0 : n = 0
      · left
        refine ⟨h0, ?_⟩
        have := hc.1 (by omega)
        omega
      · right
        by_cases hlt : s < n
        · exact Or.inl hlt
        · right
          have hsn : s = n := by
            have := hc.2.1 (by omega)
            omega
          refine ⟨hsn, by omega, ?_⟩
          have := hc.2.2 (by omega) hsn
          simpa [hsn, Nat.pos_of_ne_zero h0] using this
    rw [if_pos hr]
    exact ⟨_, _, rfl, error_sentence_frame _⟩

/-- C17 (as amended). The `WRITE` open step reads the index field of the request
with `atoi` into an `int` `s`.  Once the lock is granted and the file is loaded
as the document `doc` of `n` sentences, it accepts a non-negative `s` exactly
when `n = 0` and `s = 0`, or `s < n`, or `s = n`, `n > 0` and the last sentence
carries a terminator.  On acceptance the session document is the
loaded one, with a fresh empty sentence appended (so at index `s`) in the first
and the third case; every other index is rejected with one error frame. -/
theorem write_open_sentence_rule (env : IOEnv) (st : SSState) (filename n_str user content : Str)
    (doc : FileContent) (hs : 0 ≤ atoi n_str)
    (hlock : (global_try_lock_sentence st.locks (filename.take (MAX_FILENAME_LENGTH - 1))
      (atoi n_str) (user.take (MAX_USERNAME_LENGTH - 1))).1 ≠ 0)
    (hfile : st.disk.data (filename.take (MAX_FILENAME_LENGTH - 1)) = some content)
    (hdoc : doc = parse_file_content (filename.take (MAX_FILENAME_LENGTH - 1))
      (content.take (LARGE_BUFFER_SIZE - 1))) :
    (sentence_index_admitted doc (atoi n_str) = true →
      ∃ st' sess replies,
        write_open env st filename n_str user = .active st' sess replies ∧
        sess.current_sentence = atoi n_str ∧
        sess.file_buffer.head =
          (if atoi n_str = (doc.head.length : Int) then doc.head ++ [empty_sentence]
           else doc.head) ∧
        sess.file_buffer.sentence_count = (sess.file_buffer.head.length : Int)) ∧
    (sentence_index_admitted doc (atoi n_str) = false →
      ∃ st' r, write_open env st filename n_str user = .rejected st' [r] ∧
        is_error_frame r = true) := by
  obtain ⟨h1, h2⟩ := write_open_validation env st filename n_str user content hs hlock hfile
  rw [← hdoc] at h1 h2
  constructor
  · intro h
    apply h1
    simpa [sentence_index_admitted, or_assoc, and_assoc] using h
  · intro h
    apply h2
    intro hc
    have : sentence_index_admitted doc (atoi n_str) = true := by
      simpa [sentence_index_admitted, or_assoc, and_assoc] using hc
    rw [h] at this
    cases this

/-- Witness of C17 (as amended): on `notes.txt` with the one sentence `Hello world.`, alice's
`WRITE` on sentence 1 is accepted and an empty sentence 1 is appended; on
sentence 2 it is rejected. -/
theorem write_open_sentence_rule_witness :
    sentence_index_admitted (parse_file_content "notes.txt".toList "Hello world.".toList) 1
      = true ∧
    sentence_index_admitted (parse_file_content "notes.txt".toList "Hello world.".toList) 2
      = false ∧
    (∃ st' sess replies,
      write_open io_ok notes_state "notes.txt".toList "1".toList "alice".toList =
        .active st' sess replies ∧
      sess.current_sentence = atoi "1".toList ∧
      sess.file_buffer.head =
        (if atoi "1".toList =
            ((parse_file_content "notes.txt".toList "Hello world.".toList).head.length : Int)
         then (parse_file_content "notes.txt".toList "Hello world.".toList).head ++
           [empty_sentence]
         else (parse_file_content "notes.txt".toList "Hello world.".toList).head) ∧
      sess.file_buffer.sentence_count = (sess.file_buffer.head.length : Int)) ∧
    (write_open io_ok notes_state "notes.txt".toList "2".toList "alice".toList).replies =
      ["ERROR|Sentence 2 does not exist. File has 1 sentence(s). \n".toList] :=
  ⟨by decide, by decide,
    (write_open_sentence_rule io_ok notes_state "notes.txt".toList "1".toList "alice".toList
      "Hello world.".toList _ (by decide) (by decide) (by decide) rfl).1 (by decide),
    by decide⟩

/-! ## Storage-node failure -/

theorem session_unlink_sublist (d : Int) (l l' : List SSSession)
    (h : session_unlink d l = some l') : l'.Sublist l := by
  induction l generalizing l' with
  | nil => simp [session_unlink] at h
  | cons x xs ih =>
    simp only [session_unlink] at h
    by_cases hx : x.ss_id = d
    · rw [if_pos hx, Option.some.injEq] at h
      subst h
      exact List.sublist_cons_self x xs
    · rw [if_neg hx] at h
      cases hr : session_unlink d xs with
      | none => rw [hr] at h; cases h
      | some r =>
        rw [hr] at h
        simp only [Option.some.injEq] at h
        subst h
        exact (ih r hr).cons₂ x

/-- Identifiers in a reachable membership chain are below the counter and
pairwise different. -/
theorem membership_reachable_nodup (l : List SSSession) (next : Int)
    (h : MembershipReachable l next) :
    (∀ s ∈ l, s.ss_id < next) ∧ (l.map (fun s => s.ss_id)).Nodup := by
  induction h with
  | init => simp
  | register chain next ip p1 p2 _ ih =>
    obtain ⟨i1, i2⟩ := ih
    constructor
    · intro s hs
      rcases List.mem_cons.1 hs with rfl | hs
      · simp [create_ss_session]
      · have := i1 s hs; omega
    · rw [List.map_cons, List.nodup_cons]
      refine ⟨?_, i2⟩
      intro hmem
      obtain ⟨s, hs, hid⟩ := List.mem_map.1 hmem
      have := i1 s hs
      simp only [create_ss_session] at hid
      omega
  | remove chain chain' next d _ hun ih =>
    obtain ⟨i1, i2⟩ := ih
    have hsub := session_unlink_sublist d chain chain' hun
    exact ⟨fun s hs => i1 s (hsub.subset hs), (hsub.map _).nodup i2⟩

/-- With pairwise different identifiers, `remove_ss_session` removes exactly the
sessions with the identifier. -/
theorem session_unlink_filter (d : Int) (l : List SSSession)
    (hnd : (l.map (fun s => s.ss_id)).Nodup) :
    (match session_unlink d l with
      | some l' => l'
      | none => l) = l.filter (fun s => decide (s.ss_id ≠ d)) := by
  induction l with
  | nil => simp [session_unlink]
  | cons x xs ih =>
    rw [List.map_cons, List.nodup_cons] at hnd
    simp only [session_unlink]
    by_cases hx : x.ss_id = d
    · rw [if_pos hx]
      have hall : ∀ s ∈ xs, s.ss_id ≠ d := by
        intro s hs hsd
        exact hnd.1 (List.mem_map.2 ⟨s, hs, by rw [hsd, hx]⟩)
      simp only [List.filter_cons, hx, ne_eq, not_true_eq_false, decide_False,
        Bool.false_eq_true, if_false]
      symm
      rw [List.filter_eq_self]
      intro s hs
      simpa using hall s hs
    · rw [if_neg hx]
      have := ih hnd.2
      cases hr : session_unlink d xs with
      | none =>
        rw [hr] at this
        simp only at this ⊢
        rw [List.filter_cons]
        simp only [ne_eq, hx, not_false_eq_true, decide_True, if_true]
        rw [← this]
      | some r =>
        rw [hr] at this
        simp only at this ⊢
        rw [List.filter_cons]
        simp only [ne_eq, hx, not_false_eq_true, decide_True, if_true]
        rw [← this]

theorem find_filter_primary (l : List FileMapping) (f : Str) (d : Int)
    (h : (match l.find? (fun m => decide (m.filename = f)) with
      | some m => m.primary_ss_id
      | none => -1) ≠ d) :
    (l.filter (fun m => decide (m.primary_ss_id ≠ d))).find? (fun m => decide (m.filename = f)) =
      l.find? (fun m => decide (m.filename = f)) := by
  induction l with
  | nil => rfl
  | cons x xs ih =>
    by_cases hx : x.filename = f
    · have hfind : (x :: xs).find? (fun m => decide (m.filename = f)) = some x := by
        simp [List.find?, hx]
      rw [hfind] at h ⊢
      simp only at h
      rw [List.filter_cons]
      simp [h, hx]
    · have hfind : (x :: xs).find? (fun m => decide (m.filename = f)) =
          xs.find? (fun m => decide (m.filename = f)) := by
        simp [List.find?, hx]
      rw [hfind] at h ⊢
      rw [List.filter_cons]
      split_ifs
      · rw [List.find?_cons]
        simp only [hx, decide_False]
        exact ih h
      · exact ih h

theorem hash_filename_lt (f : Str) : hash_filename f < HASH_TABLE_SIZE := by
  unfold hash_filename
  exact Nat.mod_lt _ (by decide)

/-- C18. After `handle_ss_failure(d)` on a name node whose membership chain was
built by registrations and removals, no routing entry has primary `d` and no
membership record has identifier `d`; every bucket keeps its other entries, in
order, and so does the membership chain; the primary found for a file whose
primary was not `d` is the same as before. -/
theorem ss_failure_drops_node (config : NameServerConfig) (next_ss_id d : Int)
    (hreach : MembershipReachable config.ss_sessions next_ss_id) :
    (∀ i, i < HASH_TABLE_SIZE →
      ∀ m ∈ (handle_ss_failure config d).file_table i, m.primary_ss_id ≠ d) ∧
    (∀ s ∈ (handle_ss_failure config d).ss_sessions, s.ss_id ≠ d) ∧
    (∀ i, i < HASH_TABLE_SIZE →
      (handle_ss_failure config d).file_table i =
        (config.file_table i).filter (fun m => decide (m.primary_ss_id ≠ d))) ∧
    (handle_ss_failure config d).ss_sessions =
      config.ss_sessions.filter (fun s => decide (s.ss_id ≠ d)) ∧
    (∀ f, get_file_primary_ss config.file_table f ≠ d →
      get_file_primary_ss (handle_ss_failure config d).file_table f =
        get_file_primary_ss config.file_table f) := by
  have hnd := (membership_reachable_nodup _ _ hreach).2
  have hfil := session_unlink_filter d config.ss_sessions hnd
  have htable : ∀ i, (handle_ss_failure config d).file_table i =
      if i < HASH_TABLE_SIZE then
        (config.file_table i).filter (fun m => decide (m.primary_ss_id ≠ d))
      else config.file_table i := by
    intro i
    unfold handle_ss_failure remove_ss_session
    cases session_unlink d config.ss_sessions <;> rfl
  have hsess : (handle_ss_failure config d).ss_sessions =
      config.ss_sessions.filter (fun s => decide (s.ss_id ≠ d)) := by
    rw [← hfil]
    unfold handle_ss_failure remove_ss_session
    cases session_unlink d config.ss_sessions <;> rfl
  refine ⟨?_, ?_, ?_, hsess, ?_⟩
  · intro i hi m hm
    rw [htable i, if_pos hi] at hm
    simpa using (List.mem_filter.1 hm).2
  · intro s hs
    rw [hsess] at hs
    simpa using (List.mem_filter.1 hs).2
  · intro i hi
    rw [htable i, if_pos hi]
  · intro f hf
    unfold get_file_primary_ss at hf ⊢
    rw [htable (hash_filename f), if_pos (hash_filename_lt f), find_filter_primary _ f d hf]

/-- The membership chain of `three_node_config` comes from three registrations. -/
theorem three_node_reachable : MembershipReachable three_node_config.ss_sessions 3 :=
  MembershipReachable.register _ 2 "10.0.0.3".toList 8080 9003
    (MembershipReachable.register _ 1 "10.0.0.2".toList 8080 9002
      (MembershipReachable.register _ 0 "10.0.0.1".toList 8080 9001 MembershipReachable.init))

/-- Witness of C18: node 1 of three fails; `b.txt` is no longer routed, `a.txt`
and `c.txt` keep their primaries, and the chain holds nodes 2 and 0. -/
theorem ss_failure_drops_node_witness :
    MembershipReachable three_node_config.ss_sessions 3 ∧
    (∀ s ∈ (handle_ss_failure three_node_config 1).ss_sessions, s.ss_id ≠ 1) ∧
    (handle_ss_failure three_node_config 1).ss_sessions.map (fun s => s.ss_id) = [2, 0] ∧
    get_file_primary_ss (handle_ss_failure three_node_config 1).file_table "a.txt".toList = 0 ∧
    get_file_primary_ss (handle_ss_failure three_node_config 1).file_table "b.txt".toList = -1 ∧
    get_file_primary_ss (handle_ss_failure three_node_config 1).file_table "c.txt".toList = 2 :=
  ⟨three_node_reachable,
    (ss_failure_drops_node three_node_config 3 1 three_node_reachable).2.1,
    by decide, by decide, by decide, by decide⟩

/-! ## Round-robin placement -/

/-- One round over the array of live nodes, started anywhere, is a rotation of
the array. -/
theorem round_block (A : List Int) (a : Nat) :
    (List.range A.length).map (fun j => A.getD ((a + j) % A.length) (-1)) = A.rotate a := by
  apply List.ext_getElem
  · simp
  · intro j h1 h2
    have hj : j < A.length := by simpa using h1
    have hlt : (a + j) % A.length < A.length := Nat.mod_lt _ (by omega)
    rw [List.getElem_map, List.getElem_range, List.getD_eq_getElem _ _ hlt,
      List.getElem_rotate]
    congr 1
    rw [Nat.add_comm]

/-- In `k * n` consecutive picks every member of a duplicate-free array of `k`
nodes is picked `n` times. -/
theorem round_count (A : List Int) (a n : Nat) (hnd : A.Nodup) (x : Int) (hx : x ∈ A) :
    ((List.range (A.length * n)).map
      (fun j => A.getD ((a + j) % A.length) (-1))).count x = n := by
  induction n with
  | zero => simp
  | succ n ih =>
    have hblock : (List.map (fun x => A.length * n + x) (List.range A.length)).map
        (fun j => A.getD ((a + j) % A.length) (-1)) =
        (List.range A.length).map (fun j => A.getD ((a + j) % A.length) (-1)) := by
      rw [List.map_map]
      apply List.map_congr_left
      intro j _
      simp only [Function.comp]
      congr 1
      rw [show a + (A.length * n + j) = a + j + A.length * n by ring, Nat.add_mul_mod_self_left]
    rw [Nat.mul_succ, List.range_add, List.map_append, List.count_append, ih, hblock,
      round_block, (List.rotate_perm A a).count_eq, List.count_eq_one_of_mem hnd hx]

/-- One call of `find_available_ss` with live nodes and a cursor of at least -1. -/
theorem find_available_ss_step (config : NameServerConfig) (hcount : config.ss_session_count ≠ 0)
    (hk : 0 < (active_ss config).length) (hcur : -1 ≤ config.last_assigned_ss) :
    (find_available_ss config).1 =
      (active_ss config).getD
        ((config.last_assigned_ss + 1).toNat % (active_ss config).length) (-1) ∧
    (find_available_ss config).2 =
      { config with last_assigned_ss :=
          (((config.last_assigned_ss + 1).toNat % (active_ss config).length : Nat) : Int) } := by
  have hmod : (config.last_assigned_ss + 1) % ((active_ss config).length : Int) =
      (((config.last_assigned_ss + 1).toNat % (active_ss config).length : Nat) : Int) := by
    rw [Int.ofNat_emod, Int.toNat_of_nonneg (by omega)]
  unfold find_available_ss
  rw [if_neg hcount]
  simp only
  rw [if_neg (by omega), hmod, Int.toNat_ofNat]
  exact ⟨rfl, rfl⟩

/-- The identifiers that `m` consecutive calls return, and the membership they
leave as it was. -/
theorem find_available_ss_run_eq (m : Nat) (config : NameServerConfig)
    (hcount : config.ss_session_count ≠ 0) (hk : 0 < (active_ss config).length)
    (hcur : -1 ≤ config.last_assigned_ss) :
    (find_available_ss_run m config).1 =
      (List.range m).map (fun j => (active_ss config).getD
        (((config.last_assigned_ss + 1).toNat + j) % (active_ss config).length) (-1)) ∧
    (find_available_ss_run m config).2.ss_sessions = config.ss_sessions := by
  induction m generalizing config with
  | zero => exact ⟨rfl, rfl⟩
  | succ m ih =>
    obtain ⟨s1, s2⟩ := find_available_ss_step config hcount hk hcur
    have hrun : find_available_ss_run (m + 1) config =
        ((find_available_ss config).1 ::
            (find_available_ss_run m (find_available_ss config).2).1,
          (find_available_ss_run m (find_available_ss config).2).2) := rfl
    rw [hrun, s1, s2]
    obtain ⟨i1, i2⟩ := ih
      { config with last_assigned_ss :=
          (((config.last_assigned_ss + 1).toNat % (active_ss config).length : Nat) : Int) }
      hcount hk (by simp only; omega)
    refine ⟨?_, i2⟩
    simp only
    rw [i1, List.range_succ_eq_map, List.map_cons, List.map_map]
    congr 1
    apply List.map_congr_left
    intro j _
    simp only [Function.comp, Nat.succ_eq_add_one]
    have hnat : ((((config.last_assigned_ss + 1).toNat % (active_ss config).length : Nat) : Int)
        + 1).toNat = (config.last_assigned_ss + 1).toNat % (active_ss config).length + 1 := by
      omega
    have key : ((config.last_assigned_ss + 1).toNat % (active_ss config).length + 1 + j) %
        (active_ss config).length =
        ((config.last_assigned_ss + 1).toNat + (j + 1)) % (active_ss config).length := by
      rw [Nat.add_assoc, Nat.mod_add_mod, Nat.add_comm 1 j]
    show (active_ss config).getD (((((((config.last_assigned_ss + 1).toNat %
        (active_ss config).length : Nat) : Int) + 1).toNat + j) % (active_ss config).length))
        (-1) = _
    rw [hnat, key]

/-- C19. With a fixed membership of `k >= 1` live storage nodes with pairwise
different identifiers, at most `MAX_STORAGE_SERVERS` of them, and the cursor at
any value it can hold (the initial -1 or an array index), `k * n` consecutive
calls of `find_available_ss` return the identifier of every live node exactly
`n` times, and the membership is as before. -/
theorem round_robin_is_fair (config : NameServerConfig) (n : Nat)
    (hcount : config.ss_session_count ≠ 0)
    (hk : 1 ≤ (config.ss_sessions.filter (fun s => s.is_active)).length)
    (hlimit : (config.ss_sessions.filter (fun s => s.is_active)).length ≤ MAX_STORAGE_SERVERS)
    (hnd : ((config.ss_sessions.filter (fun s => s.is_active)).map (fun s => s.ss_id)).Nodup)
    (hcur : -1 ≤ config.last_assigned_ss) :
    (∀ s ∈ config.ss_sessions, s.is_active = true →
      (find_available_ss_run
        ((config.ss_sessions.filter (fun s => s.is_active)).length * n) config).1.count s.ss_id
        = n) ∧
    (find_available_ss_run
      ((config.ss_sessions.filter (fun s => s.is_active)).length * n) config).2.ss_sessions =
      config.ss_sessions := by
  have hact : active_ss config =
      (config.ss_sessions.filter (fun s => s.is_active)).map (fun s => s.ss_id) := by
    unfold active_ss
    exact List.take_of_length_le (by simpa using hlimit)
  have hlen : (active_ss config).length =
      (config.ss_sessions.filter (fun s => s.is_active)).length := by
    rw [hact, List.length_map]
  obtain ⟨r1, r2⟩ := find_available_ss_run_eq
    ((config.ss_sessions.filter (fun s => s.is_active)).length * n) config hcount
    (by omega) hcur
  refine ⟨?_, r2⟩
  intro s hs hactive
  rw [r1, ← hlen]
  exact round_count (active_ss config) _ n (hact ▸ hnd) s.ss_id
    (by rw [hact]; exact List.mem_map.2 ⟨s, List.mem_filter.2 ⟨hs, hactive⟩, rfl⟩)

/-- Witness of C19: three live nodes, six calls from the initial cursor: every
node is returned twice. -/
theorem round_robin_is_fair_witness :
    three_node_config.ss_session_count ≠ 0 ∧
    (three_node_config.ss_sessions.filter (fun s => s.is_active)).length = 3 ∧
    (find_available_ss_run 6 three_node_config).1 = [2, 1, 0, 2, 1, 0] ∧
    (∀ s ∈ three_node_config.ss_sessions, s.is_active = true →
      (find_available_ss_run
        ((three_node_config.ss_sessions.filter (fun s => s.is_active)).length * 2)
        three_node_config).1.count s.ss_id = 2) :=
  ⟨by decide, by decide, by decide,
    (round_robin_is_fair three_node_config 2 (by decide) (by decide) (by decide) (by decide)
      (by decide)).1⟩

/-! ## `revoke_access` -/

/-- The user loop of `revoke_access` on a list without duplicate names. -/
theorem revoke_users_spec (u : Str) (l : List (Str × Int))
    (hnd : (l.map (fun p => p.1)).Nodup) :
    ((revoke_users u l).1 = ERR_SUCCESS ↔ ∃ p ∈ l, p.1 = u ∧ p.2 ≠ ACCESS_OWNER) ∧
    ((revoke_users u l).1 = ERR_SUCCESS →
      (revoke_users u l).2 = l.filter (fun p => decide (p.1 ≠ u))) ∧
    ((revoke_users u l).1 ≠ ERR_SUCCESS → (revoke_users u l).2 = l) ∧
    ((u, ACCESS_OWNER) ∈ l → (revoke_users u l).1 = ERR_PERMISSION_DENIED) ∧
    ((∀ p ∈ l, p.1 ≠ u) → (revoke_users u l).1 = ERR_USER_NOT_FOUND) := by
  have e1 : ERR_USER_NOT_FOUND ≠ ERR_SUCCESS := by decide
  have e2 : ERR_PERMISSION_DENIED ≠ ERR_SUCCESS := by decide
  induction l with
  | nil =>
    have hr : revoke_users u [] = (ERR_USER_NOT_FOUND, []) := rfl
    rw [hr]
    refine ⟨⟨fun h => absurd h e1, ?_⟩, fun h => absurd h e1, fun _ => rfl, ?_, fun _ => rfl⟩
    · rintro ⟨p, hp, _⟩
      cases hp
    · intro h
      cases h
  | cons x xs ih =>
    rw [List.map_cons, List.nodup_cons] at hnd
    obtain ⟨i1, i2, i3, i4, i5⟩ := ih hnd.2
    by_cases hx : x.1 = u
    · have hrest : ∀ p ∈ xs, p.1 ≠ u := by
        intro p hp hpu
        exact hnd.1 (List.mem_map.2 ⟨p, hp, by rw [hpu, hx]⟩)
      have hfil : xs.filter (fun p => decide (p.1 ≠ u)) = xs := by
        rw [List.filter_eq_self]
        intro p hp
        simpa using hrest p hp
      by_cases ho : x.2 = ACCESS_OWNER
      · have hr : revoke_users u (x :: xs) = (ERR_PERMISSION_DENIED, x :: xs) := by
          simp [revoke_users, hx, ho]
        rw [hr]
        refine ⟨⟨fun h => absurd h e2, ?_⟩, fun h => absurd h e2,
          fun _ => rfl, fun _ => rfl, ?_⟩
        · rintro ⟨p, hp, hpu, hpo⟩
          rcases List.mem_cons.1 hp with rfl | hp
          · exact absurd ho hpo
          · exact absurd hpu (hrest p hp)
        · intro h
          exact absurd hx (h x (List.mem_cons_self _ _))
      · have hr : revoke_users u (x :: xs) = (ERR_SUCCESS, xs) := by
          simp [revoke_users, hx, ho]
        rw [hr]
        refine ⟨⟨fun _ => ⟨x, List.mem_cons_self _ _, hx, ho⟩, fun _ => rfl⟩, ?_,
          fun h => absurd rfl h, ?_, ?_⟩
        · intro _
          show xs = _
          rw [List.filter_cons_of_neg (by simp [hx]), hfil]
        · intro h
          rcases List.mem_cons.1 h with h | h
          · rw [← h] at ho
            exact absurd rfl ho
          · exact absurd rfl (hrest _ h)
        · intro h
          exact absurd hx (h x (List.mem_cons_self _ _))
    · have hr : revoke_users u (x :: xs) = ((revoke_users u xs).1, x :: (revoke_users u xs).2) := by
        simp [revoke_users, hx]
      rw [hr]
      refine ⟨⟨?_, ?_⟩, ?_, ?_, ?_, ?_⟩
      · intro h
        obtain ⟨p, hp, h2⟩ := i1.1 h
        exact ⟨p, List.mem_cons_of_mem _ hp, h2⟩
      · rintro ⟨p, hp, hpu, hpo⟩
        rcases List.mem_cons.1 hp with rfl | hp
        · exact absurd hpu hx
        · exact i1.2 ⟨p, hp, hpu, hpo⟩
      · intro h
        rw [List.filter_cons]
        simp only [ne_eq, hx, not_false_eq_true, decide_True, if_true]
        rw [i2 h]
      · intro h
        simp only at h ⊢
        rw [i3 h]
      · intro h
        rcases List.mem_cons.1 h with h | h
        · rw [← h] at hx
          exact absurd rfl hx
        · exact i4 h
      · intro h
        exact i5 (fun p hp => h p (List.mem_cons_of_mem _ hp))

/-- The table walk of `revoke_access` on a well-formed table. -/
theorem revoke_access_spec (t : AccessControlManager) (hwf : ACLWellFormed t)
    (f u : Str) :
    ((revoke_access t f u).1 = ERR_SUCCESS ↔
      ∃ a ∈ t, a.filename = f ∧ ∃ p ∈ a.users, p.1 = u ∧ p.2 ≠ ACCESS_OWNER) ∧
    ((revoke_access t f u).1 = ERR_SUCCESS →
      (revoke_access t f u).2 = t.map (fun a =>
        if a.filename = f then { a with users := a.users.filter (fun p => decide (p.1 ≠ u)) }
        else a)) ∧
    ((revoke_access t f u).1 ≠ ERR_SUCCESS → (revoke_access t f u).2 = t) ∧
    ((∃ a ∈ t, a.filename = f ∧ (u, ACCESS_OWNER) ∈ a.users) →
      (revoke_access t f u).1 = ERR_PERMISSION_DENIED) ∧
    ((∃ a ∈ t, a.filename = f ∧ ∀ p ∈ a.users, p.1 ≠ u) →
      (revoke_access t f u).1 = ERR_USER_NOT_FOUND) ∧
    ((∀ a ∈ t, a.filename ≠ f) → (revoke_access t f u).1 = ERR_FILE_NOT_FOUND) := by
  have e0 : ERR_FILE_NOT_FOUND ≠ ERR_SUCCESS := by decide
  obtain ⟨hfiles, husers⟩ := hwf
  induction t with
  | nil =>
    have hr : revoke_access [] f u = (ERR_FILE_NOT_FOUND, []) := rfl
    rw [hr]
    refine ⟨⟨fun h => absurd h e0, ?_⟩, fun h => absurd h e0, fun _ => rfl, ?_, ?_, fun _ => rfl⟩
    · rintro ⟨a, ha, _⟩; cases ha
    · rintro ⟨a, ha, _⟩; cases ha
    · rintro ⟨a, ha, _⟩; cases ha
  | cons a rest ih =>
    rw [List.map_cons, List.nodup_cons] at hfiles
    obtain ⟨i1, i2, i3, i4, i5, i6⟩ := ih hfiles.2 (fun b hb => husers b (List.mem_cons_of_mem _ hb))
    by_cases ha : a.filename = f
    · have hrest : ∀ b ∈ rest, b.filename ≠ f := by
        intro b hb hbf
        exact hfiles.1 (List.mem_map.2 ⟨b, hb, by rw [hbf, ha]⟩)
      have honly : ∀ b ∈ a :: rest, b.filename = f → b = a := by
        intro b hb hbf
        rcases List.mem_cons.1 hb with h | h
        · exact h
        · exact absurd hbf (hrest b h)
      have hmap : rest.map (fun a =>
          if a.filename = f then { a with users := a.users.filter (fun p => decide (p.1 ≠ u)) }
          else a) = rest := by
        conv_rhs => rw [← List.map_id rest]
        apply List.map_congr_left
        intro b hb
        simp [hrest b hb]
      have hr : revoke_access (a :: rest) f u =
          ((revoke_users u a.users).1, { a with users := (revoke_users u a.users).2 } :: rest) := by
        simp [revoke_access, ha]
      obtain ⟨u1, u2, u3, u4, u5⟩ := revoke_users_spec u a.users (husers a (List.mem_cons_self _ _))
      rw [hr]
      refine ⟨⟨?_, ?_⟩, ?_, ?_, ?_, ?_, ?_⟩
      · intro h
        exact ⟨a, List.mem_cons_self _ _, ha, u1.1 h⟩
      · rintro ⟨b, hb, hbf, hp⟩
        rw [honly b hb hbf] at hp
        exact u1.2 hp
      · intro h
        simp only at h ⊢
        rw [List.map_cons, hmap, if_pos ha, u2 h]
      · intro h
        simp only at h ⊢
        rw [u3 h]
      · rintro ⟨b, hb, hbf, hp⟩
        rw [honly b hb hbf] at hp
        exact u4 hp
      · rintro ⟨b, hb, hbf, hp⟩
        rw [honly b hb hbf] at hp
        exact u5 hp
      · intro h
        exact absurd ha (h a (List.mem_cons_self _ _))
    · have hr : revoke_access (a :: rest) f u =
          ((revoke_access rest f u).1, a :: (revoke_access rest f u).2) := by
        simp [revoke_access, ha]
      rw [hr]
      refine ⟨⟨?_, ?_⟩, ?_, ?_, ?_, ?_, ?_⟩
      · intro h
        obtain ⟨b, hb, h2⟩ := i1.1 h
        exact ⟨b, List.mem_cons_of_mem _ hb, h2⟩
      · rintro ⟨b, hb, hbf, hp⟩
        rcases List.mem_cons.1 hb with h | h
        · rw [h] at hbf; exact absurd hbf ha
        · exact i1.2 ⟨b, h, hbf, hp⟩
      · intro h
        simp only at h ⊢
        rw [List.map_cons, if_neg ha, i2 h]
      · intro h
        simp only at h ⊢
        rw [i3 h]
      · rintro ⟨b, hb, hbf, hp⟩
        rcases List.mem_cons.1 hb with h | h
        · rw [h] at hbf; exact absurd hbf ha
        · exact i4 ⟨b, h, hbf, hp⟩
      · rintro ⟨b, hb, hbf, hp⟩
        rcases List.mem_cons.1 hb with h | h
        · rw [h] at hbf; exact absurd hbf ha
        · exact i5 ⟨b, h, hbf, hp⟩
      · intro h
        exact i6 (fun b hb => h b (List.mem_cons_of_mem _ hb))

/-- On a well-formed ACL table (one entry per file, no user listed twice),
`revoke_access(file, user)` succeeds exactly when the user is listed on the
file's entry at a level other than owner; it then removes that listing and
nothing else, the other users and their levels staying in order.  In every
other case it returns an error and the table is unchanged: permission denied
when the user is listed at level owner (so for the owner of an entry that lists
its owner at level owner), user not found when the user is not listed, file
not found when the file has no entry. -/
theorem revoke_access_removes_non_owner (t : AccessControlManager) (hwf : ACLWellFormed t)
    (f u : Str) :
    ((revoke_access t f u).1 = ERR_SUCCESS ↔
      ∃ a ∈ t, a.filename = f ∧ ∃ p ∈ a.users, p.1 = u ∧ p.2 ≠ ACCESS_OWNER) ∧
    ((revoke_access t f u).1 = ERR_SUCCESS →
      (revoke_access t f u).2 = t.map (fun a =>
        if a.filename = f then { a with users := a.users.filter (fun p => decide (p.1 ≠ u)) }
        else a)) ∧
    ((revoke_access t f u).1 ≠ ERR_SUCCESS → (revoke_access t f u).2 = t) ∧
    ((∃ a ∈ t, a.filename = f ∧ (u, ACCESS_OWNER) ∈ a.users) →
      (revoke_access t f u).1 = ERR_PERMISSION_DENIED) ∧
    ((∃ a ∈ t, a.filename = f ∧ a.owner = u ∧ OwnerListedOnce a) →
      (revoke_access t f u).1 = ERR_PERMISSION_DENIED) ∧
    ((∃ a ∈ t, a.filename = f ∧ ∀ p ∈ a.users, p.1 ≠ u) →
      (revoke_access t f u).1 = ERR_USER_NOT_FOUND) ∧
    ((∀ a ∈ t, a.filename ≠ f) → (revoke_access t f u).1 = ERR_FILE_NOT_FOUND) := by
  obtain ⟨h1, h2, h3, h4, h5, h6⟩ := revoke_access_spec t hwf f u
  refine ⟨h1, h2, h3, h4, ?_, h5, h6⟩
  rintro ⟨a, ha, hf, ho, hlist⟩
  refine h4 ⟨a, ha, hf, ?_⟩
  have hmem : (a.owner, ACCESS_OWNER) ∈ a.users.filter (fun p => decide (p.1 = a.owner)) := by
    rw [hlist.1]
    exact List.mem_singleton.2 rfl
  rw [← ho]
  exact (List.mem_filter.1 hmem).1

/-- The rule of `revoke_access` on the table where alice owns `notes.txt` and bob reads it,
revoking bob succeeds and leaves alice alone; revoking alice is denied and
revoking carol finds no user, both leaving the table unchanged. -/
theorem revoke_access_removes_non_owner_witness :
    ACLWellFormed acl_alice_bob ∧
    (revoke_access acl_alice_bob "notes.txt".toList "bob".toList).1 = ERR_SUCCESS ∧
    (revoke_access acl_alice_bob "notes.txt".toList "bob".toList).2 = acl_alice ∧
    (revoke_access acl_alice_bob "notes.txt".toList "alice".toList) =
      (ERR_PERMISSION_DENIED, acl_alice_bob) ∧
    (revoke_access acl_alice_bob "notes.txt".toList "carol".toList) =
      (ERR_USER_NOT_FOUND, acl_alice_bob) :=
  ⟨acl_alice_bob_well_formed,
    (revoke_access_removes_non_owner acl_alice_bob acl_alice_bob_well_formed
      "notes.txt".toList "bob".toList).1.2
      ⟨_, List.mem_cons_self _ _, rfl, ("bob".toList, ACCESS_READ), by decide, rfl, by decide⟩,
    by decide, by decide, by decide⟩

/-! ## `add_file_access` and `grant_access` called again -/

/-- C21 (as amended). `add_file_access` on a file that already has an ACL entry
is rejected whatever the given owner, identical to the recorded one or not:
the call returns an error (`ERR_FILE_ALREADY_EXISTS` below the capacity, the
capacity error at the capacity) and leaves the table unchanged.  So after a
successful `add_file_access(file, owner)` with a name within the length limit,
a second one, with the same or another owner, is rejected and the table is the
one of adding once. -/
theorem add_file_access_rejects_existing (t : AccessControlManager) (f o : Str) :
    ((∃ a ∈ t, a.filename = f) →
      (add_file_access t f o).1 ≠ ERR_SUCCESS ∧
      (t.length < MAX_FILES_PER_SS * MAX_STORAGE_SERVERS →
        (add_file_access t f o).1 = ERR_FILE_ALREADY_EXISTS) ∧
      (add_file_access t f o).2 = t) ∧
    (f.length < MAX_FILENAME_LENGTH → (add_file_access t f o).1 = ERR_SUCCESS →
      ∀ o2, (add_file_access (add_file_access t f o).2 f o2).1 ≠ ERR_SUCCESS ∧
        (add_file_access (add_file_access t f o).2 f o2).2 = (add_file_access t f o).2) := by
  have e1 : ERR_MAX_FILES_REACHED ≠ ERR_SUCCESS := by decide
  have e2 : ERR_FILE_ALREADY_EXISTS ≠ ERR_SUCCESS := by decide
  have key : ∀ (t : AccessControlManager) (o : Str), (∃ a ∈ t, a.filename = f) →
      (add_file_access t f o).1 ≠ ERR_SUCCESS ∧
      (t.length < MAX_FILES_PER_SS * MAX_STORAGE_SERVERS →
        (add_file_access t f o).1 = ERR_FILE_ALREADY_EXISTS) ∧
      (add_file_access t f o).2 = t := by
    intro t o hex
    have hany : t.any (fun a => decide (a.filename = f)) = true := by
      obtain ⟨a, ha, hf⟩ := hex
      exact List.any_eq_true.2 ⟨a, ha, by simpa using hf⟩
    unfold add_file_access
    by_cases hcap : t.length ≥ MAX_FILES_PER_SS * MAX_STORAGE_SERVERS
    · rw [if_pos hcap]
      exact ⟨e1, fun h => absurd hcap (by omega), rfl⟩
    · rw [if_neg hcap, if_pos hany]
      exact ⟨e2, fun _ => rfl, rfl⟩
  refine ⟨key t o, ?_⟩
  intro hlen hok o2
  have hin : ∃ a ∈ (add_file_access t f o).2, a.filename = f := by
    unfold add_file_access at hok ⊢
    by_cases hcap : t.length ≥ MAX_FILES_PER_SS * MAX_STORAGE_SERVERS
    · rw [if_pos hcap] at hok
      exact absurd hok e1
    · rw [if_neg hcap] at hok ⊢
      by_cases hany : t.any (fun a => decide (a.filename = f)) = true
      · rw [if_pos hany] at hok
        exact absurd hok e2
      · rw [if_neg hany]
        exact ⟨_, List.mem_append_right _ (List.mem_singleton.2 rfl), take_filename f hlen⟩
  obtain ⟨k1, _, k3⟩ := key _ o2 hin
  exact ⟨k1, k3⟩

/-- Witness of C21 (as amended): alice adds `notes.txt`; adding it again for bob
is rejected and the table stays. -/
theorem add_file_access_rejects_existing_witness :
    "notes.txt".toList.length < MAX_FILENAME_LENGTH ∧
    (add_file_access [] "notes.txt".toList "alice".toList).1 = ERR_SUCCESS ∧
    (add_file_access (add_file_access [] "notes.txt".toList "alice".toList).2
        "notes.txt".toList "bob".toList).1 ≠ ERR_SUCCESS ∧
    (add_file_access (add_file_access [] "notes.txt".toList "alice".toList).2
        "notes.txt".toList "bob".toList).2 =
      (add_file_access [] "notes.txt".toList "alice".toList).2 :=
  ⟨by decide, by decide,
    (add_file_access_rejects_existing [] "notes.txt".toList "alice".toList).2 (by decide)
      (by decide) "bob".toList⟩

/-- C21 as stated fails: on the table where alice owns `notes.txt`,
`add_file_access(notes.txt, alice)`, with the identical owner, does not succeed;
it returns `ERR_FILE_ALREADY_EXISTS` (the table is unchanged). -/
theorem add_file_access_same_owner_rejected :
    acl_alice = [⟨"notes.txt".toList, "alice".toList, [("alice".toList, ACCESS_OWNER)]⟩] ∧
    add_file_access acl_alice "notes.txt".toList "alice".toList =
      (ERR_FILE_ALREADY_EXISTS, acl_alice) ∧
    (add_file_access acl_alice "notes.txt".toList "alice".toList).1 ≠ ERR_SUCCESS := by
  decide

theorem grant_update_again (u : Str) (l : Int) (users users' : List (Str × Int))
    (h : grant_update u l users = some users') : grant_update u l users' = some users' := by
  induction users generalizing users' with
  | nil => simp [grant_update] at h
  | cons p rest ih =>
    simp only [grant_update] at h
    by_cases hp : p.1 = u
    · rw [if_pos hp, Option.some.injEq] at h
      subst h
      simp [grant_update, hp]
    · rw [if_neg hp] at h
      cases hr : grant_update u l rest with
      | none => rw [hr] at h; cases h
      | some r =>
        rw [hr] at h
        simp only [Option.some.injEq] at h
        subst h
        simp [grant_update, hp, ih r hr]

theorem grant_update_appended (u : Str) (l : Int) (users : List (Str × Int))
    (h : grant_update u l users = none) :
    grant_update u l (users ++ [(u, l)]) = some (users ++ [(u, l)]) := by
  induction users with
  | nil => simp [grant_update]
  | cons p rest ih =>
    simp only [grant_update] at h
    by_cases hp : p.1 = u
    · rw [if_pos hp] at h; cases h
    · rw [if_neg hp] at h
      cases hr : grant_update u l rest with
      | some r => rw [hr] at h; cases h
      | none => simp [grant_update, hp, ih hr]

/-- Within the length limit of user names `grant_access` is idempotent: the
second call finds the listing that the first one wrote. -/
theorem grant_access_idempotent_within_limit (t : AccessControlManager) (f u : Str) (l : Int)
    (hu : u.length < MAX_USERNAME_LENGTH) :
    (grant_access (grant_access t f u l).2 f u l).2 = (grant_access t f u l).2 := by
  induction t with
  | nil => rfl
  | cons a rest ih =>
    by_cases ha : a.filename = f
    · have h1 : grant_access (a :: rest) f u l =
          ((grant_in_acl a u l).1, (grant_in_acl a u l).2 :: rest) := by
        simp [grant_access, ha]
      have hname : (grant_in_acl a u l).2.filename = f := by
        unfold grant_in_acl
        split
        · exact ha
        · split_ifs <;> exact ha
      have h2 : grant_access ((grant_in_acl a u l).2 :: rest) f u l =
          ((grant_in_acl (grant_in_acl a u l).2 u l).1,
            (grant_in_acl (grant_in_acl a u l).2 u l).2 :: rest) := by
        simp [grant_access, hname]
      rw [h1]
      simp only
      rw [h2]
      simp only
      congr 1
      unfold grant_in_acl
      cases hg : grant_update u l a.users with
      | some users' =>
        simp only [grant_update_again u l a.users users' hg]
      | none =>
        simp only
        by_cases hfull : a.users.length ≥ MAX_USERS
        · simp only [hfull, if_true, hg]
        · simp only [hfull, if_false, take_username u hu, grant_update_appended u l a.users hg]
    · have h1 : grant_access (a :: rest) f u l =
          ((grant_access rest f u l).1, a :: (grant_access rest f u l).2) := by
        simp [grant_access, ha]
      have h2 : grant_access (a :: (grant_access rest f u l).2) f u l =
          ((grant_access (grant_access rest f u l).2 f u l).1,
            a :: (grant_access (grant_access rest f u l).2 f u l).2) := by
        simp [grant_access, ha]
      rw [h1]
      simp only
      rw [h2]
      simp only
      rw [ih]

/-- C22 (the code departs from the claim). For a user name of 70 bytes `grant_access`
is not idempotent.  On the table where alice owns `notes.txt`, the first
`grant_access(notes.txt, name, ACCESS_READ)` appends the first 63 bytes of the
name at level read; the second call compares the full name with the 63 bytes
kept, finds no listing and appends them again.  Both calls return success, and
the table after two calls lists the same user twice. -/
theorem grant_access_twice_lists_twice :
    long_name = List.replicate 70 'a' ∧
    grant_access acl_alice "notes.txt".toList long_name ACCESS_READ =
      (ERR_SUCCESS,
       [⟨"notes.txt".toList, "alice".toList,
         [("alice".toList, ACCESS_OWNER), (List.replicate 63 'a', ACCESS_READ)]⟩]) ∧
    grant_access (grant_access acl_alice "notes.txt".toList long_name ACCESS_READ).2
        "notes.txt".toList long_name ACCESS_READ =
      (ERR_SUCCESS,
       [⟨"notes.txt".toList, "alice".toList,
         [("alice".toList, ACCESS_OWNER), (List.replicate 63 'a', ACCESS_READ),
          (List.replicate 63 'a', ACCESS_READ)]⟩]) ∧
    (grant_access (grant_access acl_alice "notes.txt".toList long_name ACCESS_READ).2
        "notes.txt".toList long_name ACCESS_READ).2 ≠
      (grant_access acl_alice "notes.txt".toList long_name ACCESS_READ).2 := by
  decide

/-! ## The commit of a `WRITE` session -/

/-- C25 (the code departs from the claim). The reply to `ETIRW` does not depend on the
result of `save_file_content`: it is `SUCCESS|Write complete` in every case.
In the session on sentence 1 of `notes.txt` with the frames `0|Bye now` and
`ETIRW`, run while `fopen` for writing fails, `save_file_content` returns
`ERR_FILE_WRITE_FAILED`, the file keeps `Hello world.`, and the client is
answered `SUCCESS|Write complete`; no error frame is sent. -/
theorem etirw_answers_success_when_save_fails :
    (∀ (env : IOEnv) (st : SSState) (sess : WriteSession),
      (write_commit env st sess).2 = ["SUCCESS|Write complete\n".toList]) ∧
    (save_file_content io_write_fails notes_state.disk
      ⟨"notes.txt".toList,
       [⟨["Hello".toList, "world".toList], 2, '.'⟩, ⟨["Bye".toList, "now".toList], 2, NUL⟩],
       2⟩).1 = ERR_FILE_WRITE_FAILED ∧
    (append_sentence_session io_write_fails).replies =
      ["SUCCESS|Sentence 1 locked for 'alice'. Send word updates (word_index|content), then ETIRW\n".toList,
       "SUCCESS|Word updated\n".toList, "SUCCESS|Write complete\n".toList] ∧
    (∀ r ∈ (append_sentence_session io_write_fails).replies, is_error_frame r = false) ∧
    (append_sentence_session io_write_fails).state.disk.data "notes.txt".toList =
      some "Hello world.".toList ∧
    (append_sentence_session io_ok).state.disk.data "notes.txt".toList =
      some "Hello world.\nBye now".toList :=
  ⟨fun _ _ _ => rfl, by decide, by decide, by decide, by decide, by decide⟩

/-- C30 (the code departs from the claim). The session on sentence 1 of `notes.txt`
(content `Hello world.`) with the frames `0|Bye now` and `ETIRW` commits the
document of the two sentences `Hello world.` and `Bye now`, saved as
`Hello world.` / `Bye now` on two lines (20 bytes, 4 words).  The metadata
record then has size 20, 20 characters and 4 words, and sentence count 1:
`update_file_stats` counts the delimiter characters of the file, and the last
sentence has none. -/
theorem metadata_sentence_count_misses_open_sentence :
    (append_sentence_session io_ok).state.disk.data "notes.txt".toList =
      some "Hello world.\nBye now".toList ∧
    (parse_file_content "notes.txt".toList "Hello world.\nBye now".toList).head =
      [⟨["Hello".toList, "world".toList], 2, '.'⟩, ⟨["Bye".toList, "now".toList], 2, NUL⟩] ∧
    (append_sentence_session io_ok).state.disk.metadata "notes.txt".toList =
      some { filename := "notes.txt".toList, owner := "alice".toList, size := 20,
             word_count := 4, char_count := 20, sentence_count := 1,
             created_time := 100, modified_time := 200, accessed_time := 200 } := by
  decide

/-! ## The routing table as a finite map -/

theorem chain_update_none_iff (f : Str) (id : Int) (l : List FileMapping) :
    chain_update f id l = none ↔ ∀ m ∈ l, m.filename ≠ f := by
  induction l with
  | nil => simp [chain_update]
  | cons x xs ih =>
    simp only [chain_update]
    by_cases hx : x.filename = f
    · simp [hx]
    · rw [if_neg hx]
      cases hr : chain_update f id xs with
      | none =>
        simp only [true_iff]
        intro m hm
        rcases List.mem_cons.1 hm with rfl | hm
        · exact hx
        · exact (ih.1 hr) m hm
      | some r =>
        refine ⟨fun h => Option.noConfusion h, fun hall => ?_⟩
        exfalso
        have := ih.2 (fun m hm => hall m (List.mem_cons_of_mem _ hm))
        rw [hr] at this
        cases this

/-- An update of a chain keeps the names, makes the first node of the name
carry the identifier, and leaves the lookup of every other name alone. -/
theorem chain_update_some (f : Str) (id : Int) (l l' : List FileMapping)
    (h : chain_update f id l = some l') :
    l'.map (fun m => m.filename) = l.map (fun m => m.filename) ∧
    (match l'.find? (fun m => decide (m.filename = f)) with
      | some m => m.primary_ss_id
      | none => -1) = id ∧
    ∀ g, g ≠ f → l'.find? (fun m => decide (m.filename = g)) =
      l.find? (fun m => decide (m.filename = g)) := by
  induction l generalizing l' with
  | nil => simp [chain_update] at h
  | cons x xs ih =>
    simp only [chain_update] at h
    by_cases hx : x.filename = f
    · rw [if_pos hx, Option.some.injEq] at h
      subst h
      refine ⟨rfl, by simp [List.find?, hx], ?_⟩
      intro g hg
      have hxg : ¬ x.filename = g := by rw [hx]; exact fun h => hg h.symm
      simp [List.find?, hxg]
    · rw [if_neg hx] at h
      cases hr : chain_update f id xs with
      | none => rw [hr] at h; cases h
      | some r =>
        rw [hr] at h
        simp only [Option.some.injEq] at h
        subst h
        obtain ⟨i1, i2, i3⟩ := ih r hr
        refine ⟨by simp [i1], by simpa [List.find?, hx] using i2, ?_⟩
        intro g hg
        by_cases hxg : x.filename = g
        · simp [List.find?, hxg]
        · simp only [List.find?, hxg, decide_False]
          exact i3 g hg

theorem chain_remove_none_iff (f : Str) (l : List FileMapping) :
    chain_remove f l = none ↔ ∀ m ∈ l, m.filename ≠ f := by
  induction l with
  | nil => simp [chain_remove]
  | cons x xs ih =>
    simp only [chain_remove]
    by_cases hx : x.filename = f
    · simp [hx]
    · rw [if_neg hx]
      cases hr : chain_remove f xs with
      | none =>
        simp only [true_iff]
        intro m hm
        rcases List.mem_cons.1 hm with rfl | hm
        · exact hx
        · exact (ih.1 hr) m hm
      | some r =>
        refine ⟨fun h => Option.noConfusion h, fun hall => ?_⟩
        exfalso
        have := ih.2 (fun m hm => hall m (List.mem_cons_of_mem _ hm))
        rw [hr] at this
        cases this

/-- Unlinking from a chain without duplicate names removes the name, keeps a
sublist, and leaves the lookup of every other name alone. -/
theorem chain_remove_some (f : Str) (l l' : List FileMapping)
    (hnd : (l.map (fun m => m.filename)).Nodup) (h : chain_remove f l = some l') :
    l'.Sublist l ∧ (∀ m ∈ l', m.filename ≠ f) ∧
    ∀ g, g ≠ f → l'.find? (fun m => decide (m.filename = g)) =
      l.find? (fun m => decide (m.filename = g)) := by
  induction l generalizing l' with
  | nil => simp [chain_remove] at h
  | cons x xs ih =>
    rw [List.map_cons, List.nodup_cons] at hnd
    simp only [chain_remove] at h
    by_cases hx : x.filename = f
    · rw [if_pos hx, Option.some.injEq] at h
      subst h
      refine ⟨List.sublist_cons_self x xs, ?_, ?_⟩
      · intro m hm hmf
        exact hnd.1 (List.mem_map.2 ⟨m, hm, by rw [hmf, hx]⟩)
      · intro g hg
        have hxg : ¬ x.filename = g := by rw [hx]; exact fun h => hg h.symm
        simp [List.find?, hxg]
    · rw [if_neg hx] at h
      cases hr : chain_remove f xs with
      | none => rw [hr] at h; cases h
      | some r =>
        rw [hr] at h
        simp only [Option.some.injEq] at h
        subst h
        obtain ⟨i1, i2, i3⟩ := ih r hnd.2 hr
        refine ⟨i1.cons₂ x, ?_, ?_⟩
        · intro m hm
          rcases List.mem_cons.1 hm with rfl | hm
          · exact hx
          · exact i2 m hm
        · intro g hg
          by_cases hxg : x.filename = g
          · simp [List.find?, hxg]
          · simp only [List.find?, hxg, decide_False]
            exact i3 g hg

/-- Every chain of a reachable table holds names that hash to its bucket, each
name once. -/
theorem table_reachable_chains (t : FileHashTable) (h : TableReachable t) (i : Nat) :
    (∀ n ∈ (t i).map (fun m => m.filename), hash_filename n = i) ∧
    ((t i).map (fun m => m.filename)).Nodup := by
  induction h generalizing i with
  | init => simp [init_hash_table]
  | add table f id _ hf ih =>
    unfold add_file_mapping
    simp only
    cases hu : chain_update f id (table (hash_filename f)) with
    | some chain =>
      simp only
      by_cases hi : i = hash_filename f
      · rw [if_pos hi, (chain_update_some f id _ chain hu).1, ← hi]
        exact ih i
      · rw [if_neg hi]
        exact ih i
    | none =>
      simp only
      by_cases hi : i = hash_filename f
      · rw [if_pos hi, List.map_cons]
        have htake : f.take (MAX_FILENAME_LENGTH - 1) = f :=
          List.take_of_length_le (by omega)
        simp only [htake]
        obtain ⟨i1, i2⟩ := ih (hash_filename f)
        constructor
        · intro n hn
          rcases List.mem_cons.1 hn with rfl | hn
          · exact hi.symm
          · rw [hi]; exact i1 n hn
        · rw [List.nodup_cons]
          refine ⟨?_, i2⟩
          intro hmem
          obtain ⟨m, hm, hmf⟩ := List.mem_map.1 hmem
          exact (chain_update_none_iff f id _).1 hu m hm hmf
      · rw [if_neg hi]
        exact ih i
  | remove table f _ ih =>
    unfold remove_file_mapping
    simp only
    cases hu : chain_remove f (table (hash_filename f)) with
    | some chain =>
      simp only
      by_cases hi : i = hash_filename f
      · rw [if_pos hi]
        obtain ⟨i1, i2⟩ := ih (hash_filename f)
        have hsub := ((chain_remove_some f _ chain i2 hu).1).map (fun m => m.filename)
        exact ⟨fun n hn => by rw [hi]; exact i1 n (hsub.subset hn), hsub.nodup i2⟩
      · rw [if_neg hi]
        exact ih i
    | none => exact ih i

/-- In a reachable table the entries for a name all sit in the name's bucket. -/
theorem entries_for_bucket (t : FileHashTable) (h : TableReachable t) (f : Str) :
    entries_for t f =
      ((t (hash_filename f)).filter (fun m => decide (m.filename = f))).length := by
  have hlt : hash_filename f < HASH_TABLE_SIZE := Nat.mod_lt _ (by decide)
  have hzero : ∀ i, i ≠ hash_filename f →
      ((t i).filter (fun m => decide (m.filename = f))).length = 0 := by
    intro i hi
    rw [List.length_eq_zero, List.filter_eq_nil_iff]
    intro m hm hmf
    have hmf2 : m.filename = f := of_decide_eq_true hmf
    exact hi (by
      rw [← (table_reachable_chains t h i).1 m.filename (List.mem_map.2 ⟨m, hm, rfl⟩), hmf2])
  have hsum : ∀ (n : Nat) (F : Nat → Nat) (k : Nat), k < n → (∀ i, i ≠ k → F i = 0) →
      ((List.range n).map F).sum = F k := by
    intro n F k
    induction n with
    | zero => intro hk; omega
    | succ n ih =>
      intro hk hF
      rw [List.range_succ, List.map_append, List.sum_append]
      simp only [List.map_cons, List.map_nil, List.sum_cons, List.sum_nil, Nat.add_zero]
      by_cases hkn : k = n
      · subst hkn
        have hz : ((List.range k).map F).sum = 0 := by
          rw [List.sum_eq_zero_iff]
          intro x hx
          obtain ⟨i, hi, rfl⟩ := List.mem_map.1 hx
          exact hF i (by have := List.mem_range.1 hi; omega)
        omega
      · rw [ih (by omega) hF, hF n (fun h => hkn h.symm), Nat.add_zero]
  exact hsum HASH_TABLE_SIZE _ (hash_filename f) hlt hzero

/-- In a chain without duplicate names the nodes of one name number one when the
name is present. -/
theorem filter_name_length (l : List FileMapping) (f : Str)
    (hnd : (l.map (fun m => m.filename)).Nodup) :
    (l.filter (fun m => decide (m.filename = f))).length =
      if f ∈ l.map (fun m => m.filename) then 1 else 0 := by
  induction l with
  | nil => simp
  | cons x xs ih =>
    rw [List.map_cons, List.nodup_cons] at hnd
    by_cases hx : x.filename = f
    · have hnot : f ∉ xs.map (fun m => m.filename) := by rw [← hx]; exact hnd.1
      have := ih hnd.2
      rw [if_neg hnot] at this
      simp [List.filter, hx, this]
    · have := ih hnd.2
      have hx2 : ¬ f = x.filename := fun h => hx h.symm
      simp only [List.filter, hx, decide_False, this, List.map_cons, List.mem_cons, hx2,
        false_or]

theorem find_name_none (l : List FileMapping) (f : Str)
    (h : ∀ m ∈ l, m.filename ≠ f) : l.find? (fun m => decide (m.filename = f)) = none := by
  rw [List.find?_eq_none]
  intro m hm
  simpa using h m hm

/-- The lookup after `add_file_mapping`, as a map update. -/
theorem get_after_add (t : FileHashTable) (f : Str) (id : Int)
    (hf : f.length < MAX_FILENAME_LENGTH - 1) (g : Str) :
    get_file_primary_ss (add_file_mapping t f id).2 g =
      map_add (fun n => get_file_primary_ss t n) f id g := by
  unfold map_add
  unfold add_file_mapping get_file_primary_ss
  simp only
  have htake : f.take (MAX_FILENAME_LENGTH - 1) = f := List.take_of_length_le (by omega)
  cases hu : chain_update f id (t (hash_filename f)) with
  | some chain =>
    obtain ⟨_, i2, i3⟩ := chain_update_some f id _ chain hu
    simp only
    by_cases hg : g = f
    · subst hg
      rw [if_pos rfl, if_pos rfl]
      exact i2
    · rw [if_neg hg]
      by_cases hh : hash_filename g = hash_filename f
      · rw [if_pos hh, i3 g hg, hh]
      · rw [if_neg hh]
  | none =>
    simp only
    by_cases hg : g = f
    · subst hg
      rw [if_pos rfl, if_pos rfl, htake]
      simp [List.find?]
    · rw [if_neg hg]
      by_cases hh : hash_filename g = hash_filename f
      · have hfg : ¬ f = g := fun h => hg h.symm
        rw [if_pos hh, htake]
        simp only [List.find?, hfg, decide_False]
        rw [hh]
      · rw [if_neg hh]

/-- The lookup after `remove_file_mapping`, as the removal of a key. -/
theorem get_after_remove (t : FileHashTable) (h : TableReachable t) (f g : Str) :
    get_file_primary_ss (remove_file_mapping t f).2 g =
      map_remove (fun n => get_file_primary_ss t n) f g := by
  unfold map_remove
  unfold remove_file_mapping get_file_primary_ss
  simp only
  cases hu : chain_remove f (t (hash_filename f)) with
  | some chain =>
    obtain ⟨_, i2, i3⟩ :=
      chain_remove_some f _ chain (table_reachable_chains t h (hash_filename f)).2 hu
    simp only
    by_cases hg : g = f
    · subst hg
      rw [if_pos rfl, if_pos rfl, find_name_none chain g i2]
    · rw [if_neg hg]
      by_cases hh : hash_filename g = hash_filename f
      · rw [if_pos hh, i3 g hg, hh]
      · rw [if_neg hh]
  | none =>
    simp only
    by_cases hg : g = f
    · subst hg
      rw [if_pos rfl, find_name_none _ g ((chain_remove_none_iff g _).1 hu)]
    · rw [if_neg hg]

/-- The routing table refines a finite map from file name to node identifier on
the names that the node stores terminated.  For every table reachable from the empty one by `add_file_mapping`
(of names below `MAX_FILENAME_LENGTH - 1` bytes, which the node stores whole and
terminated) and `remove_file_mapping`, and every such name `f`: the lookups after
`add_file_mapping(f, id)` are those of the map updated at `f`, so `f` yields `id`
and every other name what it yielded before, the call answers `ERR_SUCCESS` and
the table then holds one entry for `f`; the lookups after `remove_file_mapping(f)`
are those of the map with `f` removed, so after a successful removal `f` yields
`-1` and no entry for `f` is left, every other name yields what it yielded
before, the removal succeeds exactly when the table holds an entry for `f`, and
the removal of an absent `f` answers `ERR_FILE_NOT_FOUND` and leaves the table as
it was. -/
theorem routing_table_refines_map (t : FileHashTable) (f : Str) (id : Int)
    (hreach : TableReachable t) (hf : f.length < MAX_FILENAME_LENGTH - 1) :
    ((fun g => get_file_primary_ss (add_file_mapping t f id).2 g) =
        map_add (fun g => get_file_primary_ss t g) f id ∧
      (add_file_mapping t f id).1 = ERR_SUCCESS ∧
      get_file_primary_ss (add_file_mapping t f id).2 f = id ∧
      entries_for (add_file_mapping t f id).2 f = 1 ∧
      (∀ g, g ≠ f → get_file_primary_ss (add_file_mapping t f id).2 g =
        get_file_primary_ss t g)) ∧
    ((fun g => get_file_primary_ss (remove_file_mapping t f).2 g) =
        map_remove (fun g => get_file_primary_ss t g) f ∧
      ((remove_file_mapping t f).1 = ERR_SUCCESS →
        get_file_primary_ss (remove_file_mapping t f).2 f = -1 ∧
        entries_for (remove_file_mapping t f).2 f = 0) ∧
      ((remove_file_mapping t f).1 = ERR_SUCCESS ↔ entries_for t f ≠ 0) ∧
      (entries_for t f = 0 → remove_file_mapping t f = (ERR_FILE_NOT_FOUND, t)) ∧
      (∀ g, g ≠ f → get_file_primary_ss (remove_file_mapping t f).2 g =
        get_file_primary_ss t g)) := by
  have hadd := get_after_add t f id hf
  have hrem := get_after_remove t hreach f
  have hreach_add : TableReachable (add_file_mapping t f id).2 :=
    TableReachable.add t f id hreach hf
  have hreach_rem : TableReachable (remove_file_mapping t f).2 :=
    TableReachable.remove t f hreach
  have hnd := (table_reachable_chains t hreach (hash_filename f)).2
  have hcount := entries_for_bucket t hreach f
  rw [filter_name_length _ f hnd] at hcount
  refine ⟨⟨funext hadd, ?_, ?_, ?_, ?_⟩, ⟨funext hrem, ?_, ?_, ?_, ?_⟩⟩
  · unfold add_file_mapping
    simp only
    cases chain_update f id (t (hash_filename f)) <;> rfl
  · rw [hadd f]; simp [map_add]
  · rw [entries_for_bucket _ hreach_add f,
      filter_name_length _ f (table_reachable_chains _ hreach_add (hash_filename f)).2]
    have hmem : f ∈ ((add_file_mapping t f id).2 (hash_filename f)).map
        (fun m => m.filename) := by
      unfold add_file_mapping
      simp only
      cases hu : chain_update f id (t (hash_filename f)) with
      | some chain =>
        simp only [if_true]
        rw [(chain_update_some f id _ chain hu).1]
        by_contra hno
        have : chain_update f id (t (hash_filename f)) = none :=
          (chain_update_none_iff f id _).2
            (fun m hm hmf => hno (List.mem_map.2 ⟨m, hm, hmf⟩))
        rw [hu] at this
        cases this
      | none =>
        simp only [if_true, List.map_cons, List.mem_cons]
        left
        exact (List.take_of_length_le (by omega)).symm
    rw [if_pos hmem]
  · intro g hg
    rw [hadd g]; simp [map_add, hg]
  · intro _
    constructor
    · rw [hrem f]; simp [map_remove]
    · rw [entries_for_bucket _ hreach_rem f,
        filter_name_length _ f (table_reachable_chains _ hreach_rem (hash_filename f)).2]
      have hnot : f ∉ ((remove_file_mapping t f).2 (hash_filename f)).map
          (fun m => m.filename) := by
        unfold remove_file_mapping
        simp only
        cases hu : chain_remove f (t (hash_filename f)) with
        | some chain =>
          simp only [if_true]
          intro hmem
          obtain ⟨m, hm, hmf⟩ := List.mem_map.1 hmem
          exact (chain_remove_some f _ chain hnd hu).2.1 m hm hmf
        | none =>
          simp only
          intro hmem
          obtain ⟨m, hm, hmf⟩ := List.mem_map.1 hmem
          exact (chain_remove_none_iff f _).1 hu m hm hmf
      rw [if_neg hnot]
  · rw [hcount]
    unfold remove_file_mapping
    simp only
    cases hu : chain_remove f (t (hash_filename f)) with
    | some chain =>
      have hmem : f ∈ (t (hash_filename f)).map (fun m => m.filename) := by
        by_contra hno
        have : chain_remove f (t (hash_filename f)) = none :=
          (chain_remove_none_iff f _).2
            (fun m hm hmf => hno (List.mem_map.2 ⟨m, hm, hmf⟩))
        rw [hu] at this
        cases this
      simp [hmem]
    | none =>
      have hnot : f ∉ (t (hash_filename f)).map (fun m => m.filename) := by
        intro hmem
        obtain ⟨m, hm, hmf⟩ := List.mem_map.1 hmem
        exact (chain_remove_none_iff f _).1 hu m hm hmf
      have e1 : ERR_FILE_NOT_FOUND ≠ ERR_SUCCESS := by decide
      simp [hnot, e1]
  · intro h0
    rw [hcount] at h0
    have hnot : f ∉ (t (hash_filename f)).map (fun m => m.filename) := by
      intro hmem
      rw [if_pos hmem] at h0
      cases h0
    have hu : chain_remove f (t (hash_filename f)) = none :=
      (chain_remove_none_iff f _).2 (fun m hm hmf => hnot (List.mem_map.2 ⟨m, hm, hmf⟩))
    unfold remove_file_mapping
    simp only [hu]
  · intro g hg
    rw [hrem g]; simp [map_remove, hg]

/-- The refinement at a table with two files, `b.txt` on node 2 and `a.txt` on node 1:
adding `a.txt` again for node 3 and removing it. -/
theorem routing_table_refines_map_witness :
    TableReachable (add_file_mapping (add_file_mapping init_hash_table
        "a.txt".toList 1).2 "b.txt".toList 2).2 ∧
    "a.txt".toList.length < MAX_FILENAME_LENGTH - 1 ∧
    get_file_primary_ss (add_file_mapping (add_file_mapping (add_file_mapping
        init_hash_table "a.txt".toList 1).2 "b.txt".toList 2).2 "a.txt".toList 3).2
        "a.txt".toList = 3 ∧
    get_file_primary_ss (remove_file_mapping (add_file_mapping (add_file_mapping
        init_hash_table "a.txt".toList 1).2 "b.txt".toList 2).2 "a.txt".toList).2
        "a.txt".toList = -1 :=
  have hreach : TableReachable (add_file_mapping (add_file_mapping init_hash_table
      "a.txt".toList 1).2 "b.txt".toList 2).2 :=
    TableReachable.add _ _ _ (TableReachable.add _ _ _ TableReachable.init (by decide))
      (by decide)
  ⟨hreach, by decide,
    (routing_table_refines_map _ "a.txt".toList 3 hreach (by decide)).1.2.2.1,
    ((routing_table_refines_map _ "a.txt".toList 3 hreach (by decide)).2.2.1
      (by decide)).1⟩

/-! ## Insertion of a text without delimiter characters -/

theorem strtok_aux_chars (sep : Char → Bool) (P : Char → Prop) (s cur : Str)
    (hs : ∀ c ∈ s, P c) (hcur : ∀ c ∈ cur, P c) :
    ∀ t ∈ strtok_aux sep s cur, ∀ c ∈ t, P c := by
  induction s generalizing cur with
  | nil =>
    intro t ht
    simp only [strtok_aux] at ht
    by_cases hc : cur.isEmpty = true
    · simp [hc] at ht
    · simp only [hc, Bool.false_eq_true, if_false, List.mem_singleton] at ht
      subst ht
      exact hcur
  | cons x xs ih =>
    intro t ht
    have hxs : ∀ c ∈ xs, P c := fun c hc => hs c (List.mem_cons_of_mem _ hc)
    simp only [strtok_aux] at ht
    by_cases hsep : sep x = true
    · simp only [hsep, if_true] at ht
      by_cases hc : cur.isEmpty = true
      · simp only [hc, if_true] at ht
        exact ih [] hxs (fun c hc => by simp at hc) t ht
      · simp only [hc, Bool.false_eq_true, if_false, List.mem_cons] at ht
        rcases ht with rfl | ht
        · exact hcur
        · exact ih [] hxs (fun c hc => by simp at hc) t ht
    · simp only [hsep, Bool.false_eq_true, if_false] at ht
      refine ih (cur ++ [x]) hxs ?_ t ht
      intro c hc
      rcases List.mem_append.1 hc with h | h
      · exact hcur c h
      · rw [List.mem_singleton] at h
        subst h
        exact hs c (List.mem_cons_self _ _)

/-- The tokens of a text without delimiter character hold none. -/
theorem tokens_plain (text : Str) (hplain : ∀ c ∈ text, is_sentence_delimiter c = false) :
    ∀ t ∈ strtok_all is_space text, t.any is_sentence_delimiter = false := by
  intro t ht
  have h := strtok_aux_chars is_space (fun c => is_sentence_delimiter c = false) text []
    hplain (fun c hc => by simp at hc) t ht
  rw [← Bool.not_eq_true, List.any_eq_true]
  rintro ⟨c, hc, hd⟩
  rw [h c hc] at hd
  cases hd

/-- C28.  On a document whose sentence `s` exists and stores its word count, with
`0 ≤ w ≤` that count and a text free of `. ! ?` within the input limits (under
2048 bytes, at most 100 tokens), `modify_sentence_multiword` succeeds and
returns `s`; the document after the call differs only in sentence `s`, whose
word list is the old one with the tokens of the text, in order, in front of the
old word at index `w` (at the tail when `w` is the word count), whose stored
word count is the length of that list, and whose terminator is the old one; the
sentence count and the other sentences are unchanged. -/
theorem insert_plain_text (file : FileContent) (before after : List SentenceNode)
    (cur : SentenceNode) (w : Int) (text : Str)
    (hdoc : file.head = before ++ cur :: after)
    (hsc : (before.length : Int) < file.sentence_count)
    (hcount : cur.word_count = cur.words.length)
    (hw0 : 0 ≤ w) (hw : w ≤ cur.word_count)
    (hplain : ∀ c ∈ text, is_sentence_delimiter c = false)
    (hlen : text.length < MAX_SENTENCE_LENGTH)
    (htok : (strtok_all is_space text).length ≤ 100) :
    modify_sentence_multiword file before.length w text =
      .ok ({ file with
              head := before ++
                ⟨cur.words.take w.toNat ++ strtok_all is_space text ++ cur.words.drop w.toNat,
                  cur.word_count + (strtok_all is_space text).length, cur.delimiter⟩ :: after },
           before.length) ∧
    cur.word_count + ((strtok_all is_space text).length : Int) =
      ((cur.words.take w.toNat ++ strtok_all is_space text ++
        cur.words.drop w.toNat).length : Int) ∧
    (before ++ (⟨cur.words.take w.toNat ++ strtok_all is_space text ++ cur.words.drop w.toNat,
        cur.word_count + (strtok_all is_space text).length, cur.delimiter⟩ : SentenceNode)
        :: after).length = file.head.length := by
  have hnat : ((before.length : Int)).toNat = before.length := Int.toNat_natCast _
  have hwords : parse_input_words text = strtok_all is_space text :=
    parse_input_words_eq text hlen htok
  have hk : w.toNat ≤ cur.words.length := by omega
  have hst0 : start_state file before.length w cur after =
      { before := before, pre := cur.words.take w.toNat, post := cur.words.drop w.toNat,
        word_count := cur.word_count, delimiter := cur.delimiter, after := after,
        sentence_count := file.sentence_count, current_sent := before.length } := by
    simp only [start_state, hnat, hdoc, List.take_left]
    by_cases h0 : 0 < w.toNat
    · simp [h0, hk]
    · have : w.toNat = 0 := by omega
      simp [this]
  have hloop := modify_loop_plain (loop_fuel (strtok_all is_space text))
    (strtok_all is_space text) (start_state file before.length w cur after) cur.delimiter
    (tokens_plain text hplain) (length_le_loop_fuel _)
  have hdrop : file.head.drop before.length = cur :: after := by
    rw [hdoc, List.drop_left]
  refine ⟨?_, ?_, ?_⟩
  · unfold modify_sentence_multiword
    rw [if_neg (by omega), hnat, hdrop]
    simp only
    rw [if_neg (by omega), hwords, hloop, hst0]
    simp [ModifyState.sentences, ModifyState.active]
  · rw [hcount]
    simp only [List.length_append, List.length_take, List.length_drop, Nat.cast_add]
    omega
  · rw [hdoc]
    simp

/-- Witness of C28: on the document `Hello world.` / `Bye now!`, `big shiny` at word 1 of
sentence 0. -/
theorem insert_plain_text_witness :
    doc_hello_bye.head = [] ++ (⟨["Hello".toList, "world".toList], 2, '.'⟩ : SentenceNode) ::
      [⟨["Bye".toList, "now".toList], 2, '!'⟩] ∧
    strtok_all is_space "big shiny".toList = ["big".toList, "shiny".toList] ∧
    modify_sentence_multiword doc_hello_bye 0 1 "big shiny".toList =
      .ok ({ doc_hello_bye with
              head := [⟨["Hello".toList, "big".toList, "shiny".toList, "world".toList], 4, '.'⟩,
                       ⟨["Bye".toList, "now".toList], 2, '!'⟩] },
           0) :=
  ⟨rfl, by decide,
   (insert_plain_text doc_hello_bye [] [⟨["Bye".toList, "now".toList], 2, '!'⟩]
      ⟨["Hello".toList, "world".toList], 2, '.'⟩ 1 "big shiny".toList rfl (by decide) rfl
      (by decide) (by decide) (by decide) (by decide) (by decide)).1⟩

/-! ## Words and counters across `modify_sentence_multiword` -/

/-- The loop invariant on the counters. -/
theorem modify_loop_counters (fuel : Nat) (words : List Str) (st st' : ModifyState) (od : Char)
    (hI : st.word_count = ((st.pre.length + st.post.length : Nat) : Int) ∧
      (∀ s ∈ st.before, s.word_count = (s.words.length : Int)) ∧
      (∀ s ∈ st.after, s.word_count = (s.words.length : Int)) ∧
      st.sentence_count = ((st.before.length + 1 + st.after.length : Nat) : Int))
    (h : modify_loop fuel words st od = some st') :
    st'.word_count = ((st'.pre.length + st'.post.length : Nat) : Int) ∧
      (∀ s ∈ st'.before, s.word_count = (s.words.length : Int)) ∧
      (∀ s ∈ st'.after, s.word_count = (s.words.length : Int)) ∧
      st'.sentence_count = ((st'.before.length + 1 + st'.after.length : Nat) : Int) := by
  refine modify_loop_invariant (fun st =>
    st.word_count = ((st.pre.length + st.post.length : Nat) : Int) ∧
      (∀ s ∈ st.before, s.word_count = (s.words.length : Int)) ∧
      (∀ s ∈ st.after, s.word_count = (s.words.length : Int)) ∧
      st.sentence_count = ((st.before.length + 1 + st.after.length : Nat) : Int)) od
    ?_ ?_ fuel words st st' hI h
  · rintro st w ⟨h1, h2, h3, h4⟩
    refine ⟨?_, h2, h3, h4⟩
    simp only [insert_word, List.length_append, List.length_singleton]
    rw [h1]
    push_cast
    omega
  · rintro st d more _ ⟨h1, h2, h3, h4⟩
    unfold end_sentence
    by_cases hc : (!st.pre.isEmpty && !st.post.isEmpty) = true
    · rw [if_pos hc]
      simp only
      by_cases hm : (if od ≠ NUL then od else NUL) ≠ NUL ∧ more = true
      · rw [if_pos hm]
        refine ⟨by simp, ?_, h3, ?_⟩
        · intro s hs
          simp only [List.mem_append, List.mem_cons, List.mem_singleton, List.not_mem_nil,
            or_false] at hs
          rcases hs with hs | rfl | rfl
          · exact h2 s hs
          · simp only
            rw [h1]
            push_cast
            omega
          · rfl
        · simp only [List.length_append, List.length_cons, List.length_nil]
          rw [h4]
          push_cast
          omega
      · rw [if_neg hm]
        refine ⟨by simp, ?_, h3, ?_⟩
        · intro s hs
          simp only [List.mem_append, List.mem_singleton] at hs
          rcases hs with hs | rfl
          · exact h2 s hs
          · simp only
            rw [h1]
            push_cast
            omega
        · simp only [List.length_append, List.length_cons, List.length_nil]
          rw [h4]
          push_cast
          omega
    · rw [if_neg hc]
      refine ⟨by simp, ?_, h3, ?_⟩
      · intro s hs
        simp only [List.mem_append, List.mem_singleton] at hs
        rcases hs with hs | rfl
        · exact h2 s hs
        · simp only [List.length_append]
          rw [h1]
      · simp only [List.length_append, List.length_cons, List.length_nil]
        rw [h4]
        push_cast
        omega

/-- The documents that `load_file_content` builds store consistent counters. -/
theorem load_sentences_counters (content cur : Str) (skipping : Bool) :
    ∀ s ∈ load_sentences content cur skipping, s.word_count = (s.words.length : Int) := by
  have hparse : ∀ x : Str, (parse_words_to_list x).2 = ((parse_words_to_list x).1.length : Int) := by
    intro x
    unfold parse_words_to_list
    simp only
    split_ifs <;> simp
  induction content generalizing cur skipping with
  | nil =>
    intro s hs
    simp only [load_sentences] at hs
    split_ifs at hs
    · simp at hs
    · simp at hs
    · rw [List.mem_singleton] at hs
      subst hs
      exact hparse _
  | cons c cs ih =>
    intro s hs
    simp only [load_sentences] at hs
    split_ifs at hs
    · exact ih _ _ s hs
    · rcases List.mem_cons.1 hs with rfl | hs
      · exact hparse _
      · exact ih _ _ s hs
    · exact ih _ _ s hs

theorem counters_consistent_iff (file : FileContent) :
    counters_consistent file = true ↔
      file.sentence_count = (file.head.length : Int) ∧
      ∀ s ∈ file.head, s.word_count = (s.words.length : Int) := by
  unfold counters_consistent
  simp only [Bool.and_eq_true, decide_eq_true_eq, List.all_eq_true]

/-- A successful call keeps the counters consistent. -/
theorem modify_keeps_counters (file file' : FileContent) (s w : Int) (text : Str) (n : Int)
    (hcons : counters_consistent file = true)
    (h : modify_sentence_multiword file s w text = .ok (file', n)) :
    counters_consistent file' = true := by
  obtain ⟨cur, after, st, hs0, hs1, hdrop, hw0, hw1, hloop, hfile, _⟩ :=
    modify_ok_unfold file file' s w text n h
  obtain ⟨hsc, hwc⟩ := (counters_consistent_iff file).1 hcons
  have hsplit : file.head = file.head.take s.toNat ++ cur :: after := by
    rw [← hdrop, List.take_append_drop]
  have hcur : cur ∈ file.head := by rw [hsplit]; simp
  have hcurc := hwc cur hcur
  have hI := modify_loop_counters _ _ _ st cur.delimiter (by
    refine ⟨?_, ?_, ?_, ?_⟩
    · simp only [start_state]
      by_cases hat : 0 < w.toNat ∧ w.toNat ≤ cur.words.length
      · simp only [hat, and_self, decide_True, if_true, List.length_take, List.length_drop]
        rw [hcurc]
        congr 1
        omega
      · simp only [hat, decide_False, Bool.false_eq_true, if_false, List.length_nil]
        rw [hcurc]
        congr 1
        omega
    · intro x hx
      exact hwc x (List.mem_of_mem_take hx)
    · intro x hx
      apply hwc x
      rw [hsplit]
      exact List.mem_append_right _ (List.mem_cons_of_mem _ hx)
    · simp only [start_state]
      rw [hsc]
      congr 1
      have := congrArg List.length hsplit
      simp only [List.length_append, List.length_cons] at this
      omega) hloop
  obtain ⟨i1, i2, i3, i4⟩ := hI
  rw [counters_consistent_iff, hfile]
  simp only [ModifyState.sentences, ModifyState.active]
  constructor
  · rw [i4]
    simp only [List.length_append, List.length_cons]
    congr 1
    omega
  · intro x hx
    rcases List.mem_append.1 hx with hx | hx
    · exact i2 x hx
    · rcases List.mem_cons.1 hx with rfl | hx
      · simp only [List.length_append]
        rw [i1]
      · exact i3 x hx

/-- Every document that the node builds stores consistent counters. -/
theorem doc_reachable_counters (file : FileContent) (h : DocReachable file) :
    counters_consistent file = true := by
  induction h with
  | load filename content =>
    rw [counters_consistent_iff]
    exact ⟨rfl, load_sentences_counters content [] false⟩
  | modify file file' s w text n _ hm ih => exact modify_keeps_counters file file' s w text n ih hm

/-- C29.  `modify_sentence_multiword` neither loses nor duplicates a word: after
a successful call with a text within the input limits (under 2048 bytes, at most
100 tokens) the multiset of the words of the document is the multiset of the
previous words plus the non-empty pieces that the delimiter characters `. ! ?`
cut the tokens of the text into; and on a document whose stored counters are
the lengths of its lists (as in every document that `load_file_content` and
earlier calls build) every stored word count and the stored sentence count are
the lengths of the lists after the call too. -/
theorem modify_preserves_words_and_counters (file file' : FileContent) (s w : Int)
    (text : Str) (n : Int)
    (hlen : text.length < MAX_SENTENCE_LENGTH)
    (htok : (strtok_all is_space text).length ≤ 100)
    (h : modify_sentence_multiword file s w text = .ok (file', n)) :
    Multiset.ofList (all_words file'.head) =
      Multiset.ofList (all_words file.head) +
        Multiset.ofList (((strtok_all is_space text).map split_pieces).flatten) ∧
    (counters_consistent file = true →
      file'.sentence_count = (file'.head.length : Int) ∧
      ∀ sent ∈ file'.head, sent.word_count = (sent.words.length : Int)) ∧
    (DocReachable file → counters_consistent file = true) := by
  refine ⟨?_, fun hcons => (counters_consistent_iff file').1
    (modify_keeps_counters file file' s w text n hcons h), doc_reachable_counters file⟩
  obtain ⟨cur, after, st, hs0, hs1, hdrop, hw0, hw1, hloop, hfile, _⟩ :=
    modify_ok_unfold file file' s w text n h
  rw [parse_input_words_eq text hlen htok] at hloop
  have hne := strtok_all_nonempty is_space text
  have hwords := modify_loop_words _ _ _ _ st hne hloop
  have hpieces := head_tail_pieces (strtok_all is_space text) hne
  have hsplit : file.head = file.head.take s.toNat ++ cur :: after := by
    rw [← hdrop, List.take_append_drop]
  have hprepost : (start_state file s w cur after).pre ++ (start_state file s w cur after).post
      = cur.words := by
    simp only [start_state]
    split_ifs <;> simp
  have hold : all_words file.head =
      all_words (file.head.take s.toNat) ++
        ((start_state file s w cur after).pre ++ (start_state file s w cur after).post) ++
        all_words after := by
    rw [hprepost]
    conv_lhs => rw [hsplit]
    rw [all_words_append, all_words_cons, List.append_assoc]
  have hnew : all_words file'.head = all_words st.sentences := by rw [hfile]
  have hb : (start_state file s w cur after).before = file.head.take s.toNat := rfl
  have ha : (start_state file s w cur after).after = after := rfl
  rw [hb, ha] at hwords
  rw [hnew, hwords, hold, ← hpieces]
  show ((_ : List Str) : Multiset Str) = ((_ : List Str) : Multiset Str) + ((_ : List Str) : Multiset Str)
  rw [Multiset.coe_add, Multiset.coe_eq_coe, List.perm_iff_count]
  intro a
  simp only [List.count_append]
  omega

/-- Witness of C29: on the document `Hello world.` / `Bye now!`, `big. shiny` at word 1 of
sentence 0 adds the words `big` and `shiny`. -/
theorem modify_preserves_words_and_counters_witness :
    "big. shiny".toList.length < MAX_SENTENCE_LENGTH ∧
    (strtok_all is_space "big. shiny".toList).length ≤ 100 ∧
    modify_sentence_multiword doc_hello_bye 0 1 "big. shiny".toList =
      .ok (modified_document doc_hello_bye
        (modify_sentence_multiword doc_hello_bye 0 1 "big. shiny".toList), 2) ∧
    counters_consistent doc_hello_bye = true ∧
    Multiset.ofList (all_words (modified_document doc_hello_bye
        (modify_sentence_multiword doc_hello_bye 0 1 "big. shiny".toList)).head) =
      Multiset.ofList (all_words doc_hello_bye.head) +
        Multiset.ofList (((strtok_all is_space "big. shiny".toList).map split_pieces).flatten) ∧
    (modified_document doc_hello_bye
        (modify_sentence_multiword doc_hello_bye 0 1 "big. shiny".toList)).sentence_count = 4 :=
  ⟨by decide, by decide, rfl, by decide,
   (modify_preserves_words_and_counters doc_hello_bye _ 0 1 "big. shiny".toList 2
      (by decide) (by decide) rfl).1,
   by decide⟩

/-! ## The `INIT` handshake of the name node -/

/-- C26 (as amended).  The name node's `INIT` handshake does not validate the
user name (`is_valid_username` is applied by the client before it sends the
frame).  With `toks` the `|`-separated tokens of the first line of the frame:
a first token other than `INIT` is answered with
`ERROR|First message must be INIT|username` and a missing second token with
`ERROR|Missing username`, both without a change of the configuration; a second
token `u`, which is never empty, is cut to `MAX_USERNAME_LENGTH - 1` bytes, and
when an active session carries that name the answer is
`ERROR|User already connected` with the configuration unchanged, otherwise a
session of that name is put in front of the session list, the session count
goes up by one and the welcome frame is sent, whatever characters `u` holds. -/
theorem init_creates_session_without_validation (config : NameServerConfig)
    (buffer client_ip : Str) (client_port : Int) :
    (((strtok_all (fun c => c == '|')
          ((buffer.take (BUFFER_SIZE - 1)).takeWhile (fun c => c != '\n')))[0]? ≠
        some "INIT".toList →
      accept_client config buffer client_ip client_port =
        (config, ["ERROR|First message must be INIT|username\n".toList])) ∧
    ((strtok_all (fun c => c == '|')
          ((buffer.take (BUFFER_SIZE - 1)).takeWhile (fun c => c != '\n')))[0]? =
        some "INIT".toList →
      (strtok_all (fun c => c == '|')
          ((buffer.take (BUFFER_SIZE - 1)).takeWhile (fun c => c != '\n')))[1]? = none →
      accept_client config buffer client_ip client_port =
        (config, ["ERROR|Missing username\n".toList]))) ∧
    ∀ u, (strtok_all (fun c => c == '|')
          ((buffer.take (BUFFER_SIZE - 1)).takeWhile (fun c => c != '\n')))[0]? =
        some "INIT".toList →
      (strtok_all (fun c => c == '|')
          ((buffer.take (BUFFER_SIZE - 1)).takeWhile (fun c => c != '\n')))[1]? = some u →
      u ≠ [] ∧
      ((∃ c ∈ config.client_sessions,
          c.username = u.take (MAX_USERNAME_LENGTH - 1) ∧ c.is_active = true) →
        accept_client config buffer client_ip client_port =
          (config, ["ERROR|User already connected\n".toList])) ∧
      ((∀ c ∈ config.client_sessions,
          c.username = u.take (MAX_USERNAME_LENGTH - 1) → c.is_active = false) →
        accept_client config buffer client_ip client_port =
          ({ config with
              client_sessions :=
                { username := u.take (MAX_USERNAME_LENGTH - 1),
                  ip := client_ip.take (INET_ADDRSTRLEN - 1),
                  port := client_port, is_active := true } :: config.client_sessions,
              client_session_count := config.client_session_count + 1 },
           [("SUCCESS|Welcome ".toList ++ u.take (MAX_USERNAME_LENGTH - 1) ++
              "! Connected to LangOS Name Server.\n".toList).take 255])) := by
  have e1 : ERR_ALREADY_HAS_ACCESS ≠ ERR_SUCCESS := by decide
  refine ⟨⟨?_, ?_⟩, ?_⟩
  · intro h0
    unfold accept_client
    simp only
    cases ht : (strtok_all (fun c => c == '|')
        ((buffer.take (BUFFER_SIZE - 1)).takeWhile (fun c => c != '\n')))[0]? with
    | none => rfl
    | some cmd =>
      rw [ht] at h0
      have hcmd : cmd ≠ "INIT".toList := fun h => h0 (by rw [h])
      simp only [if_pos hcmd]
  · intro h0 h1
    unfold accept_client
    simp only [h0, h1, ne_eq, not_true_eq_false, if_false]
  · intro u h0 h1
    refine ⟨?_, ?_, ?_⟩
    · exact strtok_all_nonempty _ _ u (List.getElem?_mem h1)
    · rintro ⟨c, hc, hcu, hca⟩
      have hany : config.client_sessions.any (fun c =>
          decide (c.username = (create_client_session u client_ip client_port).username) &&
            c.is_active) = true := by
        rw [List.any_eq_true]
        exact ⟨c, hc, by simp [create_client_session, hcu, hca]⟩
      simp only [create_client_session] at hany
      unfold accept_client
      simp only [h0, h1, ne_eq, not_true_eq_false, if_false, add_client_session,
        create_client_session, hany, if_true, e1, not_false_eq_true]
    · intro hno
      have hany : config.client_sessions.any (fun c =>
          decide (c.username = (create_client_session u client_ip client_port).username) &&
            c.is_active) = false := by
        rw [← Bool.not_eq_true, List.any_eq_true]
        rintro ⟨c, hc, hcond⟩
        simp only [create_client_session, Bool.and_eq_true, decide_eq_true_eq] at hcond
        rw [hno c hc hcond.1] at hcond
        exact Bool.false_ne_true hcond.2
      simp only [create_client_session] at hany
      unfold accept_client
      simp only [h0, h1, ne_eq, not_true_eq_false, if_false, add_client_session, hany,
        Bool.false_eq_true, create_client_session]

/-- Witness of C26 (as amended): the frame `INIT|alice` at a name node without
sessions creates the session of alice and is answered with the welcome frame. -/
theorem init_creates_session_without_validation_witness :
    (strtok_all (fun c => c == '|')
        (("INIT|alice\n".toList.take (BUFFER_SIZE - 1)).takeWhile (fun c => c != '\n')))[0]? =
      some "INIT".toList ∧
    (strtok_all (fun c => c == '|')
        (("INIT|alice\n".toList.take (BUFFER_SIZE - 1)).takeWhile (fun c => c != '\n')))[1]? =
      some "alice".toList ∧
    (accept_client one_node_config "INIT|alice\n".toList "127.0.0.1".toList 5000).1.client_sessions =
      [{ username := "alice".toList, ip := "127.0.0.1".toList, port := 5000,
         is_active := true }] ∧
    (accept_client one_node_config "INIT|alice\n".toList "127.0.0.1".toList 5000).2 =
      ["SUCCESS|Welcome alice! Connected to LangOS Name Server.\n".toList] :=
  ⟨by decide, by decide,
   (congrArg (fun r => r.1.client_sessions)
      (((init_creates_session_without_validation one_node_config "INIT|alice\n".toList
        "127.0.0.1".toList 5000).2 "alice".toList (by decide) (by decide)).2.2
        (fun c hc => absurd hc (List.not_mem_nil c)))).trans (by decide),
   by decide⟩

/-- C26 as stated fails: the frames `INIT|bad name!` and `INIT|` followed by a
name of 70 bytes carry user names that `is_valid_username` rejects, and each
creates a session and is answered with the welcome frame; the long name is cut
to 63 bytes. -/
theorem init_accepts_invalid_username :
    is_valid_username "bad name!".toList = false ∧
    (accept_client one_node_config "INIT|bad name!\n".toList "127.0.0.1".toList 5000).1.client_sessions =
      [{ username := "bad name!".toList, ip := "127.0.0.1".toList, port := 5000,
         is_active := true }] ∧
    (accept_client one_node_config "INIT|bad name!\n".toList "127.0.0.1".toList 5000).1.client_session_count = 1 ∧
    (accept_client one_node_config "INIT|bad name!\n".toList "127.0.0.1".toList 5000).2 =
      ["SUCCESS|Welcome bad name!! Connected to LangOS Name Server.\n".toList] ∧
    is_valid_username long_name = false ∧
    (accept_client one_node_config ("INIT|".toList ++ long_name ++ "\n".toList)
        "127.0.0.1".toList 5000).1.client_sessions =
      [{ username := List.replicate 63 'a', ip := "127.0.0.1".toList, port := 5000,
         is_active := true }] ∧
    (accept_client one_node_config ("INIT|".toList ++ long_name ++ "\n".toList)
        "127.0.0.1".toList 5000).2 =
      ["SUCCESS|Welcome ".toList ++ List.replicate 63 'a' ++ "! Connected to LangOS Name Server.\n".toList] := by
  decide

/-! ## `READ` after `DELETE` -/

theorem dispatch_delete (username : Str) (config : NameServerConfig) (env : CommandEnv)
    (command : Str)
    (h0 : (strtok_all (fun c => c == '|') (command.take (BUFFER_SIZE - 1)))[0]? =
      some "DELETE".toList) :
    handle_session_command username config env command =
      handle_delete username config env
        (strtok_all (fun c => c == '|') (command.take (BUFFER_SIZE - 1))) := by
  unfold handle_session_command
  simp only [h0]
  simp only [(by decide : ¬ ("DELETE".toList = "QUIT".toList ∨ "DELETE".toList = "EXIT".toList)),
    (by decide : "DELETE".toList ≠ "CREATE".toList),
    (by decide : "DELETE".toList ≠ "VIEW".toList),
    (by decide : "DELETE".toList ≠ "READ".toList),
    (by decide : "DELETE".toList ≠ "WRITE".toList), if_false, if_true]

theorem dispatch_read (username : Str) (config : NameServerConfig) (env : CommandEnv)
    (command f : Str)
    (h0 : (strtok_all (fun c => c == '|') (command.take (BUFFER_SIZE - 1)))[0]? =
      some "READ".toList)
    (h1 : (strtok_all (fun c => c == '|') (command.take (BUFFER_SIZE - 1)))[1]? = some f) :
    handle_session_command username config env command =
      ⟨config, redirect_to_ss config username f ACCESS_READ, true⟩ := by
  unfold handle_session_command
  simp only [h0, h1]
  simp only [(by decide : ¬ ("READ".toList = "QUIT".toList ∨ "READ".toList = "EXIT".toList)),
    (by decide : "READ".toList ≠ "CREATE".toList),
    (by decide : "READ".toList ≠ "VIEW".toList), if_false, if_true]

/-- A `DELETE` that is answered with a `SUCCESS` frame has removed the routing
entry and changed nothing else. -/
theorem delete_success_config (username : Str) (config : NameServerConfig) (env : CommandEnv)
    (toks : List Str) (f r : Str) (h1 : toks[1]? = some f)
    (hr : (handle_delete username config env toks).replies = [r])
    (hs : r.take 7 = "SUCCESS".toList) :
    (handle_delete username config env toks).config =
      { config with file_table := (remove_file_mapping config.file_table f).2 } := by
  have key : ∀ (x : Str) (c : NameServerConfig) (b : Bool),
      x.take 7 ≠ "SUCCESS".toList →
      (⟨c, [x], b⟩ : CmdResult).replies = [r] → False := by
    intro x c b hx hxr
    simp only [List.cons.injEq, and_true] at hxr
    exact hx (hxr ▸ hs)
  unfold handle_delete at hr ⊢
  simp only [h1] at hr ⊢
  by_cases c1 : (!owner_check config.acl_manager f username) = true
  · rw [if_pos c1] at hr
    exact (key _ _ _ (by decide) hr).elim
  rw [if_neg c1] at hr ⊢
  by_cases c2 : get_file_primary_ss config.file_table f < 0
  · rw [if_pos c2] at hr
    exact (key _ _ _ (by decide) hr).elim
  rw [if_neg c2] at hr ⊢
  cases hfs : find_ss_session config (get_file_primary_ss config.file_table f) with
  | none =>
    rw [hfs] at hr
    exact (key _ _ _ (by decide) hr).elim
  | some ss =>
    rw [hfs] at hr
    simp only at hr ⊢
    by_cases c3 : (!env.connect_ok) = true
    · rw [if_pos c3] at hr
      exact (key _ _ _ (by decide) hr).elim
    rw [if_neg c3] at hr ⊢
    by_cases c4 : (env.ss_response.take (BUFFER_SIZE - 1)).isEmpty = true
    · rw [if_pos c4] at hr
      exact (key _ _ _ (by decide) hr).elim
    rw [if_neg c4] at hr ⊢
    by_cases c5 : (env.ss_response.take (BUFFER_SIZE - 1)).take 7 = "SUCCESS".toList
    · rw [if_pos c5]
    · rw [if_neg c5] at hr
      exact (key _ _ _ c5 hr).elim

/-- C24 (as amended).  After a `DELETE` of file `f` that the name node answered
with a `SUCCESS` frame (on a routing table built by `add_file_mapping` and
`remove_file_mapping`), the routing table has no entry for `f`, and a `READ` of
`f` by any client is answered with one error frame and leaves the configuration
as it is: `ERROR|Access denied` when the ACL check for read access fails for
that client, `ERROR|File not found` when it passes. -/
theorem read_after_delete_is_error (owner reader : Str) (config : NameServerConfig)
    (env env2 : CommandEnv) (delete_command read_command f r : Str)
    (hreach : TableReachable config.file_table)
    (hd0 : (strtok_all (fun c => c == '|') (delete_command.take (BUFFER_SIZE - 1)))[0]? =
      some "DELETE".toList)
    (hd1 : (strtok_all (fun c => c == '|') (delete_command.take (BUFFER_SIZE - 1)))[1]? =
      some f)
    (hr0 : (strtok_all (fun c => c == '|') (read_command.take (BUFFER_SIZE - 1)))[0]? =
      some "READ".toList)
    (hr1 : (strtok_all (fun c => c == '|') (read_command.take (BUFFER_SIZE - 1)))[1]? =
      some f)
    (hreply : (handle_session_command owner config env delete_command).replies = [r])
    (hsuccess : r.take 7 = "SUCCESS".toList) :
    get_file_primary_ss
      (handle_session_command owner config env delete_command).config.file_table f = -1 ∧
    (handle_session_command reader
        (handle_session_command owner config env delete_command).config env2
        read_command).replies =
      (if check_access (handle_session_command owner config env delete_command).config.acl_manager
          f reader ACCESS_READ
       then ["ERROR|File not found\n".toList] else ["ERROR|Access denied\n".toList]) ∧
    (handle_session_command reader
        (handle_session_command owner config env delete_command).config env2
        read_command).config =
      (handle_session_command owner config env delete_command).config := by
  rw [dispatch_delete owner config env delete_command hd0] at hreply ⊢
  have hcfg := delete_success_config owner config env _ f r hd1 hreply hsuccess
  have hget : get_file_primary_ss
      (handle_delete owner config env
        (strtok_all (fun c => c == '|')
          (delete_command.take (BUFFER_SIZE - 1)))).config.file_table f = -1 := by
    rw [hcfg]
    simp only
    rw [get_after_remove config.file_table hreach f f]
    simp [map_remove]
  refine ⟨hget, ?_, ?_⟩
  · rw [dispatch_read reader _ env2 read_command f hr0 hr1]
    simp only
    unfold redirect_to_ss
    by_cases hc : check_access (handle_delete owner config env
        (strtok_all (fun c => c == '|')
          (delete_command.take (BUFFER_SIZE - 1)))).config.acl_manager f reader ACCESS_READ = true
    · simp only [hc, Bool.not_true, Bool.false_eq_true, if_false, if_true, hget]
      rfl
    · have hc2 := eq_false_of_ne_true hc
      simp only [hc2, Bool.not_false, Bool.false_eq_true, if_false, if_true]
  · rw [dispatch_read reader _ env2 read_command f hr0 hr1]

/-- Witness of C24 (as amended), on the run of scenario S5: alice creates and deletes
`notes.txt`, then reads it. -/
theorem read_after_delete_is_error_witness :
    TableReachable recreate_nm_1.config.file_table ∧
    recreate_nm_2.replies = ["SUCCESS|File deleted successfully!\n".toList] ∧
    (handle_session_command "alice".toList recreate_nm_2.config ss_success_env
        "READ|notes.txt".toList).replies = ["ERROR|File not found\n".toList] :=
  have hreach : TableReachable recreate_nm_1.config.file_table :=
    TableReachable.add init_hash_table "notes.txt".toList 1 TableReachable.init (by decide)
  ⟨hreach, by decide,
   ((read_after_delete_is_error "alice".toList "alice".toList recreate_nm_1.config
      (env_of_reply recreate_ss_2.2) ss_success_env "DELETE|notes.txt".toList
      "READ|notes.txt".toList "notes.txt".toList "SUCCESS|File deleted successfully!\n".toList
      hreach (by decide) (by decide) (by decide) (by decide) (by decide)
      (by decide)).2.1).trans (by decide)⟩

/-- C24 as stated fails: alice creates `notes.txt` and deletes it, the name node
answers the `DELETE` with `SUCCESS`; carol, who never had access, then reads
the file and is answered with `ERROR|Access denied`, not with
`ERROR|File not found`. -/
theorem read_after_delete_access_denied :
    recreate_nm_2.replies = ["SUCCESS|File deleted successfully!\n".toList] ∧
    get_file_primary_ss recreate_nm_2.config.file_table "notes.txt".toList = -1 ∧
    check_access recreate_nm_1.config.acl_manager "notes.txt".toList "carol".toList
      ACCESS_READ = false ∧
    (handle_session_command "carol".toList recreate_nm_2.config ss_success_env
        "READ|notes.txt".toList).replies = ["ERROR|Access denied\n".toList] ∧
    (handle_session_command "carol".toList recreate_nm_2.config ss_success_env
        "READ|notes.txt".toList).replies ≠ ["ERROR|File not found\n".toList] := by
  decide

/-! ## Decimal rendering and `atoi` -/

theorem digitChar_lt_ten (k : Nat) (hk : k < 10) :
    (Nat.digitChar k).isDigit = true ∧ (Nat.digitChar k).toNat - 48 = k ∧
      Nat.digitChar k ≠ '-' ∧ Nat.digitChar k ≠ '+' := by
  interval_cases k <;> decide

/-- The digits that `%d` prints for a natural number are decimal digits whose
value, read from the left with a running value `acc`, is the number. -/
theorem toDigitsCore_spec (fuel n : Nat) (ds : List Char) (hf : n < fuel)
    (hds : ∀ c ∈ ds, c.isDigit = true) :
    (∀ c ∈ Nat.toDigitsCore 10 fuel n ds, c.isDigit = true) ∧
    (Nat.toDigitsCore 10 fuel n ds).foldl
        (fun acc c => acc * 10 + ((c.toNat - 48 : Nat) : Int)) 0 =
      ds.foldl (fun acc c => acc * 10 + ((c.toNat - 48 : Nat) : Int)) (n : Int) ∧
    Nat.toDigitsCore 10 fuel n ds ≠ [] := by
  induction fuel generalizing n ds with
  | zero => omega
  | succ fuel ih =>
    have hd := digitChar_lt_ten (n % 10) (Nat.mod_lt _ (by decide))
    have hds2 : ∀ c ∈ Nat.digitChar (n % 10) :: ds, c.isDigit = true := by
      intro c hc
      rcases List.mem_cons.1 hc with rfl | hc
      · exact hd.1
      · exact hds c hc
    unfold Nat.toDigitsCore
    simp only
    by_cases h0 : n / 10 = 0
    · rw [if_pos h0]
      refine ⟨hds2, ?_, by simp⟩
      have hn : n % 10 = n := Nat.mod_eq_of_lt (by omega)
      have hd1 := hd.2.1
      rw [hn] at hd1 ⊢
      simp only [List.foldl_cons, hd1]
      simp
    · rw [if_neg h0]
      obtain ⟨i1, i2, i3⟩ := ih (n / 10) (Nat.digitChar (n % 10) :: ds) (by omega) hds2
      refine ⟨i1, ?_, i3⟩
      rw [i2]
      simp only [List.foldl_cons, hd.2.1]
      congr 1
      have := Nat.div_add_mod n 10
      push_cast
      omega

theorem nat_to_str_spec (n : Nat) :
    (∀ c ∈ (toString n).toList, c.isDigit = true) ∧
    (toString n).toList.foldl (fun acc c => acc * 10 + ((c.toNat - 48 : Nat) : Int)) 0 = n ∧
    (toString n).toList ≠ [] := by
  have h := toDigitsCore_spec (n + 1) n [] (by omega) (fun c hc => by simp at hc)
  have e : (toString n).toList = Nat.toDigitsCore 10 (n + 1) n [] := rfl
  rw [e]
  exact ⟨h.1, by simpa using h.2.1, h.2.2⟩

theorem takeWhile_all (p : Char → Bool) (l : Str) (h : ∀ c ∈ l, p c = true) :
    l.takeWhile p = l := by
  induction l with
  | nil => rfl
  | cons c cs ih =>
    rw [List.takeWhile_cons, h c (List.mem_cons_self _ _)]
    simp only [if_true]
    rw [ih (fun x hx => h x (List.mem_cons_of_mem _ hx))]

/-- The rendering of an `int` by `%d` is made of digits and at most a leading
minus sign, and denotes the number. -/
theorem decimal_value_int_to_str (n : Int) :
    decimal_value (int_to_str n) = n ∧ int_to_str n ≠ [] ∧
      ∀ c ∈ int_to_str n, c.isDigit = true ∨ c = '-' := by
  have hdig : ∀ c : Char, c.isDigit = true →
      (c == ' ' || c == '\t' || c == '\n' || c == '\r' ||
        c == Char.ofNat 11 || c == Char.ofNat 12) = false ∧ c ≠ '-' ∧ c ≠ '+' := by
    intro c hc
    have h1 : 48 ≤ c.val ∧ c.val ≤ 57 := by
      simpa [Char.isDigit] using hc
    refine ⟨?_, ?_, ?_⟩
    · simp only [Bool.or_eq_false_iff, beq_eq_false_iff_ne, ne_eq]
      refine ⟨⟨⟨⟨⟨?_, ?_⟩, ?_⟩, ?_⟩, ?_⟩, ?_⟩ <;>
      · intro h
        rw [h] at h1
        revert h1
        decide
    · intro h
      rw [h] at h1
      revert h1
      decide
    · intro h
      rw [h] at h1
      revert h1
      decide
  have hnat : ∀ m : Nat, decimal_value (toString m).toList = (m : Int) := by
    intro m
    obtain ⟨i1, i2, i3⟩ := nat_to_str_spec m
    cases hs : (toString m).toList with
    | nil => exact absurd hs i3
    | cons c cs =>
      rw [hs] at i1 i2
      have hc := hdig c (i1 c (List.mem_cons_self _ _))
      unfold decimal_value
      simp only [List.dropWhile_cons, hc.1, Bool.false_eq_true, if_false]
      rw [takeWhile_all _ _ i1]
      split
      · rename_i r heq
        simp only [List.cons.injEq] at heq
        exact absurd heq.1 hc.2.1
      · rename_i r heq
        simp only [List.cons.injEq] at heq
        exact absurd heq.1 hc.2.2
      · exact i2
  cases n with
  | ofNat m =>
    have e : int_to_str (Int.ofNat m) = (toString m).toList := rfl
    rw [e]
    obtain ⟨i1, _, i3⟩ := nat_to_str_spec m
    exact ⟨hnat m, i3, fun c hc => Or.inl (i1 c hc)⟩
  | negSucc m =>
    have e : int_to_str (Int.negSucc m) = '-' :: (toString (m + 1)).toList := rfl
    rw [e]
    obtain ⟨i1, i2, i3⟩ := nat_to_str_spec (m + 1)
    refine ⟨?_, by simp, ?_⟩
    · unfold decimal_value
      simp only [List.dropWhile_cons]
      have hminus : (('-' : Char) == ' ' || '-' == '\t' || '-' == '\n' || '-' == '\r' ||
          '-' == Char.ofNat 11 || '-' == Char.ofNat 12) = false := by decide
      simp only [hminus, Bool.false_eq_true, if_false]
      rw [takeWhile_all _ _ i1, i2]
      rfl
    · intro c hc
      rcases List.mem_cons.1 hc with rfl | hc
      · exact Or.inr rfl
      · exact Or.inl (i1 c hc)

/-- `atoi` reads a value of `int` back from its rendering by `%d`. -/
theorem atoi_int_to_str (n : Int) (hmin : INT_MIN ≤ n) (hmax : n ≤ INT_MAX) :
    atoi (int_to_str n) = n := by
  unfold atoi strtol long_to_int
  rw [(decimal_value_int_to_str n).1]
  unfold INT_MIN at hmin
  unfold INT_MAX at hmax
  unfold LONG_MIN LONG_MAX
  rw [min_eq_right (by omega), max_eq_right (by omega)]
  omega

/-! ## The ACL cache file -/

theorem intersperse_cons_cons (d : Char) (w w2 : Str) (ws : List Str) :
    ((w :: w2 :: ws).intersperse [d]).flatten =
      w ++ d :: ((w2 :: ws).intersperse [d]).flatten := by
  simp [List.intersperse]

/-- `strtok` on a separator gives back the non-empty, separator-free parts that
were joined with it. -/
theorem strtok_intersperse (sep : Char → Bool) (d : Char) (hd : sep d = true)
    (parts : List Str) (h : ∀ w ∈ parts, w ≠ [] ∧ ∀ c ∈ w, sep c = false) :
    strtok_all sep ((parts.intersperse [d]).flatten) = parts := by
  unfold strtok_all
  induction parts with
  | nil => simp [strtok_aux]
  | cons w rest ih =>
    obtain ⟨hne, hsp⟩ := h w (List.mem_cons_self _ _)
    have hemp : w.isEmpty = false := by
      cases w with
      | nil => exact absurd rfl hne
      | cons _ _ => rfl
    cases rest with
    | nil =>
      have e : (([w] : List Str).intersperse [d]).flatten = w := by simp [List.intersperse]
      rw [e]
      have := strtok_aux_append sep w [] [] hsp
      rw [List.append_nil] at this
      rw [this]
      simp [strtok_aux, hemp]
    | cons w2 ws =>
      rw [intersperse_cons_cons, strtok_aux_append sep w _ [] hsp,
        strtok_aux_sep sep d _ _ hd, ih (fun x hx => h x (List.mem_cons_of_mem _ hx))]
      simp [hemp]

theorem intersperse_chars (d : Char) (parts : List Str) :
    ∀ c ∈ (parts.intersperse [d]).flatten, c = d ∨ ∃ w ∈ parts, c ∈ w := by
  induction parts with
  | nil => simp
  | cons w rest ih =>
    cases rest with
    | nil =>
      intro c hc
      have e : (([w] : List Str).intersperse [d]).flatten = w := by simp [List.intersperse]
      rw [e] at hc
      exact Or.inr ⟨w, List.mem_cons_self _ _, hc⟩
    | cons w2 ws =>
      intro c hc
      rw [intersperse_cons_cons, List.mem_append, List.mem_cons] at hc
      rcases hc with hc | rfl | hc
      · exact Or.inr ⟨w, List.mem_cons_self _ _, hc⟩
      · exact Or.inl rfl
      · rcases ih c hc with h | ⟨x, hx, hcx⟩
        · exact Or.inl h
        · exact Or.inr ⟨x, List.mem_cons_of_mem _ hx, hcx⟩

/-- One `fgets` call takes a line that fits the buffer whole. -/
theorem fgets_all_line (body rest cur : Str) (hb : ∀ c ∈ body, c ≠ '\n')
    (hlen : cur.length + body.length + 1 ≤ BUFFER_SIZE - 1) :
    fgets_all (body ++ '\n' :: rest) cur = (cur ++ body ++ ['\n']) :: fgets_all rest [] := by
  induction body generalizing cur with
  | nil => simp [fgets_all]
  | cons c cs ih =>
    have hc : (c == '\n') = false := by
      simpa using hb c (List.mem_cons_self _ _)
    have hroom : ¬ (cur.length + 1 = BUFFER_SIZE - 1) := by
      simp only [List.length_cons] at hlen
      omega
    rw [List.cons_append, fgets_all]
    simp only [hc, hroom, decide_False, Bool.or_self, Bool.false_eq_true, if_false]
    rw [ih (cur ++ [c]) (fun x hx => hb x (List.mem_cons_of_mem _ hx))
      (by simp only [List.length_append, List.length_cons, List.length_nil] at hlen ⊢; omega)]
    simp

theorem takeWhile_line (body : Str) (hb : ∀ c ∈ body, c ≠ '\n') :
    (body ++ ['\n']).takeWhile (fun c => c != '\n') = body := by
  induction body with
  | nil => simp
  | cons c cs ih =>
    have hc : (c != '\n') = true := by simpa using hb c (List.mem_cons_self _ _)
    rw [List.cons_append, List.takeWhile_cons, hc]
    simp only [if_true]
    rw [ih (fun x hx => hb x (List.mem_cons_of_mem _ hx))]

/-- The cut of an access-list token at its first colon. -/
theorem cut_at_colon (name level : Str) (hn : ∀ c ∈ name, c ≠ ':') :
    (name ++ ':' :: level).dropWhile (fun c => c != ':') = ':' :: level ∧
    (name ++ ':' :: level).takeWhile (fun c => c != ':') = name := by
  induction name with
  | nil => simp
  | cons c cs ih =>
    have hc : (c != ':') = true := by simpa using hn c (List.mem_cons_self _ _)
    obtain ⟨i1, i2⟩ := ih (fun x hx => hn x (List.mem_cons_of_mem _ hx))
    rw [List.cons_append, List.dropWhile_cons, List.takeWhile_cons, hc]
    simp only [if_true]
    exact ⟨i1, by rw [i2]⟩

theorem level_char_plain (c : Char) (h : c.isDigit = true ∨ c = '-') :
    c ≠ '|' ∧ c ≠ ',' ∧ c ≠ ':' ∧ c ≠ '\n' := by
  rcases h with h | rfl
  · have h1 : 48 ≤ c.val ∧ c.val ≤ 57 := by simpa [Char.isDigit] using h
    refine ⟨?_, ?_, ?_, ?_⟩ <;>
    · intro e
      rw [e] at h1
      revert h1
      decide
  · decide

theorem grant_update_none_of_not_listed (u : Str) (l : Int) (users : List (Str × Int))
    (h : ∀ p ∈ users, p.1 ≠ u) : grant_update u l users = none := by
  induction users with
  | nil => rfl
  | cons p rest ih =>
    simp only [grant_update, if_neg (h p (List.mem_cons_self _ _)),
      ih (fun x hx => h x (List.mem_cons_of_mem _ hx))]

/-- `grant_access` works on the last entry of a table when no earlier entry
carries the file name. -/
theorem grant_access_last (acc : AccessControlManager) (e : FileAccessControl) (f u : Str)
    (l : Int) (hacc : ∀ b ∈ acc, b.filename ≠ f) (he : e.filename = f) :
    (grant_access (acc ++ [e]) f u l).2 = acc ++ [(grant_in_acl e u l).2] := by
  induction acc with
  | nil => simp [grant_access, he]
  | cons b rest ih =>
    have hb := hacc b (List.mem_cons_self _ _)
    rw [List.cons_append, grant_access, if_neg hb]
    simp only
    rw [ih (fun x hx => hacc x (List.mem_cons_of_mem _ hx))]
    rfl

/-- The grants of the users of a stored line, one after the other, behind the
users already listed. -/
theorem grants_fold (acc : AccessControlManager) (f o : Str) (rest listed : List (Str × Int))
    (hacc : ∀ b ∈ acc, b.filename ≠ f)
    (hnd : ((listed ++ rest).map (fun p => p.1)).Nodup)
    (hlen : (listed ++ rest).length ≤ MAX_USERS)
    (hnames : ∀ p ∈ rest, p.1.length < MAX_USERNAME_LENGTH) :
    rest.foldl (fun T p => (grant_access T f p.1 p.2).2) (acc ++ [⟨f, o, listed⟩]) =
      acc ++ [⟨f, o, listed ++ rest⟩] := by
  induction rest generalizing listed with
  | nil => simp
  | cons p ps ih =>
    rw [List.foldl_cons, grant_access_last acc _ f p.1 p.2 hacc rfl]
    have hnot : ∀ q ∈ listed, q.1 ≠ p.1 := by
      intro q hq hqp
      rw [List.map_append, List.nodup_append] at hnd
      exact hnd.2.2 (List.mem_map.2 ⟨q, hq, rfl⟩)
        (List.mem_map.2 ⟨p, List.mem_cons_self _ _, hqp.symm⟩)
    have hroom : ¬ (listed.length ≥ MAX_USERS) := by
      simp only [List.length_append, List.length_cons] at hlen
      omega
    have htake : p.1.take (MAX_USERNAME_LENGTH - 1) = p.1 :=
      List.take_of_length_le (by have := hnames p (List.mem_cons_self _ _); omega)
    have hg : (grant_in_acl ⟨f, o, listed⟩ p.1 p.2).2 = ⟨f, o, listed ++ [p]⟩ := by
      unfold grant_in_acl
      simp only [grant_update_none_of_not_listed p.1 p.2 listed hnot, if_neg hroom, htake]
    rw [hg, ih (listed ++ [p]) (by simpa using hnd) (by simpa using hlen)
      (fun q hq => hnames q (List.mem_cons_of_mem _ hq))]
    simp

/-- The loop over the access list of a stored line: the tokens are the users,
and every token grants its user the stored level. -/
theorem load_user_access_fold (f : Str) (users : List (Str × Int)) (T : AccessControlManager)
    (hcolon : ∀ p ∈ users, ∀ c ∈ p.1, c ≠ ':')
    (hrange : ∀ p ∈ users, INT_MIN ≤ p.2 ∧ p.2 ≤ INT_MAX) :
    (users.map (fun p => p.1 ++ ":".toList ++ int_to_str p.2)).foldl (load_user_access f) T =
      users.foldl (fun T p => (grant_access T f p.1 p.2).2) T := by
  induction users generalizing T with
  | nil => rfl
  | cons p ps ih =>
    rw [List.map_cons, List.foldl_cons, List.foldl_cons,
      ih _ (fun q hq => hcolon q (List.mem_cons_of_mem _ hq))
        (fun q hq => hrange q (List.mem_cons_of_mem _ hq))]
    congr 1
    have e : p.1 ++ ":".toList ++ int_to_str p.2 = p.1 ++ ':' :: int_to_str p.2 := by simp
    obtain ⟨i1, i2⟩ := cut_at_colon p.1 (int_to_str p.2) (hcolon p (List.mem_cons_self _ _))
    unfold load_user_access
    rw [e, i1, i2]
    simp only
    rw [atoi_int_to_str p.2 (hrange p (List.mem_cons_self _ _)).1
      (hrange p (List.mem_cons_self _ _)).2]

theorem storable_name_iff (limit : Nat) (name : Str) :
    storable_name limit name = true ↔
      name ≠ [] ∧ name.length < limit ∧
      ∀ c ∈ name, c ≠ '|' ∧ c ≠ ',' ∧ c ≠ ':' ∧ c ≠ '\n' := by
  unfold storable_name
  simp only [Bool.and_eq_true, Bool.not_eq_true', decide_eq_true_eq, List.all_eq_true,
    bne_iff_ne, ne_eq, List.isEmpty_eq_false, and_assoc]

/-- The characters of an access-list token `user:level`. -/
theorem user_token_chars (p : Str × Int) :
    ∀ c ∈ p.1 ++ ":".toList ++ int_to_str p.2,
      c ∈ p.1 ∨ c = ':' ∨ (c.isDigit = true ∨ c = '-') := by
  intro c hc
  rw [List.mem_append, List.mem_append] at hc
  rcases hc with (hc | hc) | hc
  · exact Or.inl hc
  · exact Or.inr (Or.inl (by simpa using hc))
  · exact Or.inr (Or.inr ((decimal_value_int_to_str p.2).2.2 c hc))

/-- What `storable_entry` says, unfolded. -/
theorem storable_entry_facts (a : FileAccessControl) (h : storable_entry a = true) :
    storable_name MAX_FILENAME_LENGTH a.filename = true ∧
    storable_name MAX_USERNAME_LENGTH a.owner = true ∧
    (∃ l ps, a.users = (a.owner, l) :: ps) ∧
    (∀ p ∈ a.users, storable_name MAX_USERNAME_LENGTH p.1 = true) ∧
    (a.users.map (fun p => p.1)).Nodup ∧ a.users.length ≤ MAX_USERS ∧
    (acl_line a).length ≤ BUFFER_SIZE - 1 ∧
    ∀ p ∈ a.users, INT_MIN ≤ p.2 ∧ p.2 ≤ INT_MAX := by
  unfold storable_entry at h
  simp only [Bool.and_eq_true, decide_eq_true_eq, List.all_eq_true] at h
  obtain ⟨⟨⟨⟨⟨⟨⟨h1, h2⟩, h3⟩, h4⟩, hr⟩, h5⟩, h6⟩, h7⟩ := h
  refine ⟨h1, h2, ?_, h4, h5, h6, h7, hr⟩
  cases hu : a.users with
  | nil => rw [hu] at h3; cases h3
  | cons p ps =>
    rw [hu] at h3
    simp only [decide_eq_true_eq] at h3
    exact ⟨p.2, ps, by rw [← h3]⟩

/-- Loading the line of a storable entry whose file name is not in the table
yet appends the entry. -/
theorem load_acl_line_entry (acc : AccessControlManager) (a : FileAccessControl)
    (hacc : ∀ b ∈ acc, b.filename ≠ a.filename)
    (hcap : acc.length < MAX_FILES_PER_SS * MAX_STORAGE_SERVERS)
    (hst : storable_entry a = true) :
    load_acl_line acc (acl_line a) = acc ++ [a] ∧
    ∃ body, acl_line a = body ++ ['\n'] ∧ ∀ c ∈ body, c ≠ '\n' := by
  obtain ⟨hfn, hown, ⟨l0, ps, husers⟩, hnames, hnd, hmax, hline, hrange⟩ :=
    storable_entry_facts a hst
  obtain ⟨f1, f2, f3⟩ := (storable_name_iff _ _).1 hfn
  obtain ⟨o1, o2, o3⟩ := (storable_name_iff _ _).1 hown
  have hn : ∀ p ∈ a.users, p.1 ≠ [] ∧ p.1.length < MAX_USERNAME_LENGTH ∧
      ∀ c ∈ p.1, c ≠ '|' ∧ c ≠ ',' ∧ c ≠ ':' ∧ c ≠ '\n' :=
    fun p hp => (storable_name_iff _ _).1 (hnames p hp)
  -- the access list
  have hlist_chars : ∀ c ∈ ((a.users.map (fun p => p.1 ++ ":".toList ++ int_to_str p.2)).intersperse
      [',']).flatten, c ≠ '|' ∧ c ≠ '\n' := by
    intro c hc
    rcases intersperse_chars ',' _ c hc with rfl | ⟨w, hw, hcw⟩
    · exact ⟨by decide, by decide⟩
    · obtain ⟨p, hp, rfl⟩ := List.mem_map.1 hw
      rcases user_token_chars p c hcw with h | rfl | h
      · exact ⟨((hn p hp).2.2 c h).1, ((hn p hp).2.2 c h).2.2.2⟩
      · exact ⟨by decide, by decide⟩
      · exact ⟨(level_char_plain c h).1, (level_char_plain c h).2.2.2⟩
  have hlist_ne : ((a.users.map (fun p => p.1 ++ ":".toList ++ int_to_str p.2)).intersperse
      [',']).flatten ≠ [] := by
    rw [husers]
    cases ps with
    | nil =>
      intro h
      have := congrArg List.length h
      simp [List.intersperse] at this
    | cons q qs =>
      intro h
      have := congrArg List.length h
      simp [List.intersperse] at this
  have htoks_users : strtok_all (fun c => c == ',')
      (((a.users.map (fun p => p.1 ++ ":".toList ++ int_to_str p.2)).intersperse
        [',']).flatten) = a.users.map (fun p => p.1 ++ ":".toList ++ int_to_str p.2) := by
    apply strtok_intersperse _ ',' (by decide)
    intro w hw
    obtain ⟨p, hp, rfl⟩ := List.mem_map.1 hw
    constructor
    · intro h
      have := congrArg List.length h
      simp at this
    · intro c hc
      rcases user_token_chars p c hc with h | rfl | h
      · simpa using ((hn p hp).2.2 c h).2.1
      · decide
      · simpa using (level_char_plain c h).2.1
  -- the line
  have hbody : acl_line a =
      (([a.filename, a.owner,
        ((a.users.map (fun p => p.1 ++ ":".toList ++ int_to_str p.2)).intersperse
          [',']).flatten] : List Str).intersperse ['|']).flatten ++ ['\n'] := by
    unfold acl_line
    simp [List.intersperse]
  have hbody_chars : ∀ c ∈ (([a.filename, a.owner,
        ((a.users.map (fun p => p.1 ++ ":".toList ++ int_to_str p.2)).intersperse
          [',']).flatten] : List Str).intersperse ['|']).flatten, c ≠ '\n' := by
    intro c hc
    rcases intersperse_chars '|' _ c hc with rfl | ⟨w, hw, hcw⟩
    · decide
    · simp only [List.mem_cons, List.mem_singleton, List.not_mem_nil, or_false] at hw
      rcases hw with rfl | rfl | rfl
      · exact (f3 c hcw).2.2.2
      · exact (o3 c hcw).2.2.2
      · exact (hlist_chars c hcw).2
  have htoks : strtok_all (fun c => c == '|') ((([a.filename, a.owner,
        ((a.users.map (fun p => p.1 ++ ":".toList ++ int_to_str p.2)).intersperse
          [',']).flatten] : List Str).intersperse ['|']).flatten) =
      [a.filename, a.owner,
        ((a.users.map (fun p => p.1 ++ ":".toList ++ int_to_str p.2)).intersperse
          [',']).flatten] := by
    apply strtok_intersperse _ '|' (by decide)
    intro w hw
    simp only [List.mem_cons, List.mem_singleton, List.not_mem_nil, or_false] at hw
    rcases hw with rfl | rfl | rfl
    · exact ⟨f1, fun c hc => by simpa using (f3 c hc).1⟩
    · exact ⟨o1, fun c hc => by simpa using (o3 c hc).1⟩
    · exact ⟨hlist_ne, fun c hc => by simpa using (hlist_chars c hc).1⟩
  have hbody_ne : ((([a.filename, a.owner,
        ((a.users.map (fun p => p.1 ++ ":".toList ++ int_to_str p.2)).intersperse
          [',']).flatten] : List Str).intersperse ['|']).flatten).isEmpty = false := by
    cases hfl : a.filename with
    | nil => exact absurd hfl f1
    | cons c cs => simp [List.intersperse]
  -- the entry that `add_file_access` appends
  have hadd : (add_file_access acc a.filename a.owner).2 =
      acc ++ [⟨a.filename, a.owner, [(a.owner, ACCESS_OWNER)]⟩] := by
    unfold add_file_access
    have hany : acc.any (fun b => decide (b.filename = a.filename)) = false := by
      rw [← Bool.not_eq_true, List.any_eq_true]
      rintro ⟨b, hb, hbf⟩
      exact hacc b hb (of_decide_eq_true hbf)
    rw [if_neg (by omega), hany]
    simp only [Bool.false_eq_true, if_false]
    rw [List.take_of_length_le (by omega : a.filename.length ≤ MAX_FILENAME_LENGTH - 1),
      List.take_of_length_le (by omega : a.owner.length ≤ MAX_USERNAME_LENGTH - 1)]
  have htake : (((a.users.map (fun p => p.1 ++ ":".toList ++ int_to_str p.2)).intersperse
      [',']).flatten).take (BUFFER_SIZE - 1) =
      ((a.users.map (fun p => p.1 ++ ":".toList ++ int_to_str p.2)).intersperse
        [',']).flatten := by
    apply List.take_of_length_le
    have := hline
    rw [hbody] at this
    simp only [List.intersperse, List.flatten, List.length_append, List.length_cons,
      List.length_nil] at this
    omega
  -- the grants
  have hgrants : a.users.foldl (fun T p => (grant_access T a.filename p.1 p.2).2)
      (acc ++ [⟨a.filename, a.owner, [(a.owner, ACCESS_OWNER)]⟩]) = acc ++ [a] := by
    rw [husers, List.foldl_cons]
    simp only
    rw [grant_access_last acc ⟨a.filename, a.owner, [(a.owner, ACCESS_OWNER)]⟩ a.filename
      a.owner l0 hacc rfl]
    have hfirst : (grant_in_acl ⟨a.filename, a.owner, [(a.owner, ACCESS_OWNER)]⟩ a.owner l0).2 =
        ⟨a.filename, a.owner, [(a.owner, l0)]⟩ := by
      simp [grant_in_acl, grant_update]
    rw [hfirst, grants_fold acc a.filename a.owner ps [(a.owner, l0)] hacc
      (by rw [husers] at hnd; simpa using hnd) (by rw [husers] at hmax; simpa using hmax)
      (fun p hp => (hn p (by rw [husers]; exact List.mem_cons_of_mem _ hp)).2.1)]
    congr 1
    cases a
    simp only at husers
    simp [husers]
  refine ⟨?_, _, hbody, hbody_chars⟩
  unfold load_acl_line
  simp only
  rw [hbody, takeWhile_line _ hbody_chars, hbody_ne, htoks]
  simp only [Bool.false_eq_true, if_false, List.getElem?_cons_zero, List.getElem?_cons_succ]
  rw [hadd, htake, htoks_users, load_user_access_fold a.filename a.users _
    (fun p hp c hc => ((hn p hp).2.2 c hc).2.2.1) hrange, hgrants]

/-- Loading the lines of storable entries with fresh file names appends the
entries to the table, in order. -/
theorem load_lines_append (rest acc : AccessControlManager)
    (hnames : ((acc ++ rest).map (fun a => a.filename)).Nodup)
    (hcap : (acc ++ rest).length ≤ MAX_FILES_PER_SS * MAX_STORAGE_SERVERS)
    (hst : ∀ a ∈ rest, storable_entry a = true) :
    (fgets_all (save_acl_cache rest) []).foldl load_acl_line acc = acc ++ rest := by
  induction rest generalizing acc with
  | nil => simp [save_acl_cache, fgets_all]
  | cons a rest ih =>
    have hacc : ∀ b ∈ acc, b.filename ≠ a.filename := by
      intro b hb hba
      rw [List.map_append, List.nodup_append] at hnames
      exact hnames.2.2 (List.mem_map.2 ⟨b, hb, rfl⟩)
        (List.mem_map.2 ⟨a, List.mem_cons_self _ _, hba.symm⟩)
    have hlen : acc.length < MAX_FILES_PER_SS * MAX_STORAGE_SERVERS := by
      simp only [List.length_append, List.length_cons] at hcap
      omega
    have ha := hst a (List.mem_cons_self _ _)
    obtain ⟨hload, body, hbody, hchars⟩ := load_acl_line_entry acc a hacc hlen ha
    have hline := (storable_entry_facts a ha).2.2.2.2.2.2.1
    have hsave : save_acl_cache (a :: rest) = body ++ '\n' :: save_acl_cache rest := by
      unfold save_acl_cache
      rw [List.map_cons, List.flatten_cons, hbody]
      simp
    rw [hsave, fgets_all_line body _ [] hchars (by
      rw [hbody] at hline
      simp only [List.length_append, List.length_cons, List.length_nil] at hline ⊢
      omega)]
    rw [List.foldl_cons, List.nil_append, ← hbody, hload,
      ih (acc ++ [a]) (by simpa using hnames) (by simpa using hcap)
        (fun x hx => hst x (List.mem_cons_of_mem _ hx))]
    simp

/-- C23 (as amended).  The ACL cache round trip holds on the tables that the
line format determines: for a table within the capacity of the array, with one
entry per file name, whose entries each have storable names (not empty, within
the stored length, free of `|`, `,`, `:` and newline), list the owner first and
no user twice, hold at most `MAX_USERS` users at levels that are values of
`int`, and give a line that fits one `fgets` call, loading into the empty table the text that `save_acl_cache`
writes, one line `filename|owner|user:level,...` per entry, gives the same
table back: the same files in the same order, each with the same owner and the
same users and levels. -/
theorem acl_cache_round_trip (t : AccessControlManager)
    (hnames : (t.map (fun a => a.filename)).Nodup)
    (hcap : t.length ≤ MAX_FILES_PER_SS * MAX_STORAGE_SERVERS)
    (hst : ∀ a ∈ t, storable_entry a = true) :
    load_acl_cache [] (save_acl_cache t) = t := by
  unfold load_acl_cache
  rw [load_lines_append t [] (by simpa using hnames) (by simpa using hcap) hst]
  rfl

/-- Witness of C23 (as amended): on the table with `notes.txt` owned by alice and readable by
bob: the text written and the table loaded from it. -/
theorem acl_cache_round_trip_witness :
    (acl_alice_bob.map (fun a => a.filename)).Nodup ∧
    acl_alice_bob.length ≤ MAX_FILES_PER_SS * MAX_STORAGE_SERVERS ∧
    (∀ a ∈ acl_alice_bob, storable_entry a = true) ∧
    save_acl_cache acl_alice_bob = "notes.txt|alice|alice:4,bob:1\n".toList ∧
    load_acl_cache [] "notes.txt|alice|alice:4,bob:1\n".toList = acl_alice_bob ∧
    load_acl_cache [] (save_acl_cache acl_alice_bob) = acl_alice_bob :=
  ⟨by decide, by decide, by decide, by decide, by decide,
   acl_cache_round_trip acl_alice_bob (by decide) (by decide) (by decide)⟩

/-- C23 as stated fails: the table built by `add_file_access(notes.txt, alice)`
and `grant_access(notes.txt, "b,c", ACCESS_READ)` is written as
`notes.txt|alice|alice:4,b,c:1`, and loading that text lists the user `c`
instead of `b,c`: the line format does not keep a separator character inside a
name apart from the separators. -/
theorem acl_cache_loses_separator_names :
    acl_comma_name =
      [⟨"notes.txt".toList, "alice".toList,
        [("alice".toList, ACCESS_OWNER), ("b,c".toList, ACCESS_READ)]⟩] ∧
    save_acl_cache acl_comma_name = "notes.txt|alice|alice:4,b,c:1\n".toList ∧
    load_acl_cache [] (save_acl_cache acl_comma_name) =
      [⟨"notes.txt".toList, "alice".toList,
        [("alice".toList, ACCESS_OWNER), ("c".toList, ACCESS_READ)]⟩] ∧
    load_acl_cache [] (save_acl_cache acl_comma_name) ≠ acl_comma_name := by
  decide

/-! ## Runs behind the departures from the specification -/

/-- C20 (the code departs from the claim). alice creates `notes.txt` and sends
`ADDACCESS|-R|notes.txt|alice`, which lowers her own listing to level read; her
`REMACCESS|notes.txt|alice` is then answered with `SUCCESS`:
`revoke_access(notes.txt, alice)` returns `ERR_SUCCESS` for the owner of the
file and removes her listing, so that the entry lists nobody.  The guard of
`revoke_access` tests the stored level of the listing, not the owner field;
while the owner is listed at level owner the call returns
`ERR_PERMISSION_DENIED`. -/
theorem revoke_access_removes_owner_listing :
    (handle_session_command "alice".toList config_alice_created ss_success_env
      "ADDACCESS|-R|notes.txt|alice".toList).config.acl_manager =
      [⟨"notes.txt".toList, "alice".toList, [("alice".toList, ACCESS_READ)]⟩] ∧
    revoke_access [⟨"notes.txt".toList, "alice".toList, [("alice".toList, ACCESS_READ)]⟩]
        "notes.txt".toList "alice".toList =
      (ERR_SUCCESS, [⟨"notes.txt".toList, "alice".toList, []⟩]) ∧
    owner_revoked.replies = ["SUCCESS|Access removed successfully!\n".toList] ∧
    owner_revoked.config.acl_manager = [⟨"notes.txt".toList, "alice".toList, []⟩] ∧
    owner_check owner_revoked.config.acl_manager "notes.txt".toList "alice".toList = true ∧
    (revoke_access acl_alice "notes.txt".toList "alice".toList).1 = ERR_PERMISSION_DENIED := by
  decide

/-- C17 as stated fails: on `notes.txt` with the one sentence `Hello world.`, the
request `WRITE|notes.txt|4294967296|alice` carries an index that is neither
below the sentence count nor equal to it, and it is accepted: `atoi` gives the
`int` 0, the session is opened on sentence 0 under the lock of `notes.txt:0`,
and the update `0|Oh` with `ETIRW` writes `Oh Hello world.`. -/
theorem write_open_wraps_large_index :
    decimal_value "4294967296".toList = 4294967296 ∧
    atoi "4294967296".toList = 0 ∧
    sentence_index_admitted (parse_file_content "notes.txt".toList "Hello world.".toList)
      4294967296 = false ∧
    (write_open io_ok notes_state "notes.txt".toList "4294967296".toList
        "alice".toList).replies =
      ["SUCCESS|Sentence 0 locked for 'alice'. Send word updates (word_index|content), then ETIRW\n".toList] ∧
    (write_open io_ok notes_state "notes.txt".toList "4294967296".toList
        "alice".toList).state.locks =
      [⟨"notes.txt".toList, 0, true, "alice".toList⟩] ∧
    (handle_write io_ok notes_state "notes.txt".toList "4294967296".toList "alice".toList
        [some "0|Oh\n".toList, some "ETIRW\n".toList]).replies =
      ["SUCCESS|Sentence 0 locked for 'alice'. Send word updates (word_index|content), then ETIRW\n".toList,
       "SUCCESS|Word updated\n".toList, "SUCCESS|Write complete\n".toList] ∧
    (handle_write io_ok notes_state "notes.txt".toList "4294967296".toList "alice".toList
        [some "0|Oh\n".toList, some "ETIRW\n".toList]).state.disk.data "notes.txt".toList =
      some "Oh Hello world.".toList := by
  decide

theorem add_file_mapping_heap_nil (t : FileHashTable) (f : Str) (id : Int) :
    add_file_mapping_heap [] t f id = add_file_mapping t f id := by
  unfold add_file_mapping_heap add_file_mapping stored_filename
  simp only [List.append_nil]
  by_cases h : f.length < MAX_FILENAME_LENGTH - 1
  · rw [if_pos h, List.take_of_length_le (le_of_lt h)]
  · rw [if_neg h]

/-- C27 (the code departs from the claim). A file name of
`MAX_FILENAME_LENGTH - 1 = 255` bytes is within the length limit, and
`add_file_mapping` stores it without a terminator.  When the node's memory holds
a non-zero byte behind the 255 copied ones (`heap` is not empty), a name `f` of
that length that the table does not hold is added with `ERR_SUCCESS`, and then
`get_file_primary_ss(f)` returns -1, not the identifier,
`remove_file_mapping(f)` returns `ERR_FILE_NOT_FOUND`, and a second
`add_file_mapping(f, id)` links a second node.  When that byte is zero the call
is the one of the terminated case. -/
theorem unterminated_name_is_not_found (heap : Str) (t : FileHashTable) (f : Str) (id : Int)
    (hf : f.length = MAX_FILENAME_LENGTH - 1) (hheap : heap ≠ [])
    (hnew : ∀ m ∈ t (hash_filename f), m.filename ≠ f) :
    (add_file_mapping_heap heap t f id).1 = ERR_SUCCESS ∧
    get_file_primary_ss (add_file_mapping_heap heap t f id).2 f = -1 ∧
    (remove_file_mapping (add_file_mapping_heap heap t f id).2 f).1 = ERR_FILE_NOT_FOUND ∧
    ((add_file_mapping_heap heap (add_file_mapping_heap heap t f id).2 f id).2
        (hash_filename f)).length = (t (hash_filename f)).length + 2 ∧
    add_file_mapping_heap [] t f id = add_file_mapping t f id := by
  have hstored : stored_filename heap f = f ++ heap := by
    unfold stored_filename
    rw [if_neg (by omega), List.take_of_length_le (by omega)]
  have hne : f ++ heap ≠ f := by
    intro h
    have := congrArg List.length h
    rw [List.length_append] at this
    have hl : heap.length = 0 := by omega
    exact hheap (List.length_eq_zero.1 hl)
  have hnone : chain_update f id (t (hash_filename f)) = none :=
    (chain_update_none_iff f id _).2 hnew
  have hadd : add_file_mapping_heap heap t f id =
      (ERR_SUCCESS, fun i => if i = hash_filename f then
        (⟨f ++ heap, id⟩ : FileMapping) :: t (hash_filename f) else t i) := by
    unfold add_file_mapping_heap
    simp only [hnone, hstored]
  have hnew2 : ∀ m ∈ (⟨f ++ heap, id⟩ : FileMapping) :: t (hash_filename f), m.filename ≠ f := by
    intro m hm
    rcases List.mem_cons.1 hm with rfl | hm
    · exact hne
    · exact hnew m hm
  refine ⟨by rw [hadd], ?_, ?_, ?_, add_file_mapping_heap_nil t f id⟩
  · rw [hadd]
    unfold get_file_primary_ss
    simp only [if_true]
    rw [find_name_none _ f hnew2]
  · rw [hadd]
    unfold remove_file_mapping
    simp only [if_true]
    rw [(chain_remove_none_iff f _).2 hnew2]
  · rw [hadd]
    unfold add_file_mapping_heap
    simp only [if_true]
    rw [(chain_update_none_iff f id _).2 hnew2]
    simp only [if_true, List.length_cons]

/-- Witness of C27 (the code departs from the claim): the name of 255 letters `a`
is added to the empty table for node 1 while the node's memory holds the byte
`x` behind the copied name (the string then runs on over the byte 1 of the
identifier); the lookup of the name returns -1. -/
theorem unterminated_name_is_not_found_witness :
    name_255.length = MAX_FILENAME_LENGTH - 1 ∧
    (add_file_mapping_heap ['x', Char.ofNat 1] init_hash_table name_255 1).1 = ERR_SUCCESS ∧
    get_file_primary_ss
      (add_file_mapping_heap ['x', Char.ofNat 1] init_hash_table name_255 1).2 name_255 = -1 ∧
    (remove_file_mapping
      (add_file_mapping_heap ['x', Char.ofNat 1] init_hash_table name_255 1).2 name_255).1 =
      ERR_FILE_NOT_FOUND :=
  have hlen : name_255.length = MAX_FILENAME_LENGTH - 1 := by
    unfold name_255
    rw [List.length_replicate]
    rfl
  have h := unterminated_name_is_not_found ['x', Char.ofNat 1] init_hash_table name_255 1
    hlen (by simp) (fun m hm => by simp [init_hash_table] at hm)
  ⟨hlen, h.1, h.2.1, h.2.2.1⟩

end DFS
